import Mathlib

/-!
# bluetoe: link-layer notification queue

Shallow embedding of `bluetoe/link_layer/notification_queue.hpp` and a
verification development over it.

Conventions of the embedding

* `std::size_t` and `int` values are natural numbers; none of the arithmetic of
  the queue can overflow (indices are reduced modulo `Size`).
* `std::uint8_t` array elements are natural numbers; every store into the array
  is reduced modulo `256`.
* A failing `assert` makes an operation return `none`; a loop that runs out of
  fuel returns `none` as well.
* The template argument `Size` is an explicit argument of the operations of the
  general tier.
-/

namespace bluetoe
namespace link_layer
namespace details

/-- Type of entry returned by a dequeue: enum `notification_queue_entry_type`. -/
inductive notification_queue_entry_type where
  | empty
  | notification
  | indication
  deriving DecidableEq, Repr

/-- Numeric value of an enumerator of `notification_queue_entry_type`. -/
def notification_queue_entry_type.toNat : notification_queue_entry_type → Nat
  | .empty => 0
  | .notification => 1
  | .indication => 2

/-- Result of `static_cast< notification_queue_entry_type >( v )`; values that name no
enumerator give `none`. -/
def notification_queue_entry_type.static_cast (v : Nat) : Option notification_queue_entry_type :=
  if v = 0 then some .empty
  else if v = 1 then some .notification
  else if v = 2 then some .indication
  else none

/-- Constant `bits_per_characteristc` of `notification_queue_impl`. -/
def bits_per_characteristc : Nat := 2

/-- Enumerator `notification_bit` of `char_bits`. -/
def notification_bit : Nat := 0x01

/-- Enumerator `indication_bit` of `char_bits`. -/
def indication_bit : Nat := 0x02

/-- Bit pattern of `~x` for an `int` value `0 ≤ x` (32 bit two's complement). -/
def int_complement (x : Nat) : Nat := 0xFFFFFFFF ^^^ x

/-- Data members of the general tier `notification_queue_impl< Size >`:
`next_`, the byte array `queue_` and `outstanding_confirmation_`. -/
structure notification_queue_impl where
  next_ : Nat
  queue_ : List Nat
  outstanding_confirmation_ : Nat
  deriving DecidableEq, Repr

namespace notification_queue_impl

/-- Local constant `bit_offset` of `at`, `add` and `remove`. -/
def bit_offset (index : Nat) : Nat := (index * bits_per_characteristc) % 8

/-- Local constant `byte_offset` of `at`, `add` and `remove`. -/
def byte_offset (index : Nat) : Nat := index * bits_per_characteristc / 8

/-- Member function `at`: the two bit entry of slot `index`. -/
def at_ (s : notification_queue_impl) (index : Nat) : Option Nat :=
  if byte_offset index < s.queue_.length then
    some ((s.queue_.getD (byte_offset index) 0 >>> bit_offset index) &&& 0x03)
  else none

/-- Member function `add`: sets `bits` in the entry of slot `index`; the result tells
whether none of the bits was set before. -/
def add (s : notification_queue_impl) (index : Nat) (bits : Nat) :
    Option (Bool × notification_queue_impl) :=
  if bits &&& ((1 <<< bits_per_characteristc) - 1) ≠ 0 then
    if byte_offset index < s.queue_.length then
      some ((s.queue_.getD (byte_offset index) 0 &&& (bits <<< bit_offset index)) == 0,
        { s with
          queue_ := List.set s.queue_ (byte_offset index)
            ((s.queue_.getD (byte_offset index) 0 ||| (bits <<< bit_offset index)) % 256) })
    else none
  else none

/-- Member function `remove`: clears `bits` in the entry of slot `index`. -/
def remove (s : notification_queue_impl) (index : Nat) (bits : Nat) :
    Option notification_queue_impl :=
  if bits &&& ((1 <<< bits_per_characteristc) - 1) ≠ 0 then
    if byte_offset index < s.queue_.length then
      some { s with
        queue_ := List.set s.queue_ (byte_offset index)
          ((s.queue_.getD (byte_offset index) 0 &&&
            int_complement (bits <<< bit_offset index)) % 256) }
    else none
  else none

/-- Member function `clear_indications_and_confirmations`. -/
def clear_indications_and_confirmations (Size : Nat) (s : notification_queue_impl) :
    notification_queue_impl :=
  { next_ := 0
    outstanding_confirmation_ := Size
    queue_ := s.queue_.map (fun _ => 0) }

/-- Constructor of `notification_queue_impl< Size >`: the array has
`( Size * bits_per_characteristc + 7 ) / 8` elements; the members that the constructor
does not initialise are overwritten by `clear_indications_and_confirmations`. -/
def construct (Size : Nat) : notification_queue_impl :=
  clear_indications_and_confirmations Size
    { next_ := 0
      queue_ := List.replicate ((Size * bits_per_characteristc + 7) / 8) 0
      outstanding_confirmation_ := Size }

/-- Member function `queue_notification`. -/
def queue_notification (Size : Nat) (s : notification_queue_impl) (index : Nat) :
    Option (Bool × notification_queue_impl) :=
  if index < Size then add s index notification_bit else none

/-- Member function `queue_indication`. -/
def queue_indication (Size : Nat) (s : notification_queue_impl) (index : Nat) :
    Option (Bool × notification_queue_impl) :=
  if index < Size then
    if s.outstanding_confirmation_ = index then some (false, s)
    else add s index indication_bit
  else none

/-- Member function `indication_confirmed`. -/
def indication_confirmed (Size : Nat) (s : notification_queue_impl) : notification_queue_impl :=
  if s.outstanding_confirmation_ ≠ Size then { s with outstanding_confirmation_ := Size } else s

/-- The `for` loop of `dequeue_indication_or_confirmation`, entered at the test of its
condition with loop variable `i` and flag `ignore_first`; every execution of the body
uses one unit of `fuel`. The members are written only right before a `return`, so the
condition always compares with the `next_` of the state the call started in. -/
def dequeue_loop (Size : Nat) (s : notification_queue_impl) :
    Nat → Nat → Bool → Option ((notification_queue_entry_type × Nat) × notification_queue_impl)
  | 0, i, ignore_first =>
    if ignore_first || i != s.next_ then none
    else some ((.empty, 0), s)
  | fuel + 1, i, ignore_first =>
    if ignore_first || i != s.next_ then
      match s.at_ i with
      | none => none
      | some entry =>
        if entry &&& indication_bit != 0 && s.outstanding_confirmation_ == Size then
          match remove { s with outstanding_confirmation_ := i, next_ := (i + 1) % Size }
              i indication_bit with
          | none => none
          | some s1 => some ((.indication, i), s1)
        else if entry &&& notification_bit != 0 then
          match remove { s with next_ := (i + 1) % Size } i notification_bit with
          | none => none
          | some s1 => some ((.notification, i), s1)
        else dequeue_loop Size s fuel ((i + 1) % Size) false
    else some ((.empty, 0), s)

/-- Member function `dequeue_indication_or_confirmation` with an explicit bound on the
number of executions of the loop body. -/
def dequeue_fuel (Size : Nat) (fuel : Nat) (s : notification_queue_impl) :
    Option ((notification_queue_entry_type × Nat) × notification_queue_impl) :=
  dequeue_loop Size s fuel s.next_ true

/-- Member function `dequeue_indication_or_confirmation`; `Size` executions of the loop
body are always enough when `next_ < Size` (see `dequeue_loop_eq_reference`). -/
def dequeue_indication_or_confirmation (Size : Nat) (s : notification_queue_impl) :
    Option ((notification_queue_entry_type × Nat) × notification_queue_impl) :=
  dequeue_fuel Size Size s

end notification_queue_impl

/-- Data member of the specialisation `notification_queue_impl< 1 >`: the byte `state_`,
which holds `empty`, `notification`, `indication` or `outstanding_confirmation`. -/
structure notification_queue_impl_1 where
  state_ : Nat
  deriving DecidableEq, Repr

namespace notification_queue_impl_1

/-- Enumerator `outstanding_confirmation = indication + 1` of the specialisation. -/
def outstanding_confirmation : Nat := notification_queue_entry_type.indication.toNat + 1

/-- Constructor of `notification_queue_impl< 1 >`. -/
def construct : notification_queue_impl_1 :=
  { state_ := notification_queue_entry_type.empty.toNat }

/-- Member function `queue_notification` of `notification_queue_impl< 1 >`. -/
def queue_notification (s : notification_queue_impl_1) (idx : Nat) :
    Option (Bool × notification_queue_impl_1) :=
  if idx = 0 then
    if s.state_ = notification_queue_entry_type.empty.toNat then
      some (true, { state_ := notification_queue_entry_type.notification.toNat })
    else some (false, s)
  else none

/-- Member function `queue_indication` of `notification_queue_impl< 1 >`. -/
def queue_indication (s : notification_queue_impl_1) (idx : Nat) :
    Option (Bool × notification_queue_impl_1) :=
  if idx = 0 then
    if s.state_ = notification_queue_entry_type.empty.toNat then
      some (true, { state_ := notification_queue_entry_type.indication.toNat })
    else some (false, s)
  else none

/-- Member function `indication_confirmed` of `notification_queue_impl< 1 >`. -/
def indication_confirmed (s : notification_queue_impl_1) : notification_queue_impl_1 :=
  if s.state_ = outstanding_confirmation then
    { state_ := notification_queue_entry_type.empty.toNat }
  else s

/-- Member function `dequeue_indication_or_confirmation` of `notification_queue_impl< 1 >`. -/
def dequeue_indication_or_confirmation (s : notification_queue_impl_1) :
    Option ((notification_queue_entry_type × Nat) × notification_queue_impl_1) :=
  match (if s.state_ = outstanding_confirmation then some notification_queue_entry_type.empty
      else notification_queue_entry_type.static_cast s.state_) with
  | none => none
  | some kind =>
    some ((kind, 0),
      { state_ :=
          if s.state_ = notification_queue_entry_type.indication.toNat
              ∨ s.state_ = outstanding_confirmation then outstanding_confirmation
          else notification_queue_entry_type.empty.toNat })

/-- Member function `clear_indications_and_confirmations` of `notification_queue_impl< 1 >`. -/
def clear_indications_and_confirmations (_s : notification_queue_impl_1) :
    notification_queue_impl_1 :=
  { state_ := notification_queue_entry_type.empty.toNat }

end notification_queue_impl_1

/-- One tier of the chain: the base class `notification_queue_impl< Size >` of one level of
`notification_queue_impl_base`, together with its template argument. The template
argument `1` selects the specialisation. -/
inductive tier where
  | general (Size : Nat) (impl : notification_queue_impl)
  | single (impl : notification_queue_impl_1)
  deriving DecidableEq, Repr

namespace tier

/-- Template argument `Size` of the tier. -/
def Size : tier → Nat
  | general Size _ => Size
  | single _ => 1

/-- Constructor of `notification_queue_impl< Size >`, primary template or specialisation. -/
def construct (Size : Nat) : tier :=
  if Size = 1 then single notification_queue_impl_1.construct
  else general Size (notification_queue_impl.construct Size)

/-- Call `impl::queue_notification( idx )`. -/
def queue_notification : tier → Nat → Option (Bool × tier)
  | general Size impl, idx =>
    (notification_queue_impl.queue_notification Size impl idx).map
      (fun r => (r.1, general Size r.2))
  | single impl, idx =>
    (notification_queue_impl_1.queue_notification impl idx).map (fun r => (r.1, single r.2))

/-- Call `impl::queue_indication( idx )`. -/
def queue_indication : tier → Nat → Option (Bool × tier)
  | general Size impl, idx =>
    (notification_queue_impl.queue_indication Size impl idx).map
      (fun r => (r.1, general Size r.2))
  | single impl, idx =>
    (notification_queue_impl_1.queue_indication impl idx).map (fun r => (r.1, single r.2))

/-- Call `impl::indication_confirmed()`. -/
def indication_confirmed : tier → tier
  | general Size impl => general Size (notification_queue_impl.indication_confirmed Size impl)
  | single impl => single (notification_queue_impl_1.indication_confirmed impl)

/-- Call `impl::dequeue_indication_or_confirmation()`. -/
def dequeue_indication_or_confirmation :
    tier → Option ((notification_queue_entry_type × Nat) × tier)
  | general Size impl =>
    (notification_queue_impl.dequeue_indication_or_confirmation Size impl).map
      (fun r => (r.1, general Size r.2))
  | single impl =>
    (notification_queue_impl_1.dequeue_indication_or_confirmation impl).map
      (fun r => (r.1, single r.2))

/-- Call `impl::clear_indications_and_confirmations()`. -/
def clear_indications_and_confirmations : tier → tier
  | general Size impl =>
    general Size (notification_queue_impl.clear_indications_and_confirmations Size impl)
  | single impl => single (notification_queue_impl_1.clear_indications_and_confirmations impl)

end tier

/-- State of `notification_queue_impl_base< std::tuple< ... > >`: the tiers in the order of
the template arguments; the empty list is `notification_queue_impl_base< std::tuple<> >`. -/
abbrev notification_queue_impl_base := List tier

namespace notification_queue_impl_base

/-- Constructor of the chain for the template arguments `Sizes`. -/
def construct (Sizes : List Nat) : notification_queue_impl_base :=
  Sizes.map tier.construct

/-- Member function `queue_notification` of `notification_queue_impl_base`. -/
def queue_notification : notification_queue_impl_base → Nat →
    Option (Bool × notification_queue_impl_base)
  | [], _ => some (false, [])
  | impl :: base, idx =>
    if idx < impl.Size then
      (impl.queue_notification idx).map (fun r => (r.1, r.2 :: base))
    else
      (queue_notification base (idx - impl.Size)).map (fun r => (r.1, impl :: r.2))

/-- Member function `queue_indication` of `notification_queue_impl_base`. -/
def queue_indication : notification_queue_impl_base → Nat →
    Option (Bool × notification_queue_impl_base)
  | [], _ => some (false, [])
  | impl :: base, idx =>
    if idx < impl.Size then
      (impl.queue_indication idx).map (fun r => (r.1, r.2 :: base))
    else
      (queue_indication base (idx - impl.Size)).map (fun r => (r.1, impl :: r.2))

/-- Member function `indication_confirmed` of `notification_queue_impl_base`. -/
def indication_confirmed : notification_queue_impl_base → notification_queue_impl_base
  | [] => []
  | impl :: base => impl.indication_confirmed :: indication_confirmed base

/-- Member function `dequeue_indication_or_confirmation` of `notification_queue_impl_base`. -/
def dequeue_indication_or_confirmation : notification_queue_impl_base →
    Option ((notification_queue_entry_type × Nat) × notification_queue_impl_base)
  | [] => some ((.empty, 0), [])
  | impl :: base =>
    match impl.dequeue_indication_or_confirmation with
    | none => none
    | some (result, impl1) =>
      if result.1 ≠ .empty then some (result, impl1 :: base)
      else
        match dequeue_indication_or_confirmation base with
        | none => none
        | some (result, base1) =>
          if result.1 ≠ .empty then some ((result.1, result.2 + impl.Size), impl1 :: base1)
          else some (result, impl1 :: base1)

/-- Member function `clear_indications_and_confirmations` of `notification_queue_impl_base`. -/
def clear_indications_and_confirmations :
    notification_queue_impl_base → notification_queue_impl_base
  | [] => []
  | impl :: base =>
    impl.clear_indications_and_confirmations :: clear_indications_and_confirmations base

end notification_queue_impl_base

end details

/-- Value of `~0` converted to `std::size_t` (64 bit). -/
def size_t_all_ones : Nat := 2 ^ 64 - 1

/-- Data of the class `notification_queue< Sizes, Mixin >`: the base class
`notification_queue_impl_base< Sizes >` and the member `outstanding_confirmation_index_`.
The `Mixin` base takes no part in any operation and is left out. -/
structure notification_queue where
  impl : details.notification_queue_impl_base
  outstanding_confirmation_index_ : Nat
  deriving DecidableEq, Repr

namespace notification_queue

/-- Constructor of `notification_queue< Sizes, Mixin >`. -/
def construct (Sizes : List Nat) : notification_queue :=
  { impl := details.notification_queue_impl_base.construct Sizes
    outstanding_confirmation_index_ := size_t_all_ones }

/-- Member function `queue_notification` of `notification_queue`. -/
def queue_notification (q : notification_queue) (index : Nat) :
    Option (Bool × notification_queue) :=
  (details.notification_queue_impl_base.queue_notification q.impl index).map
    (fun r => (r.1, { q with impl := r.2 }))

/-- Member function `queue_indication` of `notification_queue`. -/
def queue_indication (q : notification_queue) (index : Nat) :
    Option (Bool × notification_queue) :=
  (details.notification_queue_impl_base.queue_indication q.impl index).map
    (fun r => (r.1, { q with impl := r.2 }))

/-- Member function `indication_confirmed` of `notification_queue`. -/
def indication_confirmed (q : notification_queue) : notification_queue :=
  { q with impl := details.notification_queue_impl_base.indication_confirmed q.impl }

/-- Member function `dequeue_indication_or_confirmation` of `notification_queue`. -/
def dequeue_indication_or_confirmation (q : notification_queue) :
    Option ((details.notification_queue_entry_type × Nat) × notification_queue) :=
  (details.notification_queue_impl_base.dequeue_indication_or_confirmation q.impl).map
    (fun r => (r.1, { q with impl := r.2 }))

/-- Member function `clear_indications_and_confirmations` of `notification_queue`. -/
def clear_indications_and_confirmations (q : notification_queue) : notification_queue :=
  { outstanding_confirmation_index_ := size_t_all_ones
    impl := details.notification_queue_impl_base.clear_indications_and_confirmations q.impl }

end notification_queue

/-! ## Operations and traces -/

/-- The five operations of the queue, as a caller issues them. -/
inductive operation where
  | queue_notification (index : Nat)
  | queue_indication (index : Nat)
  | indication_confirmed
  | dequeue_indication_or_confirmation
  | clear_indications_and_confirmations
  deriving DecidableEq, Repr

/-- What the caller observes of one operation. -/
inductive response where
  | queued (result : Bool)
  | entry (kind : details.notification_queue_entry_type) (index : Nat)
  | done
  deriving DecidableEq, Repr

namespace details
namespace tier

/-- One operation on a tier. -/
def step (t : tier) : operation → Option (response × tier)
  | .queue_notification index =>
    (t.queue_notification index).map (fun r => (.queued r.1, r.2))
  | .queue_indication index =>
    (t.queue_indication index).map (fun r => (.queued r.1, r.2))
  | .indication_confirmed => some (.done, t.indication_confirmed)
  | .dequeue_indication_or_confirmation =>
    t.dequeue_indication_or_confirmation.map (fun r => (.entry r.1.1 r.1.2, r.2))
  | .clear_indications_and_confirmations => some (.done, t.clear_indications_and_confirmations)

/-- A sequence of operations on a tier: the responses in order and the final state. -/
def run (t : tier) : List operation → Option (List response × tier)
  | [] => some ([], t)
  | o :: os =>
    match t.step o with
    | none => none
    | some (r, t1) => (run t1 os).map (fun p => (r :: p.1, p.2))

end tier
end details

namespace notification_queue

/-- One operation on the queue of a connection. -/
def step (q : notification_queue) : operation → Option (response × notification_queue)
  | .queue_notification index =>
    (q.queue_notification index).map (fun r => (.queued r.1, r.2))
  | .queue_indication index =>
    (q.queue_indication index).map (fun r => (.queued r.1, r.2))
  | .indication_confirmed => some (.done, q.indication_confirmed)
  | .dequeue_indication_or_confirmation =>
    q.dequeue_indication_or_confirmation.map (fun r => (.entry r.1.1 r.1.2, r.2))
  | .clear_indications_and_confirmations => some (.done, q.clear_indications_and_confirmations)

/-- A sequence of operations on the queue: the responses in order and the final state. -/
def run (q : notification_queue) : List operation → Option (List response × notification_queue)
  | [] => some ([], q)
  | o :: os =>
    match q.step o with
    | none => none
    | some (r, q1) => (run q1 os).map (fun p => (r :: p.1, p.2))

end notification_queue

/-! ## Auxiliary definitions of the development -/

namespace details
namespace notification_queue_impl

/-- The value `at( index )` returns when its assertion holds. -/
def entry (s : notification_queue_impl) (index : Nat) : Nat :=
  (s.queue_.getD (byte_offset index) 0 >>> bit_offset index) &&& 0x03

/-- The state `add( index, bits )` leaves when its assertions hold. -/
def add_state (s : notification_queue_impl) (index : Nat) (bits : Nat) : notification_queue_impl :=
  { s with
    queue_ := List.set s.queue_ (byte_offset index)
      ((s.queue_.getD (byte_offset index) 0 ||| (bits <<< bit_offset index)) % 256) }

/-- The state `remove( index, bits )` leaves when its assertions hold. -/
def remove_state (s : notification_queue_impl) (index : Nat) (bits : Nat) :
    notification_queue_impl :=
  { s with
    queue_ := List.set s.queue_ (byte_offset index)
      ((s.queue_.getD (byte_offset index) 0 &&&
        int_complement (bits <<< bit_offset index)) % 256) }

/-- What the type of `queue_` guarantees: the array has
`( Size * bits_per_characteristc + 7 ) / 8` elements and every element is a byte. -/
def storage_ok (Size : Nat) (s : notification_queue_impl) : Prop :=
  s.queue_.length = (Size * bits_per_characteristc + 7) / 8 ∧ ∀ b ∈ s.queue_, b < 256

instance (Size : Nat) (s : notification_queue_impl) : Decidable (storage_ok Size s) := by
  unfold storage_ok
  infer_instance

end notification_queue_impl
end details

/-! ## Reference description of the scan of the general tier -/

namespace details
namespace notification_queue_impl

/-- The slots in the order one circular scan visits them: `cursor`, `cursor + 1`, ...
cyclically, each of the `Size` slots once. -/
def scan_order (Size cursor : Nat) : List Nat :=
  (List.range Size).map (fun k => (cursor + k) % Size)

/-- The slot has its indication bit set while the tier has no outstanding confirmation. -/
def indication_ready (Size : Nat) (s : notification_queue_impl) (slot : Nat) : Bool :=
  (s.entry slot &&& indication_bit != 0) && (s.outstanding_confirmation_ == Size)

/-- The slot has its notification bit set. -/
def notification_ready (s : notification_queue_impl) (slot : Nat) : Bool :=
  s.entry slot &&& notification_bit != 0

/-- The slot qualifies for being returned by a dequeue. -/
def ready (Size : Nat) (s : notification_queue_impl) (slot : Nat) : Bool :=
  indication_ready Size s slot || notification_ready s slot

/-- Reference for the result and the new cursor of a dequeue: the first slot in scan order
that qualifies is returned, as an indication when its indication qualifies and as a
notification otherwise, and the cursor moves just behind it; when no slot qualifies the
result is `(empty, 0)` and the cursor stays. -/
def dequeue_reference (Size : Nat) (s : notification_queue_impl) :
    (notification_queue_entry_type × Nat) × Nat :=
  match (scan_order Size s.next_).find? (ready Size s) with
  | none => ((.empty, 0), s.next_)
  | some slot =>
    if indication_ready Size s slot then ((.indication, slot), (slot + 1) % Size)
    else ((.notification, slot), (slot + 1) % Size)

/-- Result and state of a dequeue that returns `slot`. -/
def dequeue_at (Size : Nat) (s : notification_queue_impl) (slot : Nat) :
    (notification_queue_entry_type × Nat) × notification_queue_impl :=
  if indication_ready Size s slot then
    ((.indication, slot),
      remove_state { s with outstanding_confirmation_ := slot, next_ := (slot + 1) % Size }
        slot indication_bit)
  else
    ((.notification, slot),
      remove_state { s with next_ := (slot + 1) % Size } slot notification_bit)

/-- Result and state of a dequeue whose scan visits `slots` in order. -/
def dequeue_scan (Size : Nat) (s : notification_queue_impl) (slots : List Nat) :
    (notification_queue_entry_type × Nat) × notification_queue_impl :=
  match slots.find? (ready Size s) with
  | none => ((.empty, 0), s)
  | some slot => dequeue_at Size s slot

end notification_queue_impl
end details

/-! ## Well-formed states and the confirmation gate -/

/-- The index argument of an operation is below `N`. -/
def operation.index_ok (N : Nat) : operation → Bool
  | .queue_notification index => decide (index < N)
  | .queue_indication index => decide (index < N)
  | _ => true

/-- The operation is one of the two that release a confirmation gate. -/
def operation.releases_gate : operation → Bool
  | .indication_confirmed => true
  | .clear_indications_and_confirmations => true
  | _ => false

/-- The response is a dequeue result of kind indication. -/
def response.is_indication : response → Bool
  | .entry .indication _ => true
  | _ => false

namespace details

/-- Well-formed state of a tier: the array is that of the type, the cursor names a slot;
the byte of the single-slot tier holds one of its four enumerators. -/
def tier.inv : tier → Prop
  | .general Size impl => notification_queue_impl.storage_ok Size impl ∧ impl.next_ < Size
  | .single impl => impl.state_ ≤ notification_queue_impl_1.outstanding_confirmation

instance (t : tier) : Decidable t.inv := by
  cases t <;> unfold tier.inv <;> infer_instance

/-- The confirmation gate of the tier is closed: a slot of the tier awaits confirmation. -/
def tier.awaiting_confirmation : tier → Bool
  | .general Size impl => impl.outstanding_confirmation_ != Size
  | .single impl => impl.state_ == notification_queue_impl_1.outstanding_confirmation

/-- Total number of slots of a chain. -/
def notification_queue_impl_base.total : notification_queue_impl_base → Nat
  | [] => 0
  | impl :: base => impl.Size + total base

/-- Every tier of the chain is well formed. -/
def notification_queue_impl_base.inv : notification_queue_impl_base → Prop
  | [] => True
  | impl :: base => impl.inv ∧ inv base

instance (c : notification_queue_impl_base) : Decidable c.inv := by
  induction c with
  | nil => unfold notification_queue_impl_base.inv; infer_instance
  | cons impl base ih => unfold notification_queue_impl_base.inv; infer_instance

end details

/-! ## Slot states of a tier -/

namespace details

/-- Slot `i` of the tier is `IndicationAwaitingConfirmation`. -/
def tier.awaiting_slot : tier → Nat → Bool
  | .general _ impl, i => impl.outstanding_confirmation_ == i
  | .single impl, _ => impl.state_ == notification_queue_impl_1.outstanding_confirmation

/-- Slot `i` of the tier has an indication queued that was not dequeued yet. -/
def tier.indication_pending : tier → Nat → Bool
  | .general _ impl, i => impl.entry i &&& indication_bit != 0
  | .single impl, _ => impl.state_ == notification_queue_entry_type.indication.toNat

/-- Slot `i` of the tier has a notification queued. -/
def tier.notification_pending : tier → Nat → Bool
  | .general _ impl, i => impl.entry i &&& notification_bit != 0
  | .single impl, _ => impl.state_ == notification_queue_entry_type.notification.toNat

/-- The tier is an instance of the primary template. -/
def tier.is_general : tier → Bool
  | .general _ _ => true
  | .single _ => false

end details

/-- Slot `i` of the tier holds an entry that a dequeue may return now: a queued
notification, or a queued indication while no slot of the tier awaits confirmation. -/
def details.tier.dispatchable (t : details.tier) (i : Nat) : Bool :=
  t.notification_pending i || (t.indication_pending i && !t.awaiting_confirmation)


/-- The slots of a general tier that have the notification bit set, in cyclic order from
the cursor. -/
def details.notification_queue_impl.pending_notifications (Size : Nat)
    (s : details.notification_queue_impl) : List Nat :=
  (details.notification_queue_impl.scan_order Size s.next_).filter
    (details.notification_queue_impl.notification_ready s)


/-! ## The slot states of the specification -/

namespace details

/-- The four states of the slot of a single-slot tier (specification, section 4.3). -/
inductive slot_state where
  | Empty
  | NotificationPending
  | IndicationPending
  | AwaitingConfirmation
  deriving DecidableEq, Repr

namespace slot_state

/-- The byte that `notification_queue_impl< 1 >` keeps for a slot state. -/
def encode : slot_state → notification_queue_impl_1
  | Empty => { state_ := notification_queue_entry_type.empty.toNat }
  | NotificationPending => { state_ := notification_queue_entry_type.notification.toNat }
  | IndicationPending => { state_ := notification_queue_entry_type.indication.toNat }
  | AwaitingConfirmation => { state_ := notification_queue_impl_1.outstanding_confirmation }

/-- Specification: `queue_notification` succeeds only from `Empty` and moves to
`NotificationPending`; otherwise the state stays. -/
def spec_queue_notification : slot_state → Bool × slot_state
  | Empty => (true, NotificationPending)
  | st => (false, st)

/-- Specification: `queue_indication` succeeds only from `Empty` and moves to
`IndicationPending`; otherwise the state stays. -/
def spec_queue_indication : slot_state → Bool × slot_state
  | Empty => (true, IndicationPending)
  | st => (false, st)

/-- Specification: dequeue returns the pending kind and moves `NotificationPending` to
`Empty` and `IndicationPending` to `AwaitingConfirmation`; from `Empty` and from
`AwaitingConfirmation` it returns `(empty, 0)` and the state stays. -/
def spec_dequeue : slot_state → (notification_queue_entry_type × Nat) × slot_state
  | NotificationPending => ((.notification, 0), Empty)
  | IndicationPending => ((.indication, 0), AwaitingConfirmation)
  | st => ((.empty, 0), st)

/-- Specification: `indication_confirmed` moves `AwaitingConfirmation` to `Empty` and does
nothing in the other states. -/
def spec_indication_confirmed : slot_state → slot_state
  | AwaitingConfirmation => Empty
  | st => st

end slot_state
end details


/-! ## States of a configuration -/

namespace details

/-- The tier is a well-formed state of `notification_queue_impl< Size >`: of the
specialisation for `Size = 1` and of the primary template otherwise. -/
def tier.fits (Size : Nat) : tier → Prop
  | .general S impl =>
    S = Size ∧ Size ≠ 1 ∧ notification_queue_impl.storage_ok Size impl ∧ impl.next_ < Size
  | .single impl => Size = 1 ∧ impl.state_ ≤ notification_queue_impl_1.outstanding_confirmation

instance (Size : Nat) (t : tier) : Decidable (t.fits Size) := by
  cases t <;> unfold tier.fits <;> infer_instance

/-- The chain is a well-formed state of `notification_queue_impl_base` for the template
arguments `Sizes`. -/
def notification_queue_impl_base.fits : List Nat → notification_queue_impl_base → Prop
  | [], [] => True
  | Size :: Sizes, impl :: base => impl.fits Size ∧ fits Sizes base
  | _, _ => False

instance notification_queue_impl_base.decidable_fits (Sizes : List Nat) :
    (c : notification_queue_impl_base) → Decidable (notification_queue_impl_base.fits Sizes c) := by
  induction Sizes with
  | nil =>
    intro c
    cases c <;> unfold notification_queue_impl_base.fits <;> infer_instance
  | cons Size Sizes ih =>
    intro c
    cases c with
    | nil => unfold notification_queue_impl_base.fits; infer_instance
    | cons impl base =>
      unfold notification_queue_impl_base.fits
      have := ih base
      infer_instance

end details

/-- The queue is a well-formed state of `notification_queue< Sizes, Mixin >`. -/
def notification_queue.fits (Sizes : List Nat) (q : notification_queue) : Prop :=
  details.notification_queue_impl_base.fits Sizes q.impl

instance (Sizes : List Nat) (q : notification_queue) : Decidable (q.fits Sizes) := by
  unfold notification_queue.fits
  infer_instance


/-- The round-robin cursor of a tier; the single-slot tier has none and counts as 0. -/
def details.tier.cursor : details.tier → Nat
  | .general _ impl => impl.next_
  | .single _ => 0


/-! ## Cursors of a chain -/

namespace details

/-- The cursors of the tiers of a chain, in the order of the tiers. -/
def notification_queue_impl_base.cursors (c : notification_queue_impl_base) : List Nat :=
  c.map tier.cursor

/-- The cursor a tier is to have after its dequeue returned `slot`: the slot behind it,
modulo the size of the tier. -/
def tier.cursor_behind : tier → Nat → Nat
  | .general Size _, slot => (slot + 1) % Size
  | .single _, _ => 0

/-- The cursors a chain is to have after a dequeue returned the global index `idx`: the
cursor of the tier that owns `idx` is that of the slot behind the returned one, modulo the
size of the tier, and the cursor of every other tier is as before. -/
def notification_queue_impl_base.cursors_after :
    notification_queue_impl_base → Nat → List Nat
  | [], _ => []
  | impl :: base, idx =>
    if idx < impl.Size then
      impl.cursor_behind idx :: notification_queue_impl_base.cursors base
    else impl.cursor :: cursors_after base (idx - impl.Size)

end details


/-! ## Waiting inside a tier -/

/-- The entries that the dequeues of a run returned, in order. -/
def response.dequeued : List response → List (details.notification_queue_entry_type × Nat)
  | [] => []
  | .entry kind index :: rs => (kind, index) :: dequeued rs
  | _ :: rs => dequeued rs

/-- Number of steps from `cursor` forward to `slot` on the circle of `Size` slots. -/
def details.notification_queue_impl.cyclic_distance (Size cursor slot : Nat) : Nat :=
  (slot + Size - cursor) % Size


/-- The byte array of a tier of the primary template; the single-slot tier has none. -/
def details.tier.queue_bytes : details.tier → List Nat
  | .general _ impl => impl.queue_
  | .single _ => []


/-- The indices that the `for` loop of `dequeue_indication_or_confirmation` passes to `at`
(and, when the slot is returned, to `remove`), in the order of the visits. The control
flow is that of `dequeue_loop`. -/
def details.notification_queue_impl.dequeue_loop_indices (Size : Nat)
    (s : details.notification_queue_impl) : Nat → Nat → Bool → List Nat
  | 0, _, _ => []
  | fuel + 1, i, ignore_first =>
    if ignore_first || i != s.next_ then
      i :: (match s.at_ i with
        | none => []
        | some entry =>
          if entry &&& details.indication_bit != 0 && s.outstanding_confirmation_ == Size then []
          else if entry &&& details.notification_bit != 0 then []
          else dequeue_loop_indices Size s fuel ((i + 1) % Size) false)
    else []


/-- State invariant of the general tier: the cursor names a slot, the marker is a slot or
`Size` (none), and the slot the marker names has no indication queued. -/
def details.notification_queue_impl.state_invariant (Size : Nat)
    (s : details.notification_queue_impl) : Prop :=
  s.next_ < Size ∧ s.outstanding_confirmation_ ≤ Size
    ∧ (s.outstanding_confirmation_ < Size →
        s.entry s.outstanding_confirmation_ &&& details.indication_bit = 0)

instance (Size : Nat) (s : details.notification_queue_impl) :
    Decidable (details.notification_queue_impl.state_invariant Size s) := by
  unfold details.notification_queue_impl.state_invariant
  infer_instance


namespace details

/-! ## The entry codec -/

theorem testBit_of_lt_four (bits i : Nat) (h : bits < 4) (hi : 2 ≤ i) :
    bits.testBit i = false := by
  apply Nat.testBit_lt_two_pow
  calc bits < 2 ^ 2 := h
    _ ≤ 2 ^ i := Nat.pow_le_pow_right (by decide) hi

theorem testBit_three (i : Nat) : Nat.testBit 3 i = decide (i < 2) := by
  have h : (3 : Nat) = 2 ^ 2 - 1 := by decide
  rw [h, Nat.testBit_two_pow_sub_one]

theorem testBit_and_three (x i : Nat) :
    (x &&& 3).testBit i = (decide (i < 2) && x.testBit i) := by
  have h : (3 : Nat) = 2 ^ 2 - 1 := by decide
  rw [h, Nat.testBit_and, Nat.testBit_two_pow_sub_one, Bool.and_comm]

theorem testBit_mod_256 (x i : Nat) :
    (x % 256).testBit i = (decide (i < 8) && x.testBit i) := by
  have h : (256 : Nat) = 2 ^ 8 := by decide
  rw [h, Nat.testBit_mod_two_pow]

theorem testBit_int_complement (x i : Nat) :
    (int_complement x).testBit i = (decide (i < 32) ^^ x.testBit i) := by
  have h : (0xFFFFFFFF : Nat) = 2 ^ 32 - 1 := by decide
  unfold int_complement
  rw [h, Nat.testBit_xor, Nat.testBit_two_pow_sub_one]

theorem byte_or_same (b bits off : Nat) (hoff : off ≤ 6) (hb : bits < 4) :
    (((b ||| (bits <<< off)) % 256) >>> off) &&& 3 = ((b >>> off) &&& 3) ||| bits := by
  apply Nat.eq_of_testBit_eq
  intro i
  simp only [testBit_and_three, testBit_three, testBit_mod_256, Nat.testBit_or, Nat.testBit_shiftRight,
    Nat.testBit_shiftLeft]
  by_cases hi : i < 2
  · have h1 : off + i < 8 := by omega
    have h2 : off + i ≥ off := by omega
    simp [hi, h1, h2]
  · have h3 := testBit_of_lt_four bits i hb (by omega)
    simp [hi, h3]

theorem byte_or_other (b bits off off2 : Nat) (hoff2 : off2 ≤ 6) (hb : bits < 4)
    (hd : off + 2 ≤ off2 ∨ off2 + 2 ≤ off) :
    (((b ||| (bits <<< off)) % 256) >>> off2) &&& 3 = (b >>> off2) &&& 3 := by
  apply Nat.eq_of_testBit_eq
  intro i
  simp only [testBit_and_three, testBit_three, testBit_mod_256, Nat.testBit_or, Nat.testBit_shiftRight,
    Nat.testBit_shiftLeft]
  by_cases hi : i < 2
  · have h1 : off2 + i < 8 := by omega
    rcases hd with hd | hd
    · have h3 := testBit_of_lt_four bits (off2 + i - off) hb (by omega)
      simp [hi, h1, h3]
    · have h2 : ¬ (off2 + i ≥ off) := by omega
      simp [hi, h1, h2]
  · simp [hi]

theorem byte_clear_same (b bits off : Nat) (hoff : off ≤ 6) :
    (((b &&& int_complement (bits <<< off)) % 256) >>> off) &&& 3
      = ((b >>> off) &&& 3) &&& (3 ^^^ bits) := by
  apply Nat.eq_of_testBit_eq
  intro i
  simp only [testBit_and_three, testBit_three, testBit_mod_256, Nat.testBit_and, Nat.testBit_shiftRight,
    Nat.testBit_shiftLeft, testBit_int_complement, Nat.testBit_xor]
  by_cases hi : i < 2
  · have h1 : off + i < 8 := by omega
    have h2 : off + i ≥ off := by omega
    have h4 : off + i < 32 := by omega
    simp [hi, h1, h2, h4]
  · simp [hi]

theorem byte_clear_other (b bits off off2 : Nat) (hoff2 : off2 ≤ 6) (hb : bits < 4)
    (hd : off + 2 ≤ off2 ∨ off2 + 2 ≤ off) :
    (((b &&& int_complement (bits <<< off)) % 256) >>> off2) &&& 3 = (b >>> off2) &&& 3 := by
  apply Nat.eq_of_testBit_eq
  intro i
  simp only [testBit_and_three, testBit_three, testBit_mod_256, Nat.testBit_and, Nat.testBit_shiftRight,
    Nat.testBit_shiftLeft, testBit_int_complement]
  by_cases hi : i < 2
  · have h1 : off2 + i < 8 := by omega
    have h4 : off2 + i < 32 := by omega
    rcases hd with hd | hd
    · have h3 := testBit_of_lt_four bits (off2 + i - off) hb (by omega)
      simp [hi, h1, h3, h4]
    · have h2 : ¬ (off2 + i ≥ off) := by omega
      simp [hi, h1, h2, h4]
  · simp [hi]

theorem byte_and_eq_zero (b bits off : Nat) (hb : bits < 4) :
    (b &&& (bits <<< off) = 0) ↔ (((b >>> off) &&& 3) &&& bits = 0) := by
  have key : b &&& (bits <<< off) = ((((b >>> off) &&& 3) &&& bits) <<< off) := by
    apply Nat.eq_of_testBit_eq
    intro i
    simp only [testBit_and_three, testBit_three, Nat.testBit_and, Nat.testBit_shiftRight,
      Nat.testBit_shiftLeft]
    by_cases hi : i ≥ off
    · have h5 : off + (i - off) = i := by omega
      by_cases h6 : i - off < 2
      · simp [hi, h5, h6]
      · have h3 := testBit_of_lt_four bits (i - off) hb (by omega)
        simp [hi, h3]
    · simp [hi]
  rw [key, Nat.shiftLeft_eq]
  constructor
  · intro h
    rcases Nat.mul_eq_zero.mp h with h | h
    · exact h
    · exact absurd h (by positivity)
  · intro h
    rw [h, Nat.zero_mul]

theorem byte_or_absorb (b p : Nat) (hb : b < 256) (h : b &&& (2 ^ p) ≠ 0) :
    (b ||| (2 ^ p)) % 256 = b := by
  have h1 : b.testBit p = true := by
    by_contra hc
    apply h
    apply Nat.eq_of_testBit_eq
    intro i
    simp only [Nat.testBit_and, Nat.testBit_two_pow, Nat.zero_testBit]
    by_cases hip : p = i
    · subst hip; simp [hc]
    · simp [hip]
  have h2 : b ||| 2 ^ p = b := by
    apply Nat.eq_of_testBit_eq
    intro i
    simp only [Nat.testBit_or, Nat.testBit_two_pow]
    by_cases hip : p = i
    · subst hip; simp [h1]
    · simp [hip]
  rw [h2, Nat.mod_eq_of_lt hb]

end details

end link_layer
end bluetoe

namespace bluetoe
namespace link_layer
namespace details
namespace notification_queue_impl

theorem bit_offset_le (i : Nat) : bit_offset i ≤ 6 := by
  unfold bit_offset bits_per_characteristc; omega

theorem byte_offset_lt {Size : Nat} {s : notification_queue_impl} (h : storage_ok Size s)
    {i : Nat} (hi : i < Size) : byte_offset i < s.queue_.length := by
  rw [h.1]; unfold byte_offset bits_per_characteristc; omega

theorem slots_apart {i j : Nat} (hij : i ≠ j) :
    byte_offset i ≠ byte_offset j ∨ bit_offset i + 2 ≤ bit_offset j
      ∨ bit_offset j + 2 ≤ bit_offset i := by
  unfold byte_offset bit_offset bits_per_characteristc; omega

theorem getD_set (l : List Nat) (n m v : Nat) :
    (List.set l n v).getD m 0 = if n = m ∧ n < l.length then v else l.getD m 0 := by
  simp only [List.getD_eq_getElem?_getD, List.getElem?_set]
  by_cases h : n = m
  · subst h
    by_cases h2 : n < l.length
    · simp [h2]
    · simp [h2, List.getElem?_eq_none (Nat.le_of_not_lt h2)]
  · simp [h]

theorem at_eq_some {s : notification_queue_impl} {i : Nat} (h : byte_offset i < s.queue_.length) :
    s.at_ i = some (s.entry i) := by
  simp [at_, entry, h]

theorem add_eq_some {s : notification_queue_impl} {i bits : Nat}
    (h : byte_offset i < s.queue_.length) (hb : bits = 1 ∨ bits = 2 ∨ bits = 3) :
    s.add i bits = some (decide (s.entry i &&& bits = 0), s.add_state i bits) := by
  have hb4 : bits < 4 := by omega
  have h1 : bits &&& ((1 <<< bits_per_characteristc) - 1) ≠ 0 := by
    rcases hb with rfl | rfl | rfl <;> decide
  have h2 := byte_and_eq_zero (s.queue_.getD (byte_offset i) 0) bits (bit_offset i) hb4
  simp only [add, h1, h, add_state, entry, if_true, ne_eq, not_false_eq_true]
  have h3 : (s.queue_.getD (byte_offset i) 0 &&& bits <<< bit_offset i == 0)
      = decide (s.queue_.getD (byte_offset i) 0 >>> bit_offset i &&& 3 &&& bits = 0) := by
    rw [Bool.eq_iff_iff]
    simp only [beq_iff_eq, decide_eq_true_eq]
    exact h2
  rw [h3]

theorem remove_eq_some {s : notification_queue_impl} {i bits : Nat}
    (h : byte_offset i < s.queue_.length) (hb : bits = 1 ∨ bits = 2 ∨ bits = 3) :
    s.remove i bits = some (s.remove_state i bits) := by
  have h1 : bits &&& ((1 <<< bits_per_characteristc) - 1) ≠ 0 := by
    rcases hb with rfl | rfl | rfl <;> decide
  simp only [remove, h1, h, remove_state, if_true, ne_eq, not_false_eq_true]

theorem entry_add_state_same (s : notification_queue_impl) (i bits : Nat)
    (h : byte_offset i < s.queue_.length) (hb : bits < 4) :
    (s.add_state i bits).entry i = s.entry i ||| bits := by
  simp only [entry, add_state, getD_set, h, and_self, if_true]
  exact byte_or_same _ _ _ (bit_offset_le i) hb

theorem entry_add_state_other (s : notification_queue_impl) (i j bits : Nat)
    (hb : bits < 4) (hij : i ≠ j) :
    (s.add_state i bits).entry j = s.entry j := by
  simp only [entry, add_state, getD_set]
  split
  · rename_i h
    rcases slots_apart hij with h1 | h1
    · exact absurd h.1 h1
    · rw [← h.1]
      exact byte_or_other _ _ _ _ (bit_offset_le j) hb h1
  · rfl

theorem entry_remove_state_same (s : notification_queue_impl) (i bits : Nat)
    (h : byte_offset i < s.queue_.length) :
    (s.remove_state i bits).entry i = s.entry i &&& (3 ^^^ bits) := by
  simp only [entry, remove_state, getD_set, h, and_self, if_true]
  exact byte_clear_same _ _ _ (bit_offset_le i)

theorem entry_remove_state_other (s : notification_queue_impl) (i j bits : Nat)
    (hb : bits < 4) (hij : i ≠ j) :
    (s.remove_state i bits).entry j = s.entry j := by
  simp only [entry, remove_state, getD_set]
  split
  · rename_i h
    rcases slots_apart hij with h1 | h1
    · exact absurd h.1 h1
    · rw [← h.1]
      exact byte_clear_other _ _ _ _ (bit_offset_le j) hb h1
  · rfl

theorem entry_lt_four (s : notification_queue_impl) (i : Nat) : s.entry i < 4 := by
  unfold entry
  exact Nat.lt_of_le_of_lt Nat.and_le_right (by decide)

theorem storage_ok_add_state {Size : Nat} {s : notification_queue_impl} (h : storage_ok Size s)
    (i bits : Nat) : storage_ok Size (s.add_state i bits) := by
  refine ⟨by simp [add_state, h.1], ?_⟩
  intro b hb
  rcases List.mem_or_eq_of_mem_set hb with h1 | h1
  · exact h.2 b h1
  · rw [h1]; exact Nat.mod_lt _ (by decide)

theorem storage_ok_remove_state {Size : Nat} {s : notification_queue_impl}
    (h : storage_ok Size s) (i bits : Nat) : storage_ok Size (s.remove_state i bits) := by
  refine ⟨by simp [remove_state, h.1], ?_⟩
  intro b hb
  rcases List.mem_or_eq_of_mem_set hb with h1 | h1
  · exact h.2 b h1
  · rw [h1]; exact Nat.mod_lt _ (by decide)

end notification_queue_impl
end details
end link_layer
end bluetoe

namespace bluetoe
namespace link_layer
namespace details
namespace notification_queue_impl

/-! ## The scan of `dequeue_indication_or_confirmation` -/

theorem add_mod_ne_self {Size c k : Nat} (hc : c < Size) (hk0 : 0 < k) (hk : k < Size) :
    (c + k) % Size ≠ c := by
  by_cases h : c + k < Size
  · rw [Nat.mod_eq_of_lt h]; omega
  · rw [Nat.mod_eq_sub_mod (by omega), Nat.mod_eq_of_lt (by omega)]; omega

theorem scan_slot_lt {Size : Nat} (hS : 0 < Size) (c k : Nat) : (c + k) % Size < Size :=
  Nat.mod_lt _ hS

theorem dequeue_loop_eq_scan {Size : Nat} {s : notification_queue_impl}
    (hs : storage_ok Size s) (hc : s.next_ < Size) :
    ∀ (n k fuel : Nat), k + n = Size → n ≤ fuel →
      dequeue_loop Size s fuel ((s.next_ + k) % Size) (decide (k = 0))
        = some (dequeue_scan Size s
            ((List.range' k n).map (fun j => (s.next_ + j) % Size))) := by
  intro n
  induction n with
  | zero =>
    intro k fuel hk _
    have hk0 : ¬ (k = 0) := by omega
    have hi : (s.next_ + k) % Size = s.next_ := by
      have : k = Size := by omega
      subst this
      rw [Nat.add_mod_right, Nat.mod_eq_of_lt hc]
    cases fuel <;> simp [dequeue_loop, hi, hk0, dequeue_scan]
  | succ n ih =>
    intro k fuel hk hfuel
    obtain ⟨fuel, rfl⟩ : ∃ f, fuel = f + 1 := ⟨fuel - 1, by omega⟩
    have hS : 0 < Size := by omega
    have hcond : (decide (k = 0) || (s.next_ + k) % Size != s.next_) = true := by
      by_cases hk0 : k = 0
      · simp [hk0]
      · have := add_mod_ne_self hc (Nat.pos_of_ne_zero hk0) (by omega : k < Size)
        simp [this]
    have hlt : (s.next_ + k) % Size < Size := Nat.mod_lt _ hS
    have hnext : ((s.next_ + k) % Size + 1) % Size = (s.next_ + (k + 1)) % Size := by
      rw [Nat.add_mod, Nat.mod_mod, ← Nat.add_mod, Nat.add_assoc]
    have hrec := ih (k + 1) fuel (by omega) (by omega)
    have hk1 : decide (k + 1 = 0) = false := by simp
    rw [hk1, ← hnext] at hrec
    rw [dequeue_loop, if_pos hcond, at_eq_some (byte_offset_lt hs hlt)]
    simp only [List.range'_succ, List.map_cons, dequeue_scan, List.find?_cons]
    by_cases h1 : indication_ready Size s ((s.next_ + k) % Size) = true
    · have h1a := h1
      simp only [indication_ready] at h1a
      rw [if_pos h1a]
      rw [remove_eq_some (by exact byte_offset_lt hs hlt) (by decide)]
      simp [ready, h1, dequeue_at]
    · have h1a := h1
      simp only [indication_ready] at h1a
      rw [if_neg h1a]
      by_cases h2 : notification_ready s ((s.next_ + k) % Size) = true
      · have h2a := h2
        simp only [notification_ready] at h2a
        rw [if_pos h2a]
        rw [remove_eq_some (by exact byte_offset_lt hs hlt) (by decide)]
        simp [ready, h1, h2, dequeue_at]
      · have h2a := h2
        simp only [notification_ready] at h2a
        rw [if_neg h2a, hrec]
        simp [ready, h1, h2, dequeue_scan]

theorem scan_order_eq (Size c : Nat) :
    scan_order Size c = (List.range' 0 Size).map (fun j => (c + j) % Size) := by
  rw [scan_order, List.range_eq_range']

theorem dequeue_fuel_eq_scan {Size : Nat} {s : notification_queue_impl}
    (hs : storage_ok Size s) (hc : s.next_ < Size) {fuel : Nat} (hfuel : Size ≤ fuel) :
    dequeue_fuel Size fuel s = some (dequeue_scan Size s (scan_order Size s.next_)) := by
  have h := dequeue_loop_eq_scan hs hc Size 0 fuel (by omega) hfuel
  simpa [dequeue_fuel, scan_order_eq, Nat.mod_eq_of_lt hc] using h

theorem dequeue_eq_scan {Size : Nat} {s : notification_queue_impl}
    (hs : storage_ok Size s) (hc : s.next_ < Size) :
    dequeue_indication_or_confirmation Size s
      = some (dequeue_scan Size s (scan_order Size s.next_)) :=
  dequeue_fuel_eq_scan hs hc (Nat.le_refl Size)

end notification_queue_impl
end details
end link_layer
end bluetoe

namespace bluetoe
namespace link_layer
namespace details
namespace notification_queue_impl

theorem scan_order_nodup (Size c : Nat) : (scan_order Size c).Nodup := by
  unfold scan_order
  apply List.Nodup.map_on _ (List.nodup_range Size)
  intro x hx y hy hxy
  rw [List.mem_range] at hx hy
  have h1 : ∀ a b : Nat, a < Size → b < Size → a ≤ b → (c + a) % Size = (c + b) % Size → a = b := by
    intro a b ha hb hab h
    have h2 : (c + b) % Size = ((c + a) + (b - a)) % Size := by congr 1; omega
    rw [h2] at h
    by_contra hne
    have h3 := add_mod_ne_self (Nat.mod_lt (c + a) (by omega : 0 < Size))
      (by omega : 0 < b - a) (by omega : b - a < Size)
    rw [Nat.mod_add_mod] at h3
    exact h3 h.symm
  rcases Nat.le_total x y with h | h
  · exact h1 x y hx hy h hxy
  · exact (h1 y x hy hx h hxy.symm).symm

theorem dequeue_scan_result_cursor (Size : Nat) (s : notification_queue_impl) :
    (dequeue_scan Size s (scan_order Size s.next_)).1 = (dequeue_reference Size s).1
      ∧ (dequeue_scan Size s (scan_order Size s.next_)).2.next_ = (dequeue_reference Size s).2 := by
  unfold dequeue_scan dequeue_reference
  cases (scan_order Size s.next_).find? (ready Size s) with
  | none => exact ⟨rfl, rfl⟩
  | some slot =>
    by_cases h : indication_ready Size s slot = true
    · simp [dequeue_at, h, remove_state]
    · simp [dequeue_at, h, remove_state]

end notification_queue_impl

/-- C1: in every state of the general tier whose cursor is below `Size`, a dequeue whose
loop body may run `Size` times or more returns the result of the reference scan and leaves
the cursor the reference names; the reference visits `Size` distinct slots, so the scan is
over after at most `Size` visits. -/
theorem C1_dequeue_equals_reference (Size : Nat) (s : notification_queue_impl) (fuel : Nat)
    (hs : notification_queue_impl.storage_ok Size s) (hc : s.next_ < Size)
    (hfuel : Size ≤ fuel) :
    (∃ s1, notification_queue_impl.dequeue_fuel Size fuel s
          = some ((notification_queue_impl.dequeue_reference Size s).1, s1)
        ∧ s1.next_ = (notification_queue_impl.dequeue_reference Size s).2)
      ∧ notification_queue_impl.dequeue_indication_or_confirmation Size s
          = notification_queue_impl.dequeue_fuel Size fuel s
      ∧ (notification_queue_impl.scan_order Size s.next_).length = Size
      ∧ (notification_queue_impl.scan_order Size s.next_).Nodup := by
  have h := notification_queue_impl.dequeue_fuel_eq_scan hs hc hfuel
  have h2 := notification_queue_impl.dequeue_scan_result_cursor Size s
  refine ⟨⟨_, ?_, h2.2⟩, ?_, by simp [notification_queue_impl.scan_order],
    notification_queue_impl.scan_order_nodup Size _⟩
  · rw [h, ← h2.1]
  · rw [h, notification_queue_impl.dequeue_eq_scan hs hc]

/-- C1 at a tier of four slots: slot 3 queued for indication and notification, slot 0 for
notification, cursor at slot 1. -/
theorem C1_dequeue_equals_reference_witness :
    (∃ s1, notification_queue_impl.dequeue_fuel 4 4 ⟨1, [0xC1], 4⟩
          = some ((notification_queue_impl.dequeue_reference 4 ⟨1, [0xC1], 4⟩).1, s1)
        ∧ s1.next_ = (notification_queue_impl.dequeue_reference 4 ⟨1, [0xC1], 4⟩).2)
      ∧ notification_queue_impl.dequeue_indication_or_confirmation 4 ⟨1, [0xC1], 4⟩
          = notification_queue_impl.dequeue_fuel 4 4 ⟨1, [0xC1], 4⟩
      ∧ (notification_queue_impl.scan_order 4 1).length = 4
      ∧ (notification_queue_impl.scan_order 4 1).Nodup :=
  C1_dequeue_equals_reference 4 ⟨1, [0xC1], 4⟩ 4 (by decide) (by decide) (by decide)

end details
end link_layer
end bluetoe

namespace bluetoe
namespace link_layer
namespace details
namespace notification_queue_impl

/-! ## What one dequeue of the general tier does -/

theorem mem_scan_order_lt {Size c slot : Nat} (h : slot ∈ scan_order Size c) : slot < Size := by
  simp only [scan_order, List.mem_map, List.mem_range] at h
  obtain ⟨k, hk, rfl⟩ := h
  exact Nat.mod_lt _ (by omega)

theorem mem_scan_order {Size c slot : Nat} (hc : c < Size) (h : slot < Size) :
    slot ∈ scan_order Size c := by
  simp only [scan_order, List.mem_map, List.mem_range]
  by_cases h1 : c ≤ slot
  · refine ⟨slot - c, by omega, ?_⟩
    rw [Nat.add_sub_cancel' h1, Nat.mod_eq_of_lt h]
  · refine ⟨Size - c + slot, by omega, ?_⟩
    have h2 : c + (Size - c + slot) = slot + Size := by omega
    rw [h2, Nat.add_mod_right, Nat.mod_eq_of_lt h]

theorem storage_ok_with (Size : Nat) (s : notification_queue_impl) (a b : Nat)
    (h : storage_ok Size s) :
    storage_ok Size { s with outstanding_confirmation_ := a, next_ := b } := h

theorem indication_ready_false_of_closed {Size : Nat} {s : notification_queue_impl}
    (h : s.outstanding_confirmation_ ≠ Size) (slot : Nat) :
    indication_ready Size s slot = false := by
  simp [indication_ready, h]

theorem dequeue_at_indication {Size : Nat} {s : notification_queue_impl} {slot : Nat}
    (h : indication_ready Size s slot = true) :
    dequeue_at Size s slot = ((.indication, slot),
      remove_state { s with outstanding_confirmation_ := slot, next_ := (slot + 1) % Size }
        slot indication_bit) := by
  unfold dequeue_at
  rw [if_pos h]

theorem dequeue_at_notification {Size : Nat} {s : notification_queue_impl} {slot : Nat}
    (h : indication_ready Size s slot = false) :
    dequeue_at Size s slot = ((.notification, slot),
      remove_state { s with next_ := (slot + 1) % Size } slot notification_bit) := by
  unfold dequeue_at
  rw [if_neg (by simp [h])]

theorem dequeue_spec {Size : Nat} {s : notification_queue_impl}
    (hs : storage_ok Size s) (hc : s.next_ < Size) :
    ∃ r s1, dequeue_indication_or_confirmation Size s = some (r, s1)
      ∧ storage_ok Size s1 ∧ s1.next_ < Size
      ∧ ((r = (.empty, 0) ∧ s1 = s ∧ ∀ slot, slot < Size → ready Size s slot = false)
        ∨ (∃ slot, slot < Size ∧ r = (.indication, slot) ∧ indication_ready Size s slot = true
            ∧ s1 = remove_state
                { s with outstanding_confirmation_ := slot, next_ := (slot + 1) % Size }
                slot indication_bit)
        ∨ (∃ slot, slot < Size ∧ r = (.notification, slot)
            ∧ indication_ready Size s slot = false ∧ notification_ready s slot = true
            ∧ s1 = remove_state { s with next_ := (slot + 1) % Size } slot notification_bit)) := by
  have hS : 0 < Size := by omega
  rw [dequeue_eq_scan hs hc]
  unfold dequeue_scan
  cases hf : (scan_order Size s.next_).find? (ready Size s) with
  | none =>
    refine ⟨_, _, rfl, hs, hc, Or.inl ⟨rfl, rfl, ?_⟩⟩
    intro slot hslot
    have h1 := List.find?_eq_none.mp hf slot (mem_scan_order hc hslot)
    simpa using h1
  | some slot =>
    have hready := List.find?_some hf
    have hlt := mem_scan_order_lt (List.mem_of_find?_eq_some hf)
    by_cases h1 : indication_ready Size s slot = true
    · dsimp only
      rw [dequeue_at_indication h1]
      exact ⟨_, _, rfl, storage_ok_remove_state (storage_ok_with Size s _ _ hs) _ _,
        Nat.mod_lt _ hS, Or.inr (Or.inl ⟨slot, hlt, rfl, h1, rfl⟩)⟩
    · have h1f : indication_ready Size s slot = false := by simpa using h1
      have h2 : notification_ready s slot = true := by
        simp only [ready, Bool.or_eq_true] at hready
        rcases hready with h | h
        · exact absurd h h1
        · exact h
      dsimp only
      rw [dequeue_at_notification h1f]
      exact ⟨_, _, rfl, storage_ok_remove_state (storage_ok_with Size s _ _ hs) _ _,
        Nat.mod_lt _ hS, Or.inr (Or.inr ⟨slot, hlt, rfl, h1f, h2, rfl⟩)⟩

theorem storage_ok_clear {Size : Nat} {s : notification_queue_impl} (h : storage_ok Size s) :
    storage_ok Size (clear_indications_and_confirmations Size s) := by
  refine ⟨by simp [clear_indications_and_confirmations, h.1], ?_⟩
  intro b hb
  simp only [clear_indications_and_confirmations, List.mem_map] at hb
  obtain ⟨_, _, rfl⟩ := hb
  decide

theorem storage_ok_construct (Size : Nat) : storage_ok Size (construct Size) := by
  unfold construct
  apply storage_ok_clear
  refine ⟨by simp, ?_⟩
  intro b hb
  rw [List.eq_of_mem_replicate hb]
  decide

theorem queue_notification_eq {Size : Nat} {s : notification_queue_impl}
    (hs : storage_ok Size s) {i : Nat} (hi : i < Size) :
    queue_notification Size s i
      = some (decide (s.entry i &&& notification_bit = 0), s.add_state i notification_bit) := by
  rw [queue_notification, if_pos hi, add_eq_some (byte_offset_lt hs hi) (by decide)]

theorem queue_indication_eq {Size : Nat} {s : notification_queue_impl}
    (hs : storage_ok Size s) {i : Nat} (hi : i < Size) :
    queue_indication Size s i
      = if s.outstanding_confirmation_ = i then some (false, s)
        else some (decide (s.entry i &&& indication_bit = 0), s.add_state i indication_bit) := by
  rw [queue_indication, if_pos hi, add_eq_some (byte_offset_lt hs hi) (by decide)]

end notification_queue_impl
end details
end link_layer
end bluetoe

namespace bluetoe
namespace link_layer
namespace details

/-! ## Steps of a tier -/

theorem tier.Size_construct (Size : Nat) : (tier.construct Size).Size = Size := by
  unfold tier.construct
  split
  · rename_i h; simp [tier.Size, h]
  · rfl

theorem tier.inv_construct {Size : Nat} (h : 0 < Size) : (tier.construct Size).inv := by
  unfold tier.construct
  split
  · decide
  · exact ⟨notification_queue_impl.storage_ok_construct Size, h⟩

theorem tier.general_step {Size : Nat} {s : notification_queue_impl}
    (hs : notification_queue_impl.storage_ok Size s) (hc : s.next_ < Size)
    {o : operation} (ho : o.index_ok Size = true) :
    ∃ r s1, (tier.general Size s).step o = some (r, tier.general Size s1)
      ∧ notification_queue_impl.storage_ok Size s1 ∧ s1.next_ < Size
      ∧ (o = .dequeue_indication_or_confirmation → r.is_indication = true →
          s1.outstanding_confirmation_ ≠ Size)
      ∧ (s.outstanding_confirmation_ ≠ Size → o.releases_gate = false →
          s1.outstanding_confirmation_ ≠ Size ∧ r.is_indication = false) := by
  cases o with
  | queue_notification i =>
    have hi : i < Size := by simpa [operation.index_ok] using ho
    refine ⟨.queued (decide (s.entry i &&& notification_bit = 0)), _, ?_,
      notification_queue_impl.storage_ok_add_state hs i notification_bit, hc,
      (by intro h; cases h), fun h _ => ⟨h, rfl⟩⟩
    simp [tier.step, tier.queue_notification, notification_queue_impl.queue_notification_eq hs hi]
  | queue_indication i =>
    have hi : i < Size := by simpa [operation.index_ok] using ho
    by_cases h : s.outstanding_confirmation_ = i
    · refine ⟨.queued false, _, ?_, hs, hc, (by intro h; cases h), fun h _ => ⟨h, rfl⟩⟩
      simp [tier.step, tier.queue_indication, notification_queue_impl.queue_indication_eq hs hi, h]
    · refine ⟨.queued (decide (s.entry i &&& indication_bit = 0)), _, ?_,
        notification_queue_impl.storage_ok_add_state hs i indication_bit, hc,
        (by intro h; cases h), fun h _ => ⟨h, rfl⟩⟩
      simp [tier.step, tier.queue_indication, notification_queue_impl.queue_indication_eq hs hi, h]
  | indication_confirmed =>
    refine ⟨_, _, rfl, ?_, ?_, (by intro h; cases h), fun _ h => by simp [operation.releases_gate] at h⟩
    · unfold notification_queue_impl.indication_confirmed; split
      · exact hs
      · exact hs
    · unfold notification_queue_impl.indication_confirmed; split
      · exact hc
      · exact hc
  | clear_indications_and_confirmations =>
    exact ⟨_, _, rfl, notification_queue_impl.storage_ok_clear hs,
      (by simp only [notification_queue_impl.clear_indications_and_confirmations]; omega),
      (by intro h; cases h), fun _ h => by simp [operation.releases_gate] at h⟩
  | dequeue_indication_or_confirmation =>
    obtain ⟨r, s1, heq, hs1, hc1, hcase⟩ := notification_queue_impl.dequeue_spec hs hc
    refine ⟨.entry r.1 r.2, s1, ?_, hs1, hc1, ?_, ?_⟩
    · simp [tier.step, tier.dequeue_indication_or_confirmation, heq]
    · intro _ hind
      rcases hcase with ⟨rfl, _, _⟩ | ⟨slot, hlt, rfl, _, rfl⟩ | ⟨slot, _, rfl, _, _, _⟩
      · simp [response.is_indication] at hind
      · simp only [notification_queue_impl.remove_state]; omega
      · simp [response.is_indication] at hind
    · intro hclosed _
      rcases hcase with ⟨rfl, rfl, _⟩ | ⟨slot, hlt, rfl, hready, rfl⟩ | ⟨slot, _, rfl, _, _, rfl⟩
      · exact ⟨hclosed, rfl⟩
      · rw [notification_queue_impl.indication_ready_false_of_closed hclosed] at hready
        cases hready
      · exact ⟨hclosed, rfl⟩

theorem tier.single_step {s : notification_queue_impl_1}
    (hs : s.state_ ≤ notification_queue_impl_1.outstanding_confirmation)
    {o : operation} (ho : o.index_ok 1 = true) :
    ∃ r s1, (tier.single s).step o = some (r, tier.single s1)
      ∧ s1.state_ ≤ notification_queue_impl_1.outstanding_confirmation
      ∧ (o = .dequeue_indication_or_confirmation → r.is_indication = true →
          s1.state_ = notification_queue_impl_1.outstanding_confirmation)
      ∧ (s.state_ = notification_queue_impl_1.outstanding_confirmation →
          o.releases_gate = false →
          s1.state_ = notification_queue_impl_1.outstanding_confirmation
            ∧ r.is_indication = false) := by
  obtain ⟨v⟩ := s
  have hv : v ≤ 3 := hs
  cases o with
  | queue_notification i =>
    have hi : i = 0 := by
      simp only [operation.index_ok, decide_eq_true_eq] at ho; omega
    subst hi
    interval_cases v <;> exact ⟨_, _, rfl, (by decide), (by intro h; cases h), (by decide)⟩
  | queue_indication i =>
    have hi : i = 0 := by
      simp only [operation.index_ok, decide_eq_true_eq] at ho; omega
    subst hi
    interval_cases v <;> exact ⟨_, _, rfl, (by decide), (by intro h; cases h), (by decide)⟩
  | indication_confirmed =>
    interval_cases v <;> exact ⟨_, _, rfl, (by decide), (by intro h; cases h), (by decide)⟩
  | clear_indications_and_confirmations =>
    interval_cases v <;> exact ⟨_, _, rfl, (by decide), (by intro h; cases h), (by decide)⟩
  | dequeue_indication_or_confirmation =>
    interval_cases v <;> exact ⟨_, _, rfl, (by decide), (by decide), (by decide)⟩

theorem tier.step_spec {t : tier} (hinv : t.inv) {o : operation}
    (ho : o.index_ok t.Size = true) :
    ∃ r t1, t.step o = some (r, t1) ∧ t1.inv ∧ t1.Size = t.Size
      ∧ (o = .dequeue_indication_or_confirmation → r.is_indication = true →
          t1.awaiting_confirmation = true)
      ∧ (t.awaiting_confirmation = true → o.releases_gate = false →
          t1.awaiting_confirmation = true ∧ r.is_indication = false) := by
  cases t with
  | general Size s =>
    obtain ⟨r, s1, h1, h2, h3, h4, h5⟩ := tier.general_step hinv.1 hinv.2 ho
    refine ⟨r, _, h1, ⟨h2, h3⟩, rfl, ?_, ?_⟩
    · intro ha hb
      simpa [tier.awaiting_confirmation] using h4 ha hb
    · intro ha hb
      have := h5 (by simpa [tier.awaiting_confirmation] using ha) hb
      simpa [tier.awaiting_confirmation] using this
  | single s =>
    obtain ⟨r, s1, h1, h2, h4, h5⟩ := tier.single_step hinv ho
    refine ⟨r, _, h1, h2, rfl, ?_, ?_⟩
    · intro ha hb
      simpa [tier.awaiting_confirmation] using h4 ha hb
    · intro ha hb
      have := h5 (by simpa [tier.awaiting_confirmation] using ha) hb
      simpa [tier.awaiting_confirmation] using this

end details
end link_layer
end bluetoe

namespace bluetoe
namespace link_layer
namespace details

/-! ## Runs of a tier -/

theorem tier.run_append (t : tier) (a b : List operation) :
    t.run (a ++ b) = match t.run a with
      | none => none
      | some (rs, t1) => (t1.run b).map (fun p => (rs ++ p.1, p.2)) := by
  induction a generalizing t with
  | nil =>
    simp only [List.nil_append, tier.run]
    cases t.run b <;> simp
  | cons o os ih =>
    rw [List.cons_append]
    simp only [tier.run]
    cases h : t.step o with
    | none => rfl
    | some p =>
      obtain ⟨r, t1⟩ := p
      dsimp only
      rw [ih t1]
      cases h2 : t1.run os with
      | none => rfl
      | some q =>
        obtain ⟨rs, t2⟩ := q
        simp only [Option.map_some', Option.map_map]
        rfl

theorem tier.run_spec {t : tier} (hinv : t.inv) (ops : List operation)
    (hops : ∀ o ∈ ops, o.index_ok t.Size = true) :
    ∃ rs t1, t.run ops = some (rs, t1) ∧ t1.inv ∧ t1.Size = t.Size := by
  induction ops generalizing t with
  | nil => exact ⟨_, _, rfl, hinv, rfl⟩
  | cons o os ih =>
    obtain ⟨r, t1, h1, h2, h3, _⟩ := tier.step_spec hinv (hops o (List.mem_cons_self _ _))
    obtain ⟨rs, t2, h4, h5, h6⟩ := ih h2 (fun o ho => by
      rw [h3]; exact hops o (List.mem_cons_of_mem _ ho))
    exact ⟨r :: rs, t2, by simp [tier.run, h1, h4], h5, h6.trans h3⟩

theorem tier.run_gate_closed {t : tier} (hinv : t.inv) (ha : t.awaiting_confirmation = true)
    (ops : List operation)
    (hops : ∀ o ∈ ops, o.index_ok t.Size = true ∧ o.releases_gate = false) :
    ∃ rs t1, t.run ops = some (rs, t1) ∧ t1.inv ∧ t1.Size = t.Size
      ∧ t1.awaiting_confirmation = true ∧ ∀ r ∈ rs, r.is_indication = false := by
  induction ops generalizing t with
  | nil => exact ⟨_, _, rfl, hinv, rfl, ha, by simp⟩
  | cons o os ih =>
    have ho := hops o (List.mem_cons_self _ _)
    obtain ⟨r, t1, h1, h2, h3, _, h7⟩ := tier.step_spec hinv ho.1
    obtain ⟨ha1, hr⟩ := h7 ha ho.2
    obtain ⟨rs, t2, h4, h5, h6, h8, h9⟩ := ih h2 ha1 (fun o ho => by
      rw [h3]; exact hops o (List.mem_cons_of_mem _ ho))
    refine ⟨r :: rs, t2, by simp [tier.run, h1, h4], h5, h6.trans h3, h8, ?_⟩
    intro x hx
    rcases List.mem_cons.mp hx with rfl | hx
    · exact hr
    · exact h9 x hx

/-- C2, as amended: on a tier of any size (the single-slot tier for size 1), started from
construction and driven by any operations with indices in range, every run comes to an
end, and once a dequeue has returned an indication no later dequeue returns an indication
until `indication_confirmed` or `clear_indications_and_confirmations` is called. -/
theorem C2_no_indication_while_awaiting (Size : Nat) (hSize : 0 < Size)
    (pre mid : List operation) (hpre : ∀ o ∈ pre, o.index_ok Size = true)
    (hmid : ∀ o ∈ mid, o.index_ok Size = true ∧ o.releases_gate = false) :
    ∃ rs0 t0 r1 t1 rs2 t2 r3 t3,
      (tier.construct Size).run pre = some (rs0, t0)
      ∧ t0.step .dequeue_indication_or_confirmation = some (r1, t1)
      ∧ t1.run mid = some (rs2, t2)
      ∧ t2.step .dequeue_indication_or_confirmation = some (r3, t3)
      ∧ (tier.construct Size).run
          (pre ++ .dequeue_indication_or_confirmation :: (mid ++
            [.dequeue_indication_or_confirmation]))
          = some (rs0 ++ r1 :: (rs2 ++ [r3]), t3)
      ∧ (r1.is_indication = true →
          (∀ r ∈ rs2, r.is_indication = false) ∧ r3.is_indication = false) := by
  have hS := tier.Size_construct Size
  obtain ⟨rs0, t0, h0, hinv0, hsz0⟩ :=
    tier.run_spec (tier.inv_construct hSize) pre (by rw [hS]; exact hpre)
  rw [hS] at hsz0
  obtain ⟨r1, t1, h1, hinv1, hsz1, hg1, _⟩ :=
    tier.step_spec hinv0 (o := .dequeue_indication_or_confirmation) rfl
  rw [hsz0] at hsz1
  obtain ⟨rs2, t2, h2, hinv2, hsz2⟩ :=
    tier.run_spec hinv1 mid (by rw [hsz1]; exact fun o ho => (hmid o ho).1)
  obtain ⟨r3, t3, h3, hinv3, hsz3, _, hg3⟩ :=
    tier.step_spec hinv2 (o := .dequeue_indication_or_confirmation) rfl
  refine ⟨rs0, t0, r1, t1, rs2, t2, r3, t3, h0, h1, h2, h3, ?_, ?_⟩
  · rw [tier.run_append, h0]
    simp only [tier.run, h1]
    rw [tier.run_append, h2]
    simp [tier.run, h3]
  · intro hr1
    have ha1 := hg1 rfl hr1
    obtain ⟨rs2', t2', h2', _, _, ha2, hrs⟩ :=
      tier.run_gate_closed hinv1 ha1 mid (by rw [hsz1]; exact hmid)
    rw [h2] at h2'
    cases h2'
    exact ⟨hrs, (hg3 ha2 rfl).2⟩

/-- C2 on a tier of two slots: both slots queued for indication, the first one dequeued,
then a notification queued and dequeued before the final dequeue. -/
theorem C2_no_indication_while_awaiting_witness :
    ∃ rs0 t0 r1 t1 rs2 t2 r3 t3,
      (tier.construct 2).run [.queue_indication 0, .queue_indication 1] = some (rs0, t0)
      ∧ t0.step .dequeue_indication_or_confirmation = some (r1, t1)
      ∧ t1.run [.queue_notification 0, .dequeue_indication_or_confirmation] = some (rs2, t2)
      ∧ t2.step .dequeue_indication_or_confirmation = some (r3, t3)
      ∧ (tier.construct 2).run
          ([.queue_indication 0, .queue_indication 1] ++
            .dequeue_indication_or_confirmation ::
              ([.queue_notification 0, .dequeue_indication_or_confirmation] ++
                [.dequeue_indication_or_confirmation]))
          = some (rs0 ++ r1 :: (rs2 ++ [r3]), t3)
      ∧ (r1.is_indication = true →
          (∀ r ∈ rs2, r.is_indication = false) ∧ r3.is_indication = false) :=
  C2_no_indication_while_awaiting 2 (by decide)
    [.queue_indication 0, .queue_indication 1]
    [.queue_notification 0, .dequeue_indication_or_confirmation] (by decide) (by decide)

/-- C2 as stated fails: on a tier of two slots the indication of slot 0 is dequeued, the
queue is cleared, and the indication of slot 1 is dequeued although `indication_confirmed`
was never called. -/
theorem C2_counterexample :
    (tier.construct 2).run
        [.queue_indication 0, .dequeue_indication_or_confirmation,
          .clear_indications_and_confirmations, .queue_indication 1,
          .dequeue_indication_or_confirmation]
      = some ([.queued true, .entry .indication 0, .done, .queued true, .entry .indication 1],
          tier.general 2 ⟨0, [0], 1⟩) := by
  decide

end details
end link_layer
end bluetoe

namespace bluetoe
namespace link_layer

/-- C3, the code at the failing input: with a tier of two slots in front of a tier of
three slots, the indications of index 0 and of index 2 are both dequeued although
`indication_confirmed` was never called. -/
theorem C3_two_unconfirmed_indications :
    (notification_queue.construct [2, 3]).run
        [.queue_indication 0, .queue_indication 2, .dequeue_indication_or_confirmation,
          .dequeue_indication_or_confirmation]
      = some ([.queued true, .queued true, .entry .indication 0, .entry .indication 2],
          { impl := [.general 2 ⟨1, [0], 0⟩, .general 3 ⟨1, [0], 0⟩]
            outstanding_confirmation_index_ := size_t_all_ones }) := by
  decide

namespace details

/-! ## `queue_indication` -/

theorem set_getD_self (l : List Nat) (n : Nat) : List.set l n (l.getD n 0) = l := by
  induction l generalizing n with
  | nil => rfl
  | cons x xs ih =>
    cases n with
    | zero => rfl
    | succ n =>
      have h := ih n
      simp only [List.getD_eq_getElem?_getD] at h
      simp [h]

theorem notification_queue_impl.add_state_eq_self {Size : Nat} {s : notification_queue_impl}
    (hs : notification_queue_impl.storage_ok Size s) (i bits : Nat)
    (hi : notification_queue_impl.byte_offset i < s.queue_.length)
    (hb : bits = 1 ∨ bits = 2) (h : s.entry i &&& bits ≠ 0) :
    s.add_state i bits = s := by
  have hb4 : bits < 4 := by omega
  have h1 : s.queue_.getD (notification_queue_impl.byte_offset i) 0
      &&& (bits <<< notification_queue_impl.bit_offset i) ≠ 0 := by
    intro hc
    exact h ((byte_and_eq_zero _ _ _ hb4).mp hc)
  have hlt : s.queue_.getD (notification_queue_impl.byte_offset i) 0 < 256 := by
    rw [List.getD_eq_getElem _ _ hi]
    exact hs.2 _ (List.getElem_mem _)
  have hpow : ∃ p, bits <<< notification_queue_impl.bit_offset i = 2 ^ p := by
    rcases hb with rfl | rfl
    · exact ⟨notification_queue_impl.bit_offset i, by rw [Nat.shiftLeft_eq, Nat.one_mul]⟩
    · exact ⟨notification_queue_impl.bit_offset i + 1, by
        rw [Nat.shiftLeft_eq, Nat.pow_succ, Nat.mul_comm]⟩
  obtain ⟨p, hp⟩ := hpow
  rw [hp] at h1
  have h2 := byte_or_absorb _ p hlt h1
  unfold notification_queue_impl.add_state
  rw [hp, h2]
  rw [set_getD_self]

end details
end link_layer
end bluetoe

namespace bluetoe
namespace link_layer
namespace details

theorem notification_queue_impl.at_eq_ite (s : notification_queue_impl) (i : Nat) :
    s.at_ i = if notification_queue_impl.byte_offset i < s.queue_.length then some (s.entry i)
      else none := rfl

theorem or_bit_and_bit (e bit : Nat) (h : bit ≠ 0) : (e ||| bit) &&& bit ≠ 0 := by
  have h1 : (e ||| bit) &&& bit = bit := by
    apply Nat.eq_of_testBit_eq
    intro k
    simp only [Nat.testBit_and, Nat.testBit_or]
    cases e.testBit k <;> cases bit.testBit k <;> rfl
  rw [h1]; exact h

theorem and_clear_bit (e bit : Nat) (hb : bit < 4) : (e &&& (3 ^^^ bit)) &&& bit = 0 := by
  apply Nat.eq_of_testBit_eq
  intro k
  simp only [Nat.testBit_and, Nat.testBit_xor, Nat.zero_testBit, testBit_three]
  by_cases hk : k < 2
  · simp only [hk, decide_True]
    cases e.testBit k <;> cases bit.testBit k <;> rfl
  · rw [testBit_of_lt_four bit k hb (by omega)]
    simp

/-- C5: `queue_indication` of the general tier. For the outstanding-confirmation slot it
returns false and leaves the state as it is; for any other slot it sets the indication bit
of the slot, leaves the other bit of the slot, the other slots, the cursor and the marker
as they are, and returns true exactly when the indication bit was clear. -/
theorem C5_queue_indication_general (Size : Nat) (s : notification_queue_impl) (i : Nat)
    (hs : notification_queue_impl.storage_ok Size s) (hi : i < Size) :
    (s.outstanding_confirmation_ = i →
      notification_queue_impl.queue_indication Size s i = some (false, s))
    ∧ (s.outstanding_confirmation_ ≠ i →
      ∃ e s1, s.at_ i = some e
        ∧ notification_queue_impl.queue_indication Size s i
            = some (decide (e &&& indication_bit = 0), s1)
        ∧ s1.at_ i = some (e ||| indication_bit)
        ∧ (∀ j, j ≠ i → s1.at_ j = s.at_ j)
        ∧ s1.next_ = s.next_
        ∧ s1.outstanding_confirmation_ = s.outstanding_confirmation_
        ∧ notification_queue_impl.storage_ok Size s1) := by
  have hb := notification_queue_impl.byte_offset_lt hs hi
  constructor
  · intro h
    rw [notification_queue_impl.queue_indication_eq hs hi, if_pos h]
  · intro h
    refine ⟨s.entry i, s.add_state i indication_bit, notification_queue_impl.at_eq_some hb, ?_,
      ?_, ?_, rfl, rfl, notification_queue_impl.storage_ok_add_state hs _ _⟩
    · rw [notification_queue_impl.queue_indication_eq hs hi, if_neg h]
    · rw [notification_queue_impl.at_eq_some (by simpa [notification_queue_impl.add_state] using hb),
        notification_queue_impl.entry_add_state_same s i indication_bit hb (by decide)]
    · intro j hj
      rw [notification_queue_impl.at_eq_ite, notification_queue_impl.at_eq_ite,
        notification_queue_impl.entry_add_state_other s i j indication_bit (by decide)
          (Ne.symm hj)]
      simp [notification_queue_impl.add_state]

/-- C5 at a tier of five slots whose slot 1 awaits confirmation: an indication is queued
for slot 4, which lives in the second byte. -/
theorem C5_queue_indication_general_witness :
    ((1 : Nat) = 4 →
      notification_queue_impl.queue_indication 5 ⟨2, [0x41, 0x01], 1⟩ 4
        = some (false, ⟨2, [0x41, 0x01], 1⟩))
    ∧ ((1 : Nat) ≠ 4 →
      ∃ e s1, notification_queue_impl.at_ ⟨2, [0x41, 0x01], 1⟩ 4 = some e
        ∧ notification_queue_impl.queue_indication 5 ⟨2, [0x41, 0x01], 1⟩ 4
            = some (decide (e &&& indication_bit = 0), s1)
        ∧ s1.at_ 4 = some (e ||| indication_bit)
        ∧ (∀ j, j ≠ 4 → s1.at_ j = notification_queue_impl.at_ ⟨2, [0x41, 0x01], 1⟩ j)
        ∧ s1.next_ = 2
        ∧ s1.outstanding_confirmation_ = 1
        ∧ notification_queue_impl.storage_ok 5 s1) :=
  C5_queue_indication_general 5 ⟨2, [0x41, 0x01], 1⟩ 4 (by decide) (by decide)

end details
end link_layer
end bluetoe

namespace bluetoe
namespace link_layer
namespace details

theorem notification_queue_impl.queue_indication_after_confirm {Size : Nat}
    {s0 s1 : notification_queue_impl} (hs : notification_queue_impl.storage_ok Size s0)
    (hc : s0.next_ < Size) {i : Nat}
    (hd : notification_queue_impl.dequeue_indication_or_confirmation Size s0
      = some ((.indication, i), s1)) :
    i < Size ∧ notification_queue_impl.storage_ok Size s1
      ∧ (notification_queue_impl.indication_confirmed Size s1).outstanding_confirmation_ ≠ i
      ∧ (notification_queue_impl.indication_confirmed Size s1).entry i &&& indication_bit = 0
      ∧ notification_queue_impl.storage_ok Size
          (notification_queue_impl.indication_confirmed Size s1) := by
  obtain ⟨r, s1', heq, hs1, _, hcase⟩ := notification_queue_impl.dequeue_spec hs hc
  rw [hd] at heq
  simp only [Option.some.injEq, Prod.mk.injEq] at heq
  obtain ⟨hr, rfl⟩ := heq
  subst hr
  rcases hcase with ⟨h, _, _⟩ | ⟨slot, hlt, h, _, rfl⟩ | ⟨slot, _, h, _, _, _⟩
  · cases h
  · simp only [Prod.mk.injEq, true_and] at h
    subst h
    have hb := notification_queue_impl.byte_offset_lt hs hlt
    have hconf : notification_queue_impl.indication_confirmed Size
        (notification_queue_impl.remove_state
          { s0 with outstanding_confirmation_ := i, next_ := (i + 1) % Size } i indication_bit)
        = { notification_queue_impl.remove_state
          { s0 with outstanding_confirmation_ := i, next_ := (i + 1) % Size } i indication_bit
            with outstanding_confirmation_ := Size } := by
      unfold notification_queue_impl.indication_confirmed
      rw [if_pos]
      simp only [notification_queue_impl.remove_state]
      omega
    rw [hconf]
    refine ⟨hlt, hs1, ?_, ?_, hs1⟩
    · simp only; omega
    · have h2 := notification_queue_impl.entry_remove_state_same
        { s0 with outstanding_confirmation_ := i, next_ := (i + 1) % Size } i indication_bit hb
      have h3 : notification_queue_impl.entry
          { notification_queue_impl.remove_state
            { s0 with outstanding_confirmation_ := i, next_ := (i + 1) % Size } i indication_bit
              with outstanding_confirmation_ := Size } i
          = notification_queue_impl.entry (notification_queue_impl.remove_state
            { s0 with outstanding_confirmation_ := i, next_ := (i + 1) % Size } i
              indication_bit) i := rfl
      rw [h3, h2]
      exact and_clear_bit _ _ (by decide)
  · simp at h

theorem tier.dequeue_general {Size : Nat} {s : notification_queue_impl}
    {r : notification_queue_entry_type × Nat} {t2 : tier}
    (h : (tier.general Size s).dequeue_indication_or_confirmation = some (r, t2)) :
    ∃ s2, notification_queue_impl.dequeue_indication_or_confirmation Size s = some (r, s2)
      ∧ t2 = tier.general Size s2 := by
  simp only [tier.dequeue_indication_or_confirmation, Option.map_eq_some'] at h
  obtain ⟨⟨r1, s2⟩, h1, h2⟩ := h
  simp only [Prod.mk.injEq] at h2
  obtain ⟨rfl, rfl⟩ := h2
  exact ⟨s2, h1, rfl⟩

theorem tier.dequeue_single {s : notification_queue_impl_1}
    {r : notification_queue_entry_type × Nat} {t2 : tier}
    (h : (tier.single s).dequeue_indication_or_confirmation = some (r, t2)) :
    ∃ s2, notification_queue_impl_1.dequeue_indication_or_confirmation s = some (r, s2)
      ∧ t2 = tier.single s2 := by
  simp only [tier.dequeue_indication_or_confirmation, Option.map_eq_some'] at h
  obtain ⟨⟨r1, s2⟩, h1, h2⟩ := h
  simp only [Prod.mk.injEq] at h2
  obtain ⟨rfl, rfl⟩ := h2
  exact ⟨s2, h1, rfl⟩

theorem tier.after_confirm {t0 t2 : tier} {i : Nat} (hinv : t0.inv)
    (hd : t0.dequeue_indication_or_confirmation = some ((.indication, i), t2)) :
    t2.indication_confirmed.awaiting_slot i = false
      ∧ t2.indication_confirmed.indication_pending i = false
      ∧ (t2.indication_confirmed.is_general = true
          ∨ t2.indication_confirmed.notification_pending i = false) := by
  cases t0 with
  | general Size s0 =>
    obtain ⟨s2, h1, rfl⟩ := tier.dequeue_general hd
    have h := notification_queue_impl.queue_indication_after_confirm hinv.1 hinv.2 h1
    refine ⟨?_, ?_, Or.inl rfl⟩
    · simpa [tier.awaiting_slot, tier.indication_confirmed] using h.2.2.1
    · simpa [tier.indication_pending, tier.indication_confirmed] using h.2.2.2.1
  | single s0 =>
    obtain ⟨s2, h1, rfl⟩ := tier.dequeue_single hd
    obtain ⟨v0⟩ := s0
    have hv0 : v0 ≤ 3 := hinv
    interval_cases v0
    · simp [notification_queue_impl_1.dequeue_indication_or_confirmation,
        notification_queue_impl_1.outstanding_confirmation,
        notification_queue_entry_type.toNat, notification_queue_entry_type.static_cast] at h1
    · simp [notification_queue_impl_1.dequeue_indication_or_confirmation,
        notification_queue_impl_1.outstanding_confirmation,
        notification_queue_entry_type.toNat, notification_queue_entry_type.static_cast] at h1
    · simp only [notification_queue_impl_1.dequeue_indication_or_confirmation,
        notification_queue_impl_1.outstanding_confirmation,
        notification_queue_entry_type.toNat, notification_queue_entry_type.static_cast] at h1
      simp at h1
      obtain ⟨_, rfl⟩ := h1
      exact ⟨rfl, rfl, Or.inr rfl⟩
    · simp [notification_queue_impl_1.dequeue_indication_or_confirmation,
        notification_queue_impl_1.outstanding_confirmation,
        notification_queue_entry_type.toNat, notification_queue_entry_type.static_cast] at h1

theorem tier.queue_indication_cases (t : tier) (i : Nat) (hinv : t.inv) (hi : i < t.Size) :
    ∃ r t1, t.queue_indication i = some (r, t1)
      ∧ (t.awaiting_slot i = true ∨ t.indication_pending i = true → r = false ∧ t1 = t)
      ∧ (t.awaiting_slot i = false → t.indication_pending i = false →
          (t.is_general = true ∨ t.notification_pending i = false) →
          r = true ∧ t1.indication_pending i = true ∧ t1.awaiting_slot i = false) := by
  cases t with
  | general Size s =>
    have hi' : i < Size := hi
    have hq := notification_queue_impl.queue_indication_eq hinv.1 hi'
    have hb := notification_queue_impl.byte_offset_lt hinv.1 hi'
    by_cases hoc : s.outstanding_confirmation_ = i
    · rw [if_pos hoc] at hq
      refine ⟨false, .general Size s, by simp [tier.queue_indication, hq], fun _ => ⟨rfl, rfl⟩,
        ?_⟩
      intro h; simp [tier.awaiting_slot, hoc] at h
    · rw [if_neg hoc] at hq
      by_cases hp : s.entry i &&& indication_bit = 0
      · refine ⟨true, .general Size (s.add_state i indication_bit),
          by simp [tier.queue_indication, hq, hp], ?_, ?_⟩
        · intro h
          rcases h with h | h
          · simp [tier.awaiting_slot, hoc] at h
          · simp [tier.indication_pending, hp] at h
        · intro _ _ _
          refine ⟨rfl, ?_, ?_⟩
          · simp only [tier.indication_pending, bne_iff_ne, ne_eq]
            rw [notification_queue_impl.entry_add_state_same s i indication_bit hb (by decide)]
            exact or_bit_and_bit _ _ (by decide)
          · simpa [tier.awaiting_slot, notification_queue_impl.add_state] using hoc
      · refine ⟨false, .general Size s, ?_, fun _ => ⟨rfl, rfl⟩, ?_⟩
        · have hself := notification_queue_impl.add_state_eq_self hinv.1 i indication_bit hb
            (Or.inr rfl) hp
          simp [tier.queue_indication, hq, hp, hself]
        · intro _ h; simp [tier.indication_pending, hp] at h
  | single s =>
    obtain ⟨v⟩ := s
    have hv : v ≤ 3 := hinv
    have hi0 : i = 0 := by simp only [tier.Size] at hi; omega
    subst hi0
    interval_cases v
    · exact ⟨true, .single ⟨2⟩, rfl, (by decide), (by decide)⟩
    · exact ⟨false, .single ⟨1⟩, rfl, (by decide), (by decide)⟩
    · exact ⟨false, .single ⟨2⟩, rfl, (by decide), (by decide)⟩
    · exact ⟨false, .single ⟨3⟩, rfl, (by decide), (by decide)⟩

/-- C4, as amended. On the general tier `queue_indication( i )` returns false and has no
side effect when slot `i` itself awaits confirmation or already has an indication queued,
and returns true and queues the indication in every other state, also while another slot
awaits confirmation; on the single-slot tier it returns false without side effect while
the slot awaits confirmation or has an indication queued, and true when the slot is empty.
In both it returns true once an earlier indication of slot `i` was dequeued and
confirmed. -/
theorem C4_queue_indication_result (t : tier) (i : Nat) (hinv : t.inv) (hi : i < t.Size) :
    ∃ r t1, t.queue_indication i = some (r, t1)
      ∧ (t.awaiting_slot i = true ∨ t.indication_pending i = true → r = false ∧ t1 = t)
      ∧ (t.awaiting_slot i = false → t.indication_pending i = false →
          (t.is_general = true ∨ t.notification_pending i = false) →
          r = true ∧ t1.indication_pending i = true ∧ t1.awaiting_slot i = false)
      ∧ (∀ t0 t2 : tier, t0.inv →
          t0.dequeue_indication_or_confirmation = some ((.indication, i), t2) →
          t = t2.indication_confirmed → r = true) := by
  obtain ⟨r, t1, h1, h2, h3⟩ := tier.queue_indication_cases t i hinv hi
  refine ⟨r, t1, h1, h2, h3, ?_⟩
  intro t0 t2 hinv0 hd ht
  have h := tier.after_confirm hinv0 hd
  rw [← ht] at h
  exact (h3 h.1 h.2.1 h.2.2).1

/-- C4 on a tier of two slots in which slot 0 awaits confirmation: an indication is queued
for slot 1. -/
theorem C4_queue_indication_result_witness :
    ∃ r t1, (tier.general 2 ⟨1, [0], 0⟩).queue_indication 1 = some (r, t1)
      ∧ ((tier.general 2 ⟨1, [0], 0⟩).awaiting_slot 1 = true
          ∨ (tier.general 2 ⟨1, [0], 0⟩).indication_pending 1 = true →
          r = false ∧ t1 = tier.general 2 ⟨1, [0], 0⟩)
      ∧ ((tier.general 2 ⟨1, [0], 0⟩).awaiting_slot 1 = false →
          (tier.general 2 ⟨1, [0], 0⟩).indication_pending 1 = false →
          ((tier.general 2 ⟨1, [0], 0⟩).is_general = true
            ∨ (tier.general 2 ⟨1, [0], 0⟩).notification_pending 1 = false) →
          r = true ∧ t1.indication_pending 1 = true ∧ t1.awaiting_slot 1 = false)
      ∧ (∀ t0 t2 : tier, t0.inv →
          t0.dequeue_indication_or_confirmation = some ((.indication, 1), t2) →
          tier.general 2 ⟨1, [0], 0⟩ = t2.indication_confirmed → r = true) :=
  C4_queue_indication_result (tier.general 2 ⟨1, [0], 0⟩) 1 (by decide) (by decide)

/-- C4 as stated fails: on a tier of two slots, slot 0 awaits confirmation and
`queue_indication( 1 )` returns true; and in a fresh tier, in which no slot awaits
confirmation, the second `queue_indication( 0 )` in a row returns false. -/
theorem C4_counterexample :
    (tier.construct 2).run
        [.queue_indication 0, .dequeue_indication_or_confirmation, .queue_indication 1]
      = some ([.queued true, .entry .indication 0, .queued true],
          tier.general 2 ⟨1, [8], 0⟩)
    ∧ (tier.construct 2).run [.queue_indication 0, .queue_indication 0]
      = some ([.queued true, .queued false], tier.general 2 ⟨0, [2], 2⟩) := by
  decide

end details
end link_layer
end bluetoe

namespace bluetoe
namespace link_layer

/-- C6, the code at the failing input: on a queue with one single-slot tier the
characteristic is queued for indication only, yet `queue_notification( 0 )` returns false,
and no notification is ever dequeued. -/
theorem C6_single_slot_refuses_notification :
    (notification_queue.construct [1]).run
        [.queue_indication 0, .queue_notification 0, .dequeue_indication_or_confirmation,
          .indication_confirmed, .dequeue_indication_or_confirmation]
      = some ([.queued true, .queued false, .entry .indication 0, .done, .entry .empty 0],
          { impl := [.single ⟨0⟩], outstanding_confirmation_index_ := size_t_all_ones }) := by
  decide

namespace details

/-! ## `queue_notification` on tiers and chains -/

theorem tier.queue_notification_twice (t : tier) (i : Nat) (hinv : t.inv) (hi : i < t.Size) :
    ∃ r t1, t.queue_notification i = some (r, t1) ∧ t1.inv ∧ t1.Size = t.Size
      ∧ t1.queue_notification i = some (false, t1) := by
  cases t with
  | general Size s =>
    have hi' : i < Size := hi
    have hb := notification_queue_impl.byte_offset_lt hinv.1 hi'
    have hs1 := notification_queue_impl.storage_ok_add_state hinv.1 i notification_bit
    have he := notification_queue_impl.entry_add_state_same s i notification_bit hb (by decide)
    have hne : (s.add_state i notification_bit).entry i &&& notification_bit ≠ 0 := by
      rw [he]; exact or_bit_and_bit _ _ (by decide)
    have hb1 : notification_queue_impl.byte_offset i
        < (s.add_state i notification_bit).queue_.length :=
      notification_queue_impl.byte_offset_lt hs1 hi'
    refine ⟨decide (s.entry i &&& notification_bit = 0),
      .general Size (s.add_state i notification_bit), ?_, ⟨hs1, hinv.2⟩, rfl, ?_⟩
    · simp [tier.queue_notification, notification_queue_impl.queue_notification_eq hinv.1 hi']
    · have hself := notification_queue_impl.add_state_eq_self hs1 i notification_bit hb1
        (Or.inl rfl) hne
      simp [tier.queue_notification, notification_queue_impl.queue_notification_eq hs1 hi',
        hne, hself]
  | single s =>
    obtain ⟨v⟩ := s
    have hv : v ≤ 3 := hinv
    have hi0 : i = 0 := by simp only [tier.Size] at hi; omega
    subst hi0
    interval_cases v <;> exact ⟨_, _, rfl, (by decide), rfl, rfl⟩

theorem notification_queue_impl_base.chain_queue_notification_twice
    (c : notification_queue_impl_base) :
    ∀ (idx : Nat), notification_queue_impl_base.inv c →
      idx < notification_queue_impl_base.total c →
      ∃ r c1, notification_queue_impl_base.queue_notification c idx = some (r, c1)
        ∧ notification_queue_impl_base.inv c1
        ∧ notification_queue_impl_base.queue_notification c1 idx = some (false, c1) := by
  induction c with
  | nil => intro idx _ h; simp [notification_queue_impl_base.total] at h
  | cons impl base ih =>
    intro idx hinv hidx
    by_cases h : idx < impl.Size
    · obtain ⟨r, t1, h1, h2, h3, h4⟩ := tier.queue_notification_twice impl idx hinv.1 h
      refine ⟨r, t1 :: base, ?_, ⟨h2, hinv.2⟩, ?_⟩
      · simp [notification_queue_impl_base.queue_notification, h, h1]
      · simp [notification_queue_impl_base.queue_notification, h3, h, h4]
    · have hidx' : idx - impl.Size < notification_queue_impl_base.total base := by
        simp only [notification_queue_impl_base.total] at hidx; omega
      obtain ⟨r, c1, h1, h2, h3⟩ := ih (idx - impl.Size) hinv.2 hidx'
      refine ⟨r, impl :: c1, ?_, ⟨hinv.1, h2⟩, ?_⟩
      · simp [notification_queue_impl_base.queue_notification, h, h1]
      · simp [notification_queue_impl_base.queue_notification, h, h3]

/-! ## `dequeue_indication_or_confirmation` on tiers and chains -/

theorem tier.dequeue_total {t : tier} (hinv : t.inv) :
    ∃ r t1, t.dequeue_indication_or_confirmation = some (r, t1) ∧ t1.inv ∧ t1.Size = t.Size
      ∧ (r.1 = .empty → r.2 = 0 ∧ t1 = t) ∧ (r.1 ≠ .empty → r.2 < t.Size)
      ∧ (r.1 = .notification → ∃ t2, t1.queue_notification r.2 = some (true, t2)) := by
  cases t with
  | general Size s =>
    obtain ⟨r, s1, heq, hs1, hc1, hcase⟩ := notification_queue_impl.dequeue_spec hinv.1 hinv.2
    refine ⟨r, .general Size s1, by simp [tier.dequeue_indication_or_confirmation, heq],
      ⟨hs1, hc1⟩, rfl, ?_, ?_, ?_⟩
    · intro hr
      rcases hcase with ⟨rfl, rfl, _⟩ | ⟨slot, _, rfl, _, _⟩ | ⟨slot, _, rfl, _, _, _⟩
      · exact ⟨rfl, rfl⟩
      · cases hr
      · cases hr
    · intro hr
      rcases hcase with ⟨rfl, _, _⟩ | ⟨slot, hlt, rfl, _, _⟩ | ⟨slot, hlt, rfl, _, _, _⟩
      · exact absurd rfl hr
      · exact hlt
      · exact hlt
    · intro hr
      rcases hcase with ⟨rfl, _, _⟩ | ⟨slot, _, rfl, _, _⟩ | ⟨slot, hlt, rfl, _, _, rfl⟩
      · cases hr
      · cases hr
      · have hb := notification_queue_impl.byte_offset_lt hinv.1 hlt
        have he := notification_queue_impl.entry_remove_state_same
          { s with next_ := (slot + 1) % Size } slot notification_bit hb
        have hz : (notification_queue_impl.remove_state
            { s with next_ := (slot + 1) % Size } slot notification_bit).entry slot
              &&& notification_bit = 0 := by
          rw [he]; exact and_clear_bit _ _ (by decide)
        refine ⟨.general Size ((notification_queue_impl.remove_state
            { s with next_ := (slot + 1) % Size } slot notification_bit).add_state slot
              notification_bit), ?_⟩
        simp [tier.queue_notification,
          notification_queue_impl.queue_notification_eq hs1 hlt, hz]
  | single s =>
    obtain ⟨v⟩ := s
    have hv : v ≤ 3 := hinv
    interval_cases v
    · exact ⟨_, _, rfl, (by decide), rfl, (by decide), (by decide),
        fun h => absurd h (by decide)⟩
    · exact ⟨_, _, rfl, (by decide), rfl, (by decide), (by decide), fun _ => ⟨_, rfl⟩⟩
    · exact ⟨_, _, rfl, (by decide), rfl, (by decide), (by decide),
        fun h => absurd h (by decide)⟩
    · exact ⟨_, _, rfl, (by decide), rfl, (by decide), (by decide),
        fun h => absurd h (by decide)⟩

end details
end link_layer
end bluetoe

namespace bluetoe
namespace link_layer
namespace details

theorem notification_queue_impl_base.dequeue_cons {impl : tier} {base : notification_queue_impl_base}
    (hinv : impl.inv) (hbase : notification_queue_impl_base.inv base)
    (ih : ∃ r2 base1, notification_queue_impl_base.dequeue_indication_or_confirmation base
        = some (r2, base1) ∧ (r2.1 = .empty → r2.2 = 0 ∧ base1 = base)) :
    ∃ r1 impl1 r2 base1,
      impl.dequeue_indication_or_confirmation = some (r1, impl1)
      ∧ notification_queue_impl_base.dequeue_indication_or_confirmation base = some (r2, base1)
      ∧ (r1.1 ≠ .empty →
          notification_queue_impl_base.dequeue_indication_or_confirmation (impl :: base)
            = some (r1, impl1 :: base))
      ∧ (r1.1 = .empty → r2.1 ≠ .empty →
          notification_queue_impl_base.dequeue_indication_or_confirmation (impl :: base)
            = some ((r2.1, r2.2 + impl.Size), impl :: base1))
      ∧ (r1.1 = .empty → r2.1 = .empty →
          notification_queue_impl_base.dequeue_indication_or_confirmation (impl :: base)
            = some ((.empty, 0), impl :: base)) := by
  obtain ⟨r1, impl1, h1, _, _, h4, _, _⟩ := tier.dequeue_total hinv
  obtain ⟨r2, base1, h7, h8⟩ := ih
  refine ⟨r1, impl1, r2, base1, h1, h7, ?_, ?_, ?_⟩
  · intro hr
    simp [notification_queue_impl_base.dequeue_indication_or_confirmation, h1, hr]
  · intro hr hr2
    obtain ⟨_, rfl⟩ := h4 hr
    simp [notification_queue_impl_base.dequeue_indication_or_confirmation, h1, hr, h7, hr2]
  · intro hr hr2
    obtain ⟨_, rfl⟩ := h4 hr
    obtain ⟨h9, rfl⟩ := h8 hr2
    obtain ⟨k2, i2⟩ := r2
    simp only at hr2 h9
    subst hr2 h9
    simp [notification_queue_impl_base.dequeue_indication_or_confirmation, h1, hr, h7]

theorem notification_queue_impl_base.chain_dequeue_total (c : notification_queue_impl_base) :
    notification_queue_impl_base.inv c →
    ∃ r c1, notification_queue_impl_base.dequeue_indication_or_confirmation c = some (r, c1)
      ∧ notification_queue_impl_base.inv c1
      ∧ notification_queue_impl_base.total c1 = notification_queue_impl_base.total c
      ∧ (r.1 = .empty → r.2 = 0 ∧ c1 = c)
      ∧ (r.1 ≠ .empty → r.2 < notification_queue_impl_base.total c)
      ∧ (r.1 = .notification →
          ∃ c2, notification_queue_impl_base.queue_notification c1 r.2 = some (true, c2)) := by
  induction c with
  | nil =>
    intro _
    exact ⟨_, _, rfl, trivial, rfl, fun _ => ⟨rfl, rfl⟩, fun h => absurd rfl h,
      fun h => by cases h⟩
  | cons impl base ih =>
    intro hinv
    obtain ⟨r2', base1', g1, g2, g3, g4, g5, g6⟩ := ih hinv.2
    obtain ⟨r1, impl1, r2, base1, h1, h2, h3, h4, h5⟩ :=
      notification_queue_impl_base.dequeue_cons hinv.1 hinv.2 ⟨r2', base1', g1, g4⟩
    rw [g1] at h2
    simp only [Option.some.injEq, Prod.mk.injEq] at h2
    obtain ⟨rfl, rfl⟩ := h2
    obtain ⟨r1', impl1', f1, f2, f3, f4, f5, f6⟩ := tier.dequeue_total hinv.1
    rw [h1] at f1
    simp only [Option.some.injEq, Prod.mk.injEq] at f1
    obtain ⟨rfl, rfl⟩ := f1
    by_cases hr : r1.1 = .empty
    · by_cases hr2 : r2'.1 = .empty
      · refine ⟨_, _, h5 hr hr2, hinv, rfl, fun _ => ⟨rfl, rfl⟩, fun h => absurd rfl h,
          fun h => by cases h⟩
      · refine ⟨_, _, h4 hr hr2, ⟨hinv.1, g2⟩, ?_, fun h => absurd h hr2, ?_, ?_⟩
        · simp [notification_queue_impl_base.total, g3]
        · intro _
          have := g5 hr2
          simp only [notification_queue_impl_base.total]; omega
        · intro hn
          obtain ⟨c2, hc2⟩ := g6 hn
          refine ⟨impl :: c2, ?_⟩
          simp [notification_queue_impl_base.queue_notification, hc2]
    · refine ⟨_, _, h3 hr, ⟨f2, hinv.2⟩, ?_, fun h => absurd h hr, ?_, ?_⟩
      · simp [notification_queue_impl_base.total, f3]
      · intro _
        have := f5 hr
        simp only [notification_queue_impl_base.total]; omega
      · intro hn
        obtain ⟨t2, ht2⟩ := f6 hn
        refine ⟨t2 :: base, ?_⟩
        have := f5 hr
        simp [notification_queue_impl_base.queue_notification, f3, this, ht2]

end details

/-- C7: for every list of tiers, every well-formed state and every index below the total
number of slots, `queue_notification( index )` called again right after
`queue_notification( index )` returns false and leaves the state as it is; and when a
dequeue returns `(notification, index)`, the `queue_notification( index )` that follows it
returns true. -/
theorem C7_queue_notification_once_per_period (q : notification_queue) (index : Nat)
    (hinv : details.notification_queue_impl_base.inv q.impl)
    (hidx : index < details.notification_queue_impl_base.total q.impl) :
    (∃ r q1, q.queue_notification index = some (r, q1)
        ∧ q1.queue_notification index = some (false, q1))
      ∧ (∃ r q1, q.dequeue_indication_or_confirmation = some (r, q1)
        ∧ (r = (.notification, index) →
            ∃ q2, q1.queue_notification index = some (true, q2))) := by
  constructor
  · obtain ⟨r, c1, h1, _, h3⟩ :=
      details.notification_queue_impl_base.chain_queue_notification_twice q.impl index hinv hidx
    refine ⟨r, { q with impl := c1 }, ?_, ?_⟩
    · simp [notification_queue.queue_notification, h1]
    · simp [notification_queue.queue_notification, h3]
  · obtain ⟨r, c1, h1, _, _, _, _, h6⟩ :=
      details.notification_queue_impl_base.chain_dequeue_total q.impl hinv
    refine ⟨r, { q with impl := c1 }, ?_, ?_⟩
    · simp [notification_queue.dequeue_indication_or_confirmation, h1]
    · intro hr
      subst hr
      obtain ⟨c2, hc2⟩ := h6 rfl
      exact ⟨{ q with impl := c2 }, by simp [notification_queue.queue_notification, hc2]⟩

/-- C7 on tiers of sizes 2, 1 and 3 with a notification queued at index 4. -/
theorem C7_queue_notification_once_per_period_witness :
    (∃ r q1, (notification_queue.mk [.general 2 ⟨0, [0], 2⟩, .single ⟨0⟩,
          .general 3 ⟨0, [4], 3⟩] size_t_all_ones).queue_notification 4 = some (r, q1)
        ∧ q1.queue_notification 4 = some (false, q1))
      ∧ (∃ r q1, (notification_queue.mk [.general 2 ⟨0, [0], 2⟩, .single ⟨0⟩,
          .general 3 ⟨0, [4], 3⟩] size_t_all_ones).dequeue_indication_or_confirmation
            = some (r, q1)
        ∧ (r = (.notification, 4) →
            ∃ q2, q1.queue_notification 4 = some (true, q2))) :=
  C7_queue_notification_once_per_period
    (notification_queue.mk [.general 2 ⟨0, [0], 2⟩, .single ⟨0⟩, .general 3 ⟨0, [4], 3⟩]
      size_t_all_ones) 4 (by decide) (by decide)

end link_layer
end bluetoe

namespace bluetoe
namespace link_layer
namespace details

theorem tier.dequeue_dispatchable {t : tier} (hinv : t.inv) {i : Nat} (hi : i < t.Size)
    (hp : t.dispatchable i = true) :
    ∃ r t1, t.dequeue_indication_or_confirmation = some (r, t1) ∧ r.1 ≠ .empty
      ∧ r.2 < t.Size := by
  obtain ⟨r, t1, h1, _, _, h4, h5, _⟩ := tier.dequeue_total hinv
  have hne : r.1 ≠ .empty := by
    intro hr
    cases t with
    | general Size s =>
      obtain ⟨s2, hd, _⟩ := tier.dequeue_general h1
      obtain ⟨r', s1, heq, _, _, hcase⟩ := notification_queue_impl.dequeue_spec hinv.1 hinv.2
      rw [hd] at heq
      simp only [Option.some.injEq, Prod.mk.injEq] at heq
      obtain ⟨rfl, rfl⟩ := heq
      rcases hcase with ⟨_, _, hall⟩ | ⟨slot, _, rfl, _, _⟩ | ⟨slot, _, rfl, _, _, _⟩
      · have hready := hall i hi
        simp only [notification_queue_impl.ready, notification_queue_impl.indication_ready,
          notification_queue_impl.notification_ready, Bool.or_eq_false_iff] at hready
        simp only [tier.dispatchable, tier.notification_pending, tier.indication_pending,
          tier.awaiting_confirmation, Bool.or_eq_true, Bool.and_eq_true] at hp
        rcases hp with hp | ⟨hp1, hp2⟩
        · rw [hready.2] at hp; cases hp
        · have h6 : (s.outstanding_confirmation_ == Size) = true := by
            simpa using hp2
          rw [hp1, h6] at hready
          simp at hready
      · cases hr
      · cases hr
    | single s =>
      obtain ⟨v⟩ := s
      have hv : v ≤ 3 := hinv
      interval_cases v
      · simp [tier.dispatchable, tier.notification_pending, tier.indication_pending,
          notification_queue_entry_type.toNat] at hp
      · simp [tier.dequeue_indication_or_confirmation,
          notification_queue_impl_1.dequeue_indication_or_confirmation,
          notification_queue_impl_1.outstanding_confirmation,
          notification_queue_entry_type.toNat, notification_queue_entry_type.static_cast] at h1
        rw [← h1.1] at hr
        cases hr
      · simp [tier.dequeue_indication_or_confirmation,
          notification_queue_impl_1.dequeue_indication_or_confirmation,
          notification_queue_impl_1.outstanding_confirmation,
          notification_queue_entry_type.toNat, notification_queue_entry_type.static_cast] at h1
        rw [← h1.1] at hr
        cases hr
      · simp [tier.dispatchable, tier.notification_pending, tier.indication_pending,
          tier.awaiting_confirmation, notification_queue_impl_1.outstanding_confirmation,
          notification_queue_entry_type.toNat] at hp
  exact ⟨r, t1, h1, hne, h5 hne⟩

/-- C9, as amended: in a chain of two tiers A and B, while a slot of A holds a queued
notification, or a queued indication while no slot of A awaits confirmation, a dequeue
returns an entry of A: it returns, its result is not empty and the index is below the
size of A. -/
theorem C9_first_tier_served_first (A B : tier) (i : Nat) (hA : A.inv)
    (hi : i < A.Size) (hp : A.dispatchable i = true) :
    ∃ r c1, notification_queue_impl_base.dequeue_indication_or_confirmation [A, B]
        = some (r, c1)
      ∧ r.1 ≠ .empty ∧ r.2 < A.Size := by
  obtain ⟨r, t1, h1, h2, h3⟩ := tier.dequeue_dispatchable hA hi hp
  refine ⟨r, t1 :: [B], ?_, h2, h3⟩
  simp [notification_queue_impl_base.dequeue_indication_or_confirmation, h1, h2]

/-- C9 with a tier A of two slots whose slot 1 has a notification queued, in front of a
single-slot tier B with a notification queued. -/
theorem C9_first_tier_served_first_witness :
    ∃ r c1, notification_queue_impl_base.dequeue_indication_or_confirmation
        [tier.general 2 ⟨0, [4], 2⟩, tier.single ⟨1⟩] = some (r, c1)
      ∧ r.1 ≠ .empty ∧ r.2 < (tier.general 2 ⟨0, [4], 2⟩).Size :=
  C9_first_tier_served_first (tier.general 2 ⟨0, [4], 2⟩) (tier.single ⟨1⟩) 1
    (by decide) (by decide) (by decide)

end details

/-- C9 as stated fails: with a tier of two slots in front of a tier of three slots, slot 1
of the first tier has an indication queued that was not sent, slot 0 of it awaits
confirmation, and the dequeue returns index 2, an entry of the second tier. -/
theorem C9_counterexample :
    (notification_queue.construct [2, 3]).run
        [.queue_indication 0, .queue_indication 1, .dequeue_indication_or_confirmation,
          .queue_notification 2, .dequeue_indication_or_confirmation]
      = some ([.queued true, .queued true, .entry .indication 0, .queued true,
            .entry .notification 2],
          { impl := [.general 2 ⟨1, [8], 0⟩, .general 3 ⟨1, [0], 3⟩]
            outstanding_confirmation_index_ := size_t_all_ones }) := by
  decide

namespace details

end details
end link_layer
end bluetoe

namespace bluetoe
namespace link_layer
namespace details
namespace notification_queue_impl

/-! ## Round robin over pending notifications -/

theorem scan_order_eq_rotate (Size c : Nat) : scan_order Size c = (List.range Size).rotate c := by
  apply List.ext_getElem
  · simp [scan_order, List.length_rotate]
  · intro k h1 h2
    simp only [scan_order, List.getElem_map, List.getElem_range, List.getElem_rotate,
      List.length_range]
    rw [Nat.add_comm]

theorem scan_order_next {Size c : Nat} {pre post : List Nat} {p : Nat}
    (h : scan_order Size c = pre ++ p :: post) :
    scan_order Size ((p + 1) % Size) = post ++ (pre ++ [p]) := by
  have hlen : pre.length < (scan_order Size c).length := by
    rw [h]; simp
  have hp : p = (c + pre.length) % Size := by
    have h1 : (scan_order Size c)[pre.length]? = some p := by
      rw [h, List.getElem?_append_right (Nat.le_refl _)]
      simp
    rw [List.getElem?_eq_getElem hlen] at h1
    simp only [scan_order, List.getElem_map, List.getElem_range, Option.some.injEq] at h1
    exact h1.symm
  have hrot : (List.range Size).rotate ((p + 1) % Size)
      = (List.range Size).rotate (c + (pre.length + 1)) := by
    have h1 := List.rotate_mod (List.range Size) ((p + 1) % Size)
    have h2 := List.rotate_mod (List.range Size) (c + (pre.length + 1))
    rw [List.length_range] at h1 h2
    rw [← h2, hp, Nat.mod_add_mod, Nat.add_assoc]
  rw [scan_order_eq_rotate, hrot, ← List.rotate_rotate, ← scan_order_eq_rotate, h]
  have h3 : pre ++ p :: post = (pre ++ [p]) ++ post := by simp
  have h4 : pre.length + 1 = (pre ++ [p]).length := by simp
  rw [h3, h4, List.rotate_append_length_eq]

theorem clear_notification_keeps_indication (e : Nat) :
    (e &&& (3 ^^^ notification_bit)) &&& indication_bit = e &&& indication_bit := by
  apply Nat.eq_of_testBit_eq
  intro k
  have h1 : notification_bit = 1 := rfl
  have h2 : indication_bit = 2 := rfl
  have h3 : (3 ^^^ 1 : Nat) = 2 := by decide
  rw [h1, h2, h3]
  simp only [Nat.testBit_and]
  cases e.testBit k <;> cases Nat.testBit 2 k <;> rfl

end notification_queue_impl
end details
end link_layer
end bluetoe

namespace bluetoe
namespace link_layer
namespace details
namespace notification_queue_impl

theorem ready_eq_notification_ready {Size : Nat} {s : notification_queue_impl}
    (hind : ∀ slot, slot < Size → s.entry slot &&& indication_bit = 0) {slot : Nat}
    (h : slot < Size) : ready Size s slot = notification_ready s slot := by
  simp [ready, indication_ready, hind slot h]

theorem dequeue_pending_nil {Size : Nat} {s : notification_queue_impl}
    (hs : storage_ok Size s) (hc : s.next_ < Size)
    (hind : ∀ slot, slot < Size → s.entry slot &&& indication_bit = 0)
    (hp : pending_notifications Size s = []) :
    dequeue_indication_or_confirmation Size s = some ((.empty, 0), s) := by
  rw [dequeue_eq_scan hs hc]
  have h1 : (scan_order Size s.next_).find? (ready Size s) = none := by
    rw [List.find?_eq_none]
    intro x hx
    rw [ready_eq_notification_ready hind (mem_scan_order_lt hx)]
    unfold pending_notifications at hp
    rw [List.filter_eq_nil_iff] at hp
    exact hp x hx
  simp [dequeue_scan, h1]

theorem dequeue_pending_cons {Size : Nat} {s : notification_queue_impl}
    (hs : storage_ok Size s) (hc : s.next_ < Size)
    (hind : ∀ slot, slot < Size → s.entry slot &&& indication_bit = 0)
    {p : Nat} {rest : List Nat} (hp : pending_notifications Size s = p :: rest) :
    ∃ s1, dequeue_indication_or_confirmation Size s = some ((.notification, p), s1)
      ∧ storage_ok Size s1 ∧ s1.next_ < Size
      ∧ (∀ slot, slot < Size → s1.entry slot &&& indication_bit = 0)
      ∧ pending_notifications Size s1 = rest := by
  have hS : 0 < Size := by omega
  unfold pending_notifications at hp
  obtain ⟨pre, post, hsplit, hpre, hfp, hpost⟩ := List.filter_eq_cons_iff.mp hp
  have hmem : p ∈ scan_order Size s.next_ := by rw [hsplit]; simp
  have hplt : p < Size := mem_scan_order_lt hmem
  have hb := byte_offset_lt hs hplt
  have hnodup := scan_order_nodup Size s.next_
  rw [hsplit] at hnodup
  have hfind : (scan_order Size s.next_).find? (ready Size s) = some p := by
    rw [List.find?_eq_some]
    refine ⟨by rw [ready_eq_notification_ready hind hplt]; exact hfp, pre, post, hsplit, ?_⟩
    intro a ha
    have halt : a < Size := mem_scan_order_lt (by rw [hsplit]; simp [ha])
    rw [ready_eq_notification_ready hind halt]
    simpa using hpre a ha
  have hir : indication_ready Size s p = false := by
    simp [indication_ready, hind p hplt]
  refine ⟨remove_state { s with next_ := (p + 1) % Size } p notification_bit, ?_,
    storage_ok_remove_state (storage_ok_with Size s _ _ hs) _ _, Nat.mod_lt _ hS, ?_, ?_⟩
  · rw [dequeue_eq_scan hs hc]
    simp only [dequeue_scan, hfind]
    rw [dequeue_at_notification hir]
  · intro slot hslot
    by_cases hsp : slot = p
    · subst hsp
      rw [entry_remove_state_same { s with next_ := (slot + 1) % Size } slot notification_bit hb,
        clear_notification_keeps_indication]
      exact hind slot hslot
    · rw [entry_remove_state_other { s with next_ := (p + 1) % Size } p slot notification_bit
        (by decide) (Ne.symm hsp)]
      exact hind slot hslot
  · have hf1p : notification_ready
        (remove_state { s with next_ := (p + 1) % Size } p notification_bit) p = false := by
      simp only [notification_ready]
      rw [entry_remove_state_same { s with next_ := (p + 1) % Size } p notification_bit hb,
        and_clear_bit _ _ (by decide)]
      rfl
    have hf1 : ∀ x, x ≠ p → notification_ready
        (remove_state { s with next_ := (p + 1) % Size } p notification_bit) x
          = notification_ready s x := by
      intro x hx
      simp only [notification_ready]
      rw [entry_remove_state_other { s with next_ := (p + 1) % Size } p x notification_bit
        (by decide) (Ne.symm hx)]
      rfl
    have hnext : (remove_state { s with next_ := (p + 1) % Size } p notification_bit).next_
        = (p + 1) % Size := rfl
    unfold pending_notifications
    rw [hnext, scan_order_next hsplit, List.filter_append, List.filter_append]
    have hA : List.filter (notification_ready
        (remove_state { s with next_ := (p + 1) % Size } p notification_bit)) post
          = List.filter (notification_ready s) post := by
      apply List.filter_congr
      intro x hx
      apply hf1
      intro hxp
      subst hxp
      have := List.nodup_append.mp hnodup
      have h2 := (List.nodup_cons.mp this.2.1).1
      exact h2 hx
    have hB : List.filter (notification_ready
        (remove_state { s with next_ := (p + 1) % Size } p notification_bit)) pre = [] := by
      rw [List.filter_eq_nil_iff]
      intro x hx
      by_cases hxp : x = p
      · rw [hxp, hf1p]; simp
      · rw [hf1 x hxp]; exact hpre x hx
    have hC : List.filter (notification_ready
        (remove_state { s with next_ := (p + 1) % Size } p notification_bit)) [p] = [] := by
      simp [hf1p]
    rw [hA, hB, hC, hpost]
    simp

end notification_queue_impl

theorem tier.run_cons_of_step {t t1 t2 : tier} {o : operation} {os : List operation}
    {r : response} {rs : List response} (h1 : t.step o = some (r, t1))
    (h2 : t1.run os = some (rs, t2)) : t.run (o :: os) = some (r :: rs, t2) := by
  simp [tier.run, h1, h2]

theorem tier.run_pending_notifications (Size : Nat) :
    ∀ (l : List Nat) (s : notification_queue_impl),
      notification_queue_impl.storage_ok Size s → s.next_ < Size →
      (∀ slot, slot < Size → s.entry slot &&& indication_bit = 0) →
      notification_queue_impl.pending_notifications Size s = l →
      ∃ t1, (tier.general Size s).run
          (List.replicate (l.length + 1) .dequeue_indication_or_confirmation)
        = some (l.map (fun slot => response.entry .notification slot) ++ [.entry .empty 0],
            t1) := by
  intro l
  induction l with
  | nil =>
    intro s hs hc hind hp
    have h := notification_queue_impl.dequeue_pending_nil hs hc hind hp
    exact ⟨tier.general Size s, by
      simp [tier.run, tier.step, tier.dequeue_indication_or_confirmation, h]⟩
  | cons p rest ih =>
    intro s hs hc hind hp
    obtain ⟨s1, h1, hs1, hc1, hind1, hp1⟩ :=
      notification_queue_impl.dequeue_pending_cons hs hc hind hp
    obtain ⟨t1, ht1⟩ := ih s1 hs1 hc1 hind1 hp1
    refine ⟨t1, ?_⟩
    rw [List.length_cons, List.replicate_succ]
    have hstep : (tier.general Size s).step .dequeue_indication_or_confirmation
        = some (.entry .notification p, tier.general Size s1) := by
      simp [tier.step, tier.dequeue_indication_or_confirmation, h1]
    rw [tier.run_cons_of_step hstep ht1]
    simp

end details
end link_layer
end bluetoe

namespace bluetoe
namespace link_layer
namespace details

/-- C8: a general tier in a well-formed state with no indication bit set. Let the pending
slots be the slots with the notification bit set, listed in cyclic order from the cursor,
and `k` their number. Then `k + 1` dequeues in a row return a notification for each
pending slot in that order and then `(empty, 0)`. The list of pending slots has no
duplicates, follows the scan order, and holds exactly the slots below `Size` whose
notification bit is set. On a tier of four slots, `queue_notification( 0 )` and
`queue_notification( 2 )` give `(notification, 0)`, `(notification, 2)`, `(empty, 0)`. -/
theorem C8_pending_notifications_in_cyclic_order (Size : Nat) (s : notification_queue_impl)
    (hs : notification_queue_impl.storage_ok Size s) (hc : s.next_ < Size)
    (hind : ∀ slot, slot < Size → s.entry slot &&& indication_bit = 0) :
    (∃ t1, (tier.general Size s).run
        (List.replicate ((notification_queue_impl.pending_notifications Size s).length + 1)
          .dequeue_indication_or_confirmation)
      = some ((notification_queue_impl.pending_notifications Size s).map
            (fun slot => response.entry .notification slot) ++ [.entry .empty 0], t1))
    ∧ (notification_queue_impl.pending_notifications Size s).Nodup
    ∧ (notification_queue_impl.pending_notifications Size s).Sublist
        (notification_queue_impl.scan_order Size s.next_)
    ∧ (∀ slot, slot ∈ notification_queue_impl.pending_notifications Size s
        ↔ slot < Size ∧ s.entry slot &&& notification_bit ≠ 0)
    ∧ ((tier.construct 4).run
        [.queue_notification 0, .queue_notification 2, .dequeue_indication_or_confirmation,
          .dequeue_indication_or_confirmation, .dequeue_indication_or_confirmation]).map
          (fun p => p.1)
      = some [.queued true, .queued true, .entry .notification 0, .entry .notification 2,
          .entry .empty 0] := by
  refine ⟨tier.run_pending_notifications Size _ s hs hc hind rfl, ?_, ?_, ?_, by decide⟩
  · exact List.Nodup.filter _ (notification_queue_impl.scan_order_nodup Size _)
  · exact List.filter_sublist _
  · intro slot
    simp only [notification_queue_impl.pending_notifications, List.mem_filter,
      notification_queue_impl.notification_ready, bne_iff_ne, ne_eq]
    constructor
    · intro h
      exact ⟨notification_queue_impl.mem_scan_order_lt h.1, h.2⟩
    · intro h
      exact ⟨notification_queue_impl.mem_scan_order hc h.1, h.2⟩

/-- C8 on a tier of four slots with notifications queued for the slots 0 and 2 and the
cursor at slot 1. -/
theorem C8_pending_notifications_in_cyclic_order_witness :
    (∃ t1, (tier.general 4 ⟨1, [0x11], 4⟩).run
        (List.replicate 3 .dequeue_indication_or_confirmation)
      = some ([.entry .notification 2, .entry .notification 0, .entry .empty 0], t1))
    ∧ notification_queue_impl.pending_notifications 4 ⟨1, [0x11], 4⟩ = [2, 0] :=
  ⟨(C8_pending_notifications_in_cyclic_order 4 ⟨1, [0x11], 4⟩ (by decide) (by decide)
    (by decide)).1, by decide⟩

end details
end link_layer
end bluetoe

namespace bluetoe
namespace link_layer
namespace details

end details
end link_layer
end bluetoe

namespace bluetoe
namespace link_layer
namespace details

/-- C11, the code at the failing input: after `queue_indication( 0 )` the primary template
instantiated with `Size = 1` accepts `queue_notification( 0 )` and later dequeues the
notification, whereas the specialisation `notification_queue_impl< 1 >` answers false and
dequeues `(empty, 0)`. -/
theorem C11_specialisation_differs :
    ((tier.general 1 (notification_queue_impl.construct 1)).run
        [.queue_indication 0, .queue_notification 0, .dequeue_indication_or_confirmation,
          .dequeue_indication_or_confirmation]).map (fun p => p.1)
      = some [.queued true, .queued true, .entry .indication 0, .entry .notification 0]
    ∧ ((tier.single notification_queue_impl_1.construct).run
        [.queue_indication 0, .queue_notification 0, .dequeue_indication_or_confirmation,
          .dequeue_indication_or_confirmation]).map (fun p => p.1)
      = some [.queued true, .queued false, .entry .indication 0, .entry .empty 0] := by
  decide

/-- C17: the single-slot tier is the four-state machine of the specification. In each of
the four states, `queue_notification( 0 )`, `queue_indication( 0 )`, the dequeue and
`indication_confirmed` of `notification_queue_impl< 1 >` return what the specification
says and reach the state it names. The scenario of the specification runs as stated. -/
theorem C17_single_slot_state_machine :
    (∀ st : slot_state,
      notification_queue_impl_1.queue_notification st.encode 0
          = some (st.spec_queue_notification.1, st.spec_queue_notification.2.encode)
      ∧ notification_queue_impl_1.queue_indication st.encode 0
          = some (st.spec_queue_indication.1, st.spec_queue_indication.2.encode)
      ∧ notification_queue_impl_1.dequeue_indication_or_confirmation st.encode
          = some (st.spec_dequeue.1, st.spec_dequeue.2.encode)
      ∧ notification_queue_impl_1.indication_confirmed st.encode
          = st.spec_indication_confirmed.encode)
    ∧ notification_queue_impl_1.construct = slot_state.Empty.encode
    ∧ (∀ s : notification_queue_impl_1,
        notification_queue_impl_1.clear_indications_and_confirmations s
          = slot_state.Empty.encode)
    ∧ ((tier.construct 1).run
        [.queue_indication 0, .dequeue_indication_or_confirmation, .queue_indication 0,
          .indication_confirmed, .dequeue_indication_or_confirmation, .queue_notification 0,
          .dequeue_indication_or_confirmation]).map (fun p => p.1)
      = some [.queued true, .entry .indication 0, .queued false, .done, .entry .empty 0,
          .queued true, .entry .notification 0] := by
  refine ⟨?_, rfl, fun _ => rfl, by decide⟩
  intro st
  cases st <;> exact ⟨rfl, rfl, rfl, rfl⟩

end details
end link_layer
end bluetoe

namespace bluetoe
namespace link_layer
namespace details

/-! ## Fresh and cleared queues -/

theorem tier.inv_of_fits {Size : Nat} {t : tier} (h : t.fits Size) : t.inv ∧ t.Size = Size := by
  cases t with
  | general S impl =>
    obtain ⟨rfl, _, h3, h4⟩ := h
    exact ⟨⟨h3, h4⟩, rfl⟩
  | single impl =>
    obtain ⟨rfl, h2⟩ := h
    exact ⟨h2, rfl⟩

theorem notification_queue_impl_base.chain_inv_of_fits :
    ∀ (Sizes : List Nat) (c : notification_queue_impl_base),
      notification_queue_impl_base.fits Sizes c →
      notification_queue_impl_base.inv c ∧ notification_queue_impl_base.total c = Sizes.sum
  | [], [], _ => ⟨trivial, rfl⟩
  | [], _ :: _, h => by simp [notification_queue_impl_base.fits] at h
  | _ :: _, [], h => by simp [notification_queue_impl_base.fits] at h
  | Size :: Sizes, impl :: base, h => by
    obtain ⟨h1, h2⟩ := h
    obtain ⟨h3, h4⟩ := tier.inv_of_fits h1
    obtain ⟨h5, h6⟩ := notification_queue_impl_base.chain_inv_of_fits Sizes base h2
    exact ⟨⟨h3, h5⟩, by simp [notification_queue_impl_base.total, h4, h6]⟩

theorem tier.fits_construct {Size : Nat} (h : 0 < Size) : (tier.construct Size).fits Size := by
  unfold tier.construct
  split
  · rename_i h1
    exact ⟨h1, by decide⟩
  · rename_i h1
    exact ⟨rfl, h1, notification_queue_impl.storage_ok_construct Size, h⟩

theorem tier.clear_eq_construct {Size : Nat} {t : tier} (h : t.fits Size) :
    t.clear_indications_and_confirmations = tier.construct Size := by
  cases t with
  | general S impl =>
    obtain ⟨rfl, h2, h3, _⟩ := h
    simp only [tier.clear_indications_and_confirmations, tier.construct, if_neg h2,
      notification_queue_impl.clear_indications_and_confirmations,
      notification_queue_impl.construct, List.map_replicate, tier.general.injEq, true_and,
      notification_queue_impl.mk.injEq, and_true]
    rw [← h3.1]
    exact List.map_const' _ _
  | single impl =>
    obtain ⟨rfl, _⟩ := h
    rfl

theorem notification_queue_impl_base.chain_clear_eq_construct :
    ∀ (Sizes : List Nat) (c : notification_queue_impl_base),
      notification_queue_impl_base.fits Sizes c →
      notification_queue_impl_base.clear_indications_and_confirmations c
        = notification_queue_impl_base.construct Sizes
  | [], [], _ => rfl
  | [], _ :: _, h => by simp [notification_queue_impl_base.fits] at h
  | _ :: _, [], h => by simp [notification_queue_impl_base.fits] at h
  | Size :: Sizes, impl :: base, h => by
    obtain ⟨h1, h2⟩ := h
    simp only [notification_queue_impl_base.clear_indications_and_confirmations,
      notification_queue_impl_base.construct, List.map_cons]
    rw [tier.clear_eq_construct h1]
    have := notification_queue_impl_base.chain_clear_eq_construct Sizes base h2
    simp only [notification_queue_impl_base.construct] at this
    rw [this]

theorem notification_queue_impl_base.chain_fits_construct :
    ∀ (Sizes : List Nat), (∀ S ∈ Sizes, 0 < S) →
      notification_queue_impl_base.fits Sizes (notification_queue_impl_base.construct Sizes)
  | [], _ => trivial
  | Size :: Sizes, h => by
    exact ⟨tier.fits_construct (h Size (List.mem_cons_self _ _)),
      notification_queue_impl_base.chain_fits_construct Sizes
        (fun S hS => h S (List.mem_cons_of_mem _ hS))⟩

end details
end link_layer
end bluetoe

namespace bluetoe
namespace link_layer
namespace details

theorem notification_queue_impl.entry_construct (Size slot : Nat) :
    (notification_queue_impl.construct Size).entry slot = 0 := by
  have h : ∀ (l : List Nat) (i : Nat), (∀ b ∈ l, b = 0) → l.getD i 0 = 0 := by
    intro l i hl
    rw [List.getD_eq_getElem?_getD]
    cases hget : l[i]? with
    | none => rfl
    | some b =>
      have := List.getElem?_mem hget
      simp [hl b this]
  have h2 := h (notification_queue_impl.construct Size).queue_
    (notification_queue_impl.byte_offset slot) (by
      intro b hb
      simp only [notification_queue_impl.construct,
        notification_queue_impl.clear_indications_and_confirmations, List.mem_map] at hb
      obtain ⟨_, _, rfl⟩ := hb
      rfl)
  unfold notification_queue_impl.entry
  rw [h2]
  simp

theorem notification_queue_impl.dequeue_only_slot {Size : Nat} {s : notification_queue_impl}
    (hs : notification_queue_impl.storage_ok Size s) (hc : s.next_ < Size)
    (hoc : s.outstanding_confirmation_ = Size) {g : Nat} (hg : g < Size)
    (hother : ∀ slot, slot ≠ g → s.entry slot = 0) :
    (s.entry g = notification_bit →
      ∃ s1, notification_queue_impl.dequeue_indication_or_confirmation Size s
        = some ((.notification, g), s1))
    ∧ (s.entry g = indication_bit →
      ∃ s1, notification_queue_impl.dequeue_indication_or_confirmation Size s
        = some ((.indication, g), s1))
    ∧ (s.entry g = 0 →
      notification_queue_impl.dequeue_indication_or_confirmation Size s
        = some ((.empty, 0), s)) := by
  obtain ⟨r, s1, heq, _, _, hcase⟩ := notification_queue_impl.dequeue_spec hs hc
  have hslot : ∀ slot, notification_queue_impl.ready Size s slot = true → slot = g := by
    intro slot hr
    by_contra hne
    simp [notification_queue_impl.ready, notification_queue_impl.indication_ready,
      notification_queue_impl.notification_ready, hother slot hne] at hr
  refine ⟨?_, ?_, ?_⟩
  · intro he
    rcases hcase with ⟨_, _, hall⟩ | ⟨slot, hlt, rfl, hready, _⟩ | ⟨slot, _, rfl, _, hready, _⟩
    · have := hall g hg
      simp [notification_queue_impl.ready, notification_queue_impl.notification_ready, he,
        notification_bit] at this
    · have : slot = g := hslot slot (by simp [notification_queue_impl.ready, hready])
      subst this
      simp [notification_queue_impl.indication_ready, he, notification_bit, indication_bit]
        at hready
    · have : slot = g := hslot slot (by simp [notification_queue_impl.ready, hready])
      subst this
      exact ⟨s1, heq⟩
  · intro he
    rcases hcase with ⟨_, _, hall⟩ | ⟨slot, hlt, rfl, hready, _⟩ | ⟨slot, _, rfl, _, hready, _⟩
    · have := hall g hg
      simp [notification_queue_impl.ready, notification_queue_impl.indication_ready, he,
        indication_bit, hoc] at this
    · have : slot = g := hslot slot (by simp [notification_queue_impl.ready, hready])
      subst this
      exact ⟨s1, heq⟩
    · have : slot = g := hslot slot (by simp [notification_queue_impl.ready, hready])
      subst this
      simp [notification_queue_impl.notification_ready, he, notification_bit, indication_bit]
        at hready
  · intro he
    rcases hcase with ⟨rfl, rfl, _⟩ | ⟨slot, hlt, rfl, hready, _⟩ | ⟨slot, _, rfl, _, hready, _⟩
    · exact heq
    · have : slot = g := hslot slot (by simp [notification_queue_impl.ready, hready])
      subst this
      simp [notification_queue_impl.indication_ready, he] at hready
    · have : slot = g := hslot slot (by simp [notification_queue_impl.ready, hready])
      subst this
      simp [notification_queue_impl.notification_ready, he] at hready

theorem tier.dequeue_construct {Size : Nat} (h : 0 < Size) :
    (tier.construct Size).dequeue_indication_or_confirmation
      = some ((.empty, 0), tier.construct Size) := by
  unfold tier.construct
  split
  · rfl
  · have h1 := (notification_queue_impl.dequeue_only_slot
      (notification_queue_impl.storage_ok_construct Size) (g := 0) h rfl h
      (fun slot _ => notification_queue_impl.entry_construct Size slot)).2.2
      (notification_queue_impl.entry_construct Size 0)
    simp [tier.dequeue_indication_or_confirmation, h1]

theorem tier.round_trip_notification {Size g : Nat} (hg : g < Size) :
    ∃ t1 t2, (tier.construct Size).queue_notification g = some (true, t1)
      ∧ t1.dequeue_indication_or_confirmation = some ((.notification, g), t2) := by
  unfold tier.construct
  split
  · rename_i h1
    subst h1
    have : g = 0 := by omega
    subst this
    exact ⟨_, _, rfl, rfl⟩
  · have hs := notification_queue_impl.storage_ok_construct Size
    have hb := notification_queue_impl.byte_offset_lt hs hg
    have hs1 := notification_queue_impl.storage_ok_add_state hs g notification_bit
    have he : ((notification_queue_impl.construct Size).add_state g notification_bit).entry g
        = notification_bit := by
      rw [notification_queue_impl.entry_add_state_same _ _ _ hb (by decide),
        notification_queue_impl.entry_construct]
      rfl
    obtain ⟨s2, hd⟩ := (notification_queue_impl.dequeue_only_slot hs1
      (show ((notification_queue_impl.construct Size).add_state g notification_bit).next_
        < Size from (by omega : 0 < Size)) rfl hg (fun slot hne => by
        rw [notification_queue_impl.entry_add_state_other _ _ _ _ (by decide) (Ne.symm hne),
          notification_queue_impl.entry_construct])).1 he
    refine ⟨.general Size ((notification_queue_impl.construct Size).add_state g
      notification_bit), .general Size s2, ?_, ?_⟩
    · simp [tier.queue_notification, notification_queue_impl.queue_notification_eq hs hg,
        notification_queue_impl.entry_construct]
    · simp [tier.dequeue_indication_or_confirmation, hd]

theorem tier.round_trip_indication {Size g : Nat} (hg : g < Size) :
    ∃ t1 t2, (tier.construct Size).queue_indication g = some (true, t1)
      ∧ t1.dequeue_indication_or_confirmation = some ((.indication, g), t2) := by
  unfold tier.construct
  split
  · rename_i h1
    subst h1
    have : g = 0 := by omega
    subst this
    exact ⟨_, _, rfl, rfl⟩
  · have hs := notification_queue_impl.storage_ok_construct Size
    have hb := notification_queue_impl.byte_offset_lt hs hg
    have hs1 := notification_queue_impl.storage_ok_add_state hs g indication_bit
    have he : ((notification_queue_impl.construct Size).add_state g indication_bit).entry g
        = indication_bit := by
      rw [notification_queue_impl.entry_add_state_same _ _ _ hb (by decide),
        notification_queue_impl.entry_construct]
      rfl
    obtain ⟨s2, hd⟩ := (notification_queue_impl.dequeue_only_slot hs1
      (show ((notification_queue_impl.construct Size).add_state g indication_bit).next_
        < Size from (by omega : 0 < Size)) rfl hg (fun slot hne => by
        rw [notification_queue_impl.entry_add_state_other _ _ _ _ (by decide) (Ne.symm hne),
          notification_queue_impl.entry_construct])).2.1 he
    have hoc : (notification_queue_impl.construct Size).outstanding_confirmation_ ≠ g := by
      show Size ≠ g
      omega
    refine ⟨.general Size ((notification_queue_impl.construct Size).add_state g
      indication_bit), .general Size s2, ?_, ?_⟩
    · simp [tier.queue_indication, notification_queue_impl.queue_indication_eq hs hg, hoc,
        notification_queue_impl.entry_construct]
    · simp [tier.dequeue_indication_or_confirmation, hd]

end details
end link_layer
end bluetoe

namespace bluetoe
namespace link_layer
namespace details

/-! ## Fresh chains -/

theorem notification_queue_impl_base.chain_dequeue_construct :
    ∀ (Sizes : List Nat), (∀ S ∈ Sizes, 0 < S) →
      notification_queue_impl_base.dequeue_indication_or_confirmation
          (notification_queue_impl_base.construct Sizes)
        = some ((.empty, 0), notification_queue_impl_base.construct Sizes)
  | [], _ => rfl
  | Size :: Sizes, h => by
    have h1 := tier.dequeue_construct (h Size (List.mem_cons_self _ _))
    have h2 := notification_queue_impl_base.chain_dequeue_construct Sizes
      (fun S hS => h S (List.mem_cons_of_mem _ hS))
    simp only [notification_queue_impl_base.construct, List.map_cons] at h2 ⊢
    simp [notification_queue_impl_base.dequeue_indication_or_confirmation, h1, h2]

theorem notification_queue_impl_base.chain_round_trip_notification :
    ∀ (Sizes : List Nat) (g : Nat), (∀ S ∈ Sizes, 0 < S) → g < Sizes.sum →
      ∃ c1 c2, notification_queue_impl_base.queue_notification
            (notification_queue_impl_base.construct Sizes) g = some (true, c1)
        ∧ notification_queue_impl_base.dequeue_indication_or_confirmation c1
            = some ((.notification, g), c2)
  | [], g, _, hg => by simp at hg
  | Size :: Sizes, g, h, hg => by
    have hS := h Size (List.mem_cons_self _ _)
    by_cases hlt : g < Size
    · obtain ⟨t1, t2, h1, h2⟩ := tier.round_trip_notification hlt
      refine ⟨t1 :: notification_queue_impl_base.construct Sizes,
        t2 :: notification_queue_impl_base.construct Sizes, ?_, ?_⟩
      · simp [notification_queue_impl_base.construct,
          notification_queue_impl_base.queue_notification, tier.Size_construct, hlt, h1]
      · simp [notification_queue_impl_base.dequeue_indication_or_confirmation, h2]
    · have hg' : g - Size < Sizes.sum := by simp only [List.sum_cons] at hg; omega
      obtain ⟨c1, c2, h1, h2⟩ := notification_queue_impl_base.chain_round_trip_notification Sizes
        (g - Size) (fun S hS => h S (List.mem_cons_of_mem _ hS)) hg'
      refine ⟨tier.construct Size :: c1, tier.construct Size :: c2, ?_, ?_⟩
      · simp [notification_queue_impl_base.construct,
          notification_queue_impl_base.queue_notification, tier.Size_construct, hlt] at h1 ⊢
        exact h1
      · have h3 : g - Size + Size = g := by omega
        simp [notification_queue_impl_base.dequeue_indication_or_confirmation,
          tier.dequeue_construct hS, h2, tier.Size_construct, h3]

theorem notification_queue_impl_base.chain_round_trip_indication :
    ∀ (Sizes : List Nat) (g : Nat), (∀ S ∈ Sizes, 0 < S) → g < Sizes.sum →
      ∃ c1 c2, notification_queue_impl_base.queue_indication
            (notification_queue_impl_base.construct Sizes) g = some (true, c1)
        ∧ notification_queue_impl_base.dequeue_indication_or_confirmation c1
            = some ((.indication, g), c2)
  | [], g, _, hg => by simp at hg
  | Size :: Sizes, g, h, hg => by
    have hS := h Size (List.mem_cons_self _ _)
    by_cases hlt : g < Size
    · obtain ⟨t1, t2, h1, h2⟩ := tier.round_trip_indication hlt
      refine ⟨t1 :: notification_queue_impl_base.construct Sizes,
        t2 :: notification_queue_impl_base.construct Sizes, ?_, ?_⟩
      · simp [notification_queue_impl_base.construct,
          notification_queue_impl_base.queue_indication, tier.Size_construct, hlt, h1]
      · simp [notification_queue_impl_base.dequeue_indication_or_confirmation, h2]
    · have hg' : g - Size < Sizes.sum := by simp only [List.sum_cons] at hg; omega
      obtain ⟨c1, c2, h1, h2⟩ := notification_queue_impl_base.chain_round_trip_indication Sizes
        (g - Size) (fun S hS => h S (List.mem_cons_of_mem _ hS)) hg'
      refine ⟨tier.construct Size :: c1, tier.construct Size :: c2, ?_, ?_⟩
      · simp [notification_queue_impl_base.construct,
          notification_queue_impl_base.queue_indication, tier.Size_construct, hlt] at h1 ⊢
        exact h1
      · have h3 : g - Size + Size = g := by omega
        simp [notification_queue_impl_base.dequeue_indication_or_confirmation,
          tier.dequeue_construct hS, h2, tier.Size_construct, h3]

end details

theorem notification_queue.queue_clear_eq_construct {Sizes : List Nat} {q : notification_queue}
    (hq : q.fits Sizes) :
    q.clear_indications_and_confirmations = notification_queue.construct Sizes := by
  simp [notification_queue.clear_indications_and_confirmations, notification_queue.construct,
    details.notification_queue_impl_base.chain_clear_eq_construct Sizes q.impl hq]

theorem notification_queue.round_trip_construct (Sizes : List Nat) (g : Nat)
    (hSizes : ∀ S ∈ Sizes, 0 < S) (hg : g < Sizes.sum) :
    (∃ q1 q2, (notification_queue.construct Sizes).queue_notification g = some (true, q1)
        ∧ q1.dequeue_indication_or_confirmation = some ((.notification, g), q2))
    ∧ (∃ q1 q2, (notification_queue.construct Sizes).queue_indication g = some (true, q1)
        ∧ q1.dequeue_indication_or_confirmation = some ((.indication, g), q2)) := by
  obtain ⟨c1, c2, h1, h2⟩ :=
    details.notification_queue_impl_base.chain_round_trip_notification Sizes g hSizes hg
  obtain ⟨d1, d2, h3, h4⟩ :=
    details.notification_queue_impl_base.chain_round_trip_indication Sizes g hSizes hg
  refine ⟨⟨⟨c1, size_t_all_ones⟩, ⟨c2, size_t_all_ones⟩, ?_, ?_⟩,
    ⟨⟨d1, size_t_all_ones⟩, ⟨d2, size_t_all_ones⟩, ?_, ?_⟩⟩
  · simp [notification_queue.queue_notification, notification_queue.construct, h1]
  · simp [notification_queue.dequeue_indication_or_confirmation, h2]
  · simp [notification_queue.queue_indication, notification_queue.construct, h3]
  · simp [notification_queue.dequeue_indication_or_confirmation, h4]

end link_layer
end bluetoe

namespace bluetoe
namespace link_layer

/-- C12: for every list of tier sizes, each at least 1, and every global index `g` below
their sum, on the freshly constructed queue and on a queue that was just cleared,
`queue_notification( g )` returns true and the dequeue that follows returns
`(notification, g)`, and `queue_indication( g )` returns true and the dequeue that follows
returns `(indication, g)`. -/
theorem C12_index_round_trip (Sizes : List Nat) (g : Nat) (q : notification_queue)
    (hSizes : ∀ S ∈ Sizes, 0 < S) (hg : g < Sizes.sum) (hq : q.fits Sizes) :
    ((∃ q1 q2, (notification_queue.construct Sizes).queue_notification g = some (true, q1)
        ∧ q1.dequeue_indication_or_confirmation = some ((.notification, g), q2))
      ∧ (∃ q1 q2, (notification_queue.construct Sizes).queue_indication g = some (true, q1)
        ∧ q1.dequeue_indication_or_confirmation = some ((.indication, g), q2)))
    ∧ ((∃ q1 q2, q.clear_indications_and_confirmations.queue_notification g = some (true, q1)
        ∧ q1.dequeue_indication_or_confirmation = some ((.notification, g), q2))
      ∧ (∃ q1 q2, q.clear_indications_and_confirmations.queue_indication g = some (true, q1)
        ∧ q1.dequeue_indication_or_confirmation = some ((.indication, g), q2))) := by
  rw [notification_queue.queue_clear_eq_construct hq]
  exact ⟨notification_queue.round_trip_construct Sizes g hSizes hg,
    notification_queue.round_trip_construct Sizes g hSizes hg⟩

/-- C12 for tiers of sizes 2, 1 and 5, global index 7 (slot 4 of the third tier, in the
second byte of its array), and a queue with entries pending in every tier. -/
theorem C12_index_round_trip_witness :
    ((∃ q1 q2, (notification_queue.construct [2, 1, 5]).queue_notification 7 = some (true, q1)
        ∧ q1.dequeue_indication_or_confirmation = some ((.notification, 7), q2))
      ∧ (∃ q1 q2, (notification_queue.construct [2, 1, 5]).queue_indication 7 = some (true, q1)
        ∧ q1.dequeue_indication_or_confirmation = some ((.indication, 7), q2)))
    ∧ ((∃ q1 q2, (notification_queue.mk [.general 2 ⟨1, [9], 0⟩, .single ⟨3⟩,
            .general 5 ⟨4, [0x41, 0x03], 2⟩] size_t_all_ones
          ).clear_indications_and_confirmations.queue_notification 7 = some (true, q1)
        ∧ q1.dequeue_indication_or_confirmation = some ((.notification, 7), q2))
      ∧ (∃ q1 q2, (notification_queue.mk [.general 2 ⟨1, [9], 0⟩, .single ⟨3⟩,
            .general 5 ⟨4, [0x41, 0x03], 2⟩] size_t_all_ones
          ).clear_indications_and_confirmations.queue_indication 7 = some (true, q1)
        ∧ q1.dequeue_indication_or_confirmation = some ((.indication, 7), q2))) :=
  C12_index_round_trip [2, 1, 5] 7
    (notification_queue.mk [.general 2 ⟨1, [9], 0⟩, .single ⟨3⟩,
      .general 5 ⟨4, [0x41, 0x03], 2⟩] size_t_all_ones)
    (by decide) (by decide) (by decide)

/-- C13: for every list of tier sizes, each at least 1, the empty list included, the
dequeue on the freshly constructed queue returns `(empty, 0)`, and so does the dequeue
right after `clear_indications_and_confirmations` from every well-formed state. -/
theorem C13_fresh_queue_is_empty (Sizes : List Nat) (q : notification_queue)
    (hSizes : ∀ S ∈ Sizes, 0 < S) (hq : q.fits Sizes) :
    (notification_queue.construct Sizes).dequeue_indication_or_confirmation
        = some ((.empty, 0), notification_queue.construct Sizes)
    ∧ q.clear_indications_and_confirmations.dequeue_indication_or_confirmation
        = some ((.empty, 0), q.clear_indications_and_confirmations)
    ∧ (notification_queue.construct []).dequeue_indication_or_confirmation
        = some ((.empty, 0), notification_queue.construct []) := by
  have h : (notification_queue.construct Sizes).dequeue_indication_or_confirmation
      = some ((.empty, 0), notification_queue.construct Sizes) := by
    simp [notification_queue.dequeue_indication_or_confirmation, notification_queue.construct,
      details.notification_queue_impl_base.chain_dequeue_construct Sizes hSizes]
  refine ⟨h, ?_, rfl⟩
  rw [notification_queue.queue_clear_eq_construct hq]
  exact h

/-- C13 for tiers of sizes 3 and 1 and a queue in which both tiers await confirmation and
have entries pending. -/
theorem C13_fresh_queue_is_empty_witness :
    (notification_queue.construct [3, 1]).dequeue_indication_or_confirmation
        = some ((.empty, 0), notification_queue.construct [3, 1])
    ∧ (notification_queue.mk [.general 3 ⟨2, [0x36], 0⟩, .single ⟨3⟩] size_t_all_ones
        ).clear_indications_and_confirmations.dequeue_indication_or_confirmation
        = some ((.empty, 0),
          (notification_queue.mk [.general 3 ⟨2, [0x36], 0⟩, .single ⟨3⟩] size_t_all_ones
            ).clear_indications_and_confirmations)
    ∧ (notification_queue.construct []).dequeue_indication_or_confirmation
        = some ((.empty, 0), notification_queue.construct []) :=
  C13_fresh_queue_is_empty [3, 1]
    (notification_queue.mk [.general 3 ⟨2, [0x36], 0⟩, .single ⟨3⟩] size_t_all_ones)
    (by decide) (by decide)

namespace details

theorem tier.construct_is_fresh (Size : Nat) :
    (tier.construct Size).cursor = 0 ∧ (tier.construct Size).awaiting_confirmation = false
      ∧ ∀ i, (tier.construct Size).notification_pending i = false
        ∧ (tier.construct Size).indication_pending i = false := by
  unfold tier.construct
  split
  · exact ⟨rfl, rfl, fun _ => ⟨rfl, rfl⟩⟩
  · refine ⟨rfl, ?_, fun i => ⟨?_, ?_⟩⟩
    · simp [tier.awaiting_confirmation, notification_queue_impl.construct,
        notification_queue_impl.clear_indications_and_confirmations]
    · simp [tier.notification_pending, notification_queue_impl.entry_construct]
    · simp [tier.indication_pending, notification_queue_impl.entry_construct]

end details

/-- C14: for every list of tier sizes, each at least 1, and every well-formed state of the
queue, `clear_indications_and_confirmations` yields exactly the freshly constructed
state: in every tier the cursor is 0, no slot awaits confirmation and no slot has a
notification or an indication pending; afterwards `queue_notification( i )` and
`queue_indication( i )` return true for every index below the number of slots. -/
theorem C14_clear_yields_fresh_state (Sizes : List Nat) (q : notification_queue)
    (hSizes : ∀ S ∈ Sizes, 0 < S) (hq : q.fits Sizes) :
    q.clear_indications_and_confirmations = notification_queue.construct Sizes
    ∧ (∀ t ∈ q.clear_indications_and_confirmations.impl,
        t.cursor = 0 ∧ t.awaiting_confirmation = false
          ∧ ∀ i, t.notification_pending i = false ∧ t.indication_pending i = false)
    ∧ (∀ i, i < Sizes.sum →
        (∃ q1, q.clear_indications_and_confirmations.queue_notification i = some (true, q1))
        ∧ (∃ q1, q.clear_indications_and_confirmations.queue_indication i
            = some (true, q1))) := by
  rw [notification_queue.queue_clear_eq_construct hq]
  refine ⟨rfl, ?_, ?_⟩
  · intro t ht
    simp only [notification_queue.construct, details.notification_queue_impl_base.construct,
      List.mem_map] at ht
    obtain ⟨S, _, rfl⟩ := ht
    exact details.tier.construct_is_fresh S
  · intro i hi
    obtain ⟨⟨q1, _, h1, _⟩, ⟨q2, _, h2, _⟩⟩ :=
      notification_queue.round_trip_construct Sizes i hSizes hi
    exact ⟨⟨q1, h1⟩, ⟨q2, h2⟩⟩

/-- C14 for tiers of sizes 1 and 5 and a queue in which both tiers await confirmation, the
second one with its cursor at slot 3 and entries pending in both bytes. -/
theorem C14_clear_yields_fresh_state_witness :
    (notification_queue.mk [.single ⟨3⟩, .general 5 ⟨3, [0xC6, 0x02], 1⟩] 7
        ).clear_indications_and_confirmations = notification_queue.construct [1, 5]
    ∧ (∀ t ∈ (notification_queue.mk [.single ⟨3⟩, .general 5 ⟨3, [0xC6, 0x02], 1⟩] 7
          ).clear_indications_and_confirmations.impl,
        t.cursor = 0 ∧ t.awaiting_confirmation = false
          ∧ ∀ i, t.notification_pending i = false ∧ t.indication_pending i = false)
    ∧ (∀ i, i < [1, 5].sum →
        (∃ q1, (notification_queue.mk [.single ⟨3⟩, .general 5 ⟨3, [0xC6, 0x02], 1⟩] 7
            ).clear_indications_and_confirmations.queue_notification i = some (true, q1))
        ∧ (∃ q1, (notification_queue.mk [.single ⟨3⟩, .general 5 ⟨3, [0xC6, 0x02], 1⟩] 7
            ).clear_indications_and_confirmations.queue_indication i = some (true, q1))) :=
  C14_clear_yields_fresh_state [1, 5]
    (notification_queue.mk [.single ⟨3⟩, .general 5 ⟨3, [0xC6, 0x02], 1⟩] 7)
    (by decide) (by decide)

end link_layer
end bluetoe

namespace bluetoe
namespace link_layer
namespace details

theorem find?_congr_mem {p q : Nat → Bool} :
    ∀ (l : List Nat), (∀ x ∈ l, p x = q x) → l.find? p = l.find? q
  | [], _ => rfl
  | a :: l, h => by
    have h1 := h a (List.mem_cons_self _ _)
    have h2 := find?_congr_mem l (fun x hx => h x (List.mem_cons_of_mem _ hx))
    simp [List.find?_cons, h1, h2]

/-- C15: a general tier in a well-formed state whose confirmation gate is closed, with an
indication pending in some slot and no notification pending in any slot. The dequeue
returns `(empty, 0)` and changes nothing; after `indication_confirmed` the dequeue returns
`(indication, j)` for the first slot `j`, in cyclic order from the cursor, whose indication
bit is set. On a tier of two slots: `queue_indication( 0 )`, `queue_indication( 1 )`,
dequeue `(indication, 0)`, dequeue `(empty, 0)`, `indication_confirmed`, dequeue
`(indication, 1)`. -/
theorem C15_blocked_indication_after_confirmation (Size : Nat) (s : notification_queue_impl)
    (hs : notification_queue_impl.storage_ok Size s) (hc : s.next_ < Size)
    (hclosed : s.outstanding_confirmation_ ≠ Size)
    (hind : ∃ slot, slot < Size ∧ s.entry slot &&& indication_bit ≠ 0)
    (hnot : ∀ slot, slot < Size → s.entry slot &&& notification_bit = 0) :
    notification_queue_impl.dequeue_indication_or_confirmation Size s = some ((.empty, 0), s)
    ∧ (∃ j s1,
        (notification_queue_impl.scan_order Size s.next_).find?
            (fun slot => s.entry slot &&& indication_bit != 0) = some j
        ∧ notification_queue_impl.dequeue_indication_or_confirmation Size
            (notification_queue_impl.indication_confirmed Size s) = some ((.indication, j), s1))
    ∧ ((tier.construct 2).run
        [.queue_indication 0, .queue_indication 1, .dequeue_indication_or_confirmation,
          .dequeue_indication_or_confirmation, .indication_confirmed,
          .dequeue_indication_or_confirmation]).map (fun p => p.1)
      = some [.queued true, .queued true, .entry .indication 0, .entry .empty 0, .done,
          .entry .indication 1] := by
  refine ⟨?_, ?_, by decide⟩
  · obtain ⟨r, s1, heq, _, _, hcase⟩ := notification_queue_impl.dequeue_spec hs hc
    rcases hcase with ⟨rfl, rfl, _⟩ | ⟨slot, _, _, hready, _⟩ | ⟨slot, hlt, _, _, hready, _⟩
    · exact heq
    · rw [notification_queue_impl.indication_ready_false_of_closed hclosed] at hready
      cases hready
    · simp [notification_queue_impl.notification_ready, hnot slot hlt] at hready
  · have hconf : notification_queue_impl.indication_confirmed Size s
        = { s with outstanding_confirmation_ := Size } := by
      unfold notification_queue_impl.indication_confirmed
      rw [if_pos hclosed]
    rw [hconf]
    have hs1 : notification_queue_impl.storage_ok Size
        { s with outstanding_confirmation_ := Size } := hs
    have hc1 : ({ s with outstanding_confirmation_ := Size } : notification_queue_impl).next_
        < Size := hc
    rw [notification_queue_impl.dequeue_eq_scan hs1 hc1]
    have hfind : (notification_queue_impl.scan_order Size s.next_).find?
        (notification_queue_impl.ready Size { s with outstanding_confirmation_ := Size })
        = (notification_queue_impl.scan_order Size s.next_).find?
            (fun slot => s.entry slot &&& indication_bit != 0) := by
      apply find?_congr_mem
      intro x hx
      have hxlt := notification_queue_impl.mem_scan_order_lt hx
      have hn := hnot x hxlt
      have he : notification_queue_impl.entry
          ({ s with outstanding_confirmation_ := Size } : notification_queue_impl) x
          = s.entry x := rfl
      simp [notification_queue_impl.ready, notification_queue_impl.indication_ready,
        notification_queue_impl.notification_ready, he, hn]
    obtain ⟨slot, hlt, hbit⟩ := hind
    cases hj : (notification_queue_impl.scan_order Size s.next_).find?
        (fun slot => s.entry slot &&& indication_bit != 0) with
    | none =>
      rw [List.find?_eq_none] at hj
      have := hj slot (notification_queue_impl.mem_scan_order hc hlt)
      simp [hbit] at this
    | some j =>
      have hjbit := List.find?_some hj
      have hready : notification_queue_impl.indication_ready Size
          { s with outstanding_confirmation_ := Size } j = true := by
        have he : notification_queue_impl.entry
            ({ s with outstanding_confirmation_ := Size } : notification_queue_impl) j
            = s.entry j := rfl
        simp only [notification_queue_impl.indication_ready, he, Bool.and_eq_true,
          beq_iff_eq, and_true]
        exact hjbit
      have hscan : notification_queue_impl.dequeue_scan Size
          { s with outstanding_confirmation_ := Size }
          (notification_queue_impl.scan_order Size s.next_)
          = ((.indication, j), notification_queue_impl.remove_state
              { s with outstanding_confirmation_ := j, next_ := (j + 1) % Size }
              j indication_bit) := by
        unfold notification_queue_impl.dequeue_scan
        rw [hfind, hj]
        dsimp only
        rw [notification_queue_impl.dequeue_at_indication hready]
      exact ⟨j, _, rfl, congrArg some hscan⟩

/-- C15 on a tier of four slots: slot 2 awaits confirmation, the slots 0 and 3 have an
indication pending and the cursor is at slot 3. -/
theorem C15_blocked_indication_after_confirmation_witness :
    notification_queue_impl.dequeue_indication_or_confirmation 4 ⟨3, [0x82], 2⟩
        = some ((.empty, 0), ⟨3, [0x82], 2⟩)
    ∧ (∃ j s1,
        (notification_queue_impl.scan_order 4 3).find?
            (fun slot => notification_queue_impl.entry ⟨3, [0x82], 2⟩ slot
              &&& indication_bit != 0) = some j
        ∧ notification_queue_impl.dequeue_indication_or_confirmation 4
            (notification_queue_impl.indication_confirmed 4 ⟨3, [0x82], 2⟩)
              = some ((.indication, j), s1)) :=
  ⟨(C15_blocked_indication_after_confirmation 4 ⟨3, [0x82], 2⟩ (by decide) (by decide)
      (by decide) (by decide) (by decide)).1,
    (C15_blocked_indication_after_confirmation 4 ⟨3, [0x82], 2⟩ (by decide) (by decide)
      (by decide) (by decide) (by decide)).2.1⟩

end details
end link_layer
end bluetoe

namespace bluetoe
namespace link_layer
namespace details

theorem notification_queue_impl.at_remove_state_other (s : notification_queue_impl)
    (i j bits : Nat) (hb : bits < 4) (hij : j ≠ i) :
    (s.remove_state i bits).at_ j = s.at_ j := by
  rw [notification_queue_impl.at_eq_ite, notification_queue_impl.at_eq_ite,
    notification_queue_impl.entry_remove_state_other s i j bits hb (Ne.symm hij)]
  simp [notification_queue_impl.remove_state]

theorem notification_queue_impl.at_remove_state_same (s : notification_queue_impl)
    (i bits : Nat) (h : notification_queue_impl.byte_offset i < s.queue_.length) :
    (s.remove_state i bits).at_ i = some (s.entry i &&& (3 ^^^ bits)) := by
  rw [notification_queue_impl.at_eq_some (by simpa [notification_queue_impl.remove_state] using h),
    notification_queue_impl.entry_remove_state_same s i bits h]

/-- C20: what a dequeue of the general tier changes in the entries. When it returns
`(indication, slot)`, the indication bit of the slot was set, the entry of the slot keeps
only its notification bit as it was, the marker names the slot, and the entry of every
other slot is as before. When it returns `(notification, slot)`, the notification bit of
the slot was set, the entry of the slot keeps only its indication bit as it was, the entry
of every other slot is as before, and the marker is as before. -/
theorem C20_dequeue_clears_one_bit (Size : Nat) (s : notification_queue_impl)
    (hs : notification_queue_impl.storage_ok Size s) (hc : s.next_ < Size) :
    ∃ r s1, notification_queue_impl.dequeue_indication_or_confirmation Size s = some (r, s1)
      ∧ (r.1 = .indication →
          ∃ e, s.at_ r.2 = some e ∧ e &&& indication_bit ≠ 0
            ∧ s1.at_ r.2 = some (e &&& notification_bit)
            ∧ (∀ j, j ≠ r.2 → s1.at_ j = s.at_ j)
            ∧ s1.outstanding_confirmation_ = r.2)
      ∧ (r.1 = .notification →
          ∃ e, s.at_ r.2 = some e ∧ e &&& notification_bit ≠ 0
            ∧ s1.at_ r.2 = some (e &&& indication_bit)
            ∧ (∀ j, j ≠ r.2 → s1.at_ j = s.at_ j)
            ∧ s1.outstanding_confirmation_ = s.outstanding_confirmation_) := by
  obtain ⟨r, s1, heq, _, _, hcase⟩ := notification_queue_impl.dequeue_spec hs hc
  refine ⟨r, s1, heq, ?_, ?_⟩
  · intro hr
    rcases hcase with ⟨rfl, _, _⟩ | ⟨slot, hlt, rfl, hready, rfl⟩ | ⟨slot, _, rfl, _, _, _⟩
    · cases hr
    · have hb := notification_queue_impl.byte_offset_lt hs hlt
      refine ⟨s.entry slot, notification_queue_impl.at_eq_some hb, ?_, ?_, ?_, rfl⟩
      · simp only [notification_queue_impl.indication_ready, Bool.and_eq_true, bne_iff_ne,
          ne_eq] at hready
        exact hready.1
      · exact notification_queue_impl.at_remove_state_same
          { s with outstanding_confirmation_ := slot, next_ := (slot + 1) % Size } slot
          indication_bit hb
      · intro j hj
        exact notification_queue_impl.at_remove_state_other
          { s with outstanding_confirmation_ := slot, next_ := (slot + 1) % Size } slot j
          indication_bit (by decide) hj
    · cases hr
  · intro hr
    rcases hcase with ⟨rfl, _, _⟩ | ⟨slot, _, rfl, _, _⟩ | ⟨slot, hlt, rfl, _, hready, rfl⟩
    · cases hr
    · cases hr
    · have hb := notification_queue_impl.byte_offset_lt hs hlt
      refine ⟨s.entry slot, notification_queue_impl.at_eq_some hb, ?_, ?_, ?_, rfl⟩
      · simp only [notification_queue_impl.notification_ready, bne_iff_ne, ne_eq] at hready
        exact hready
      · exact notification_queue_impl.at_remove_state_same
          { s with next_ := (slot + 1) % Size } slot notification_bit hb
      · intro j hj
        exact notification_queue_impl.at_remove_state_other
          { s with next_ := (slot + 1) % Size } slot j notification_bit (by decide) hj

/-- C20 on a tier of five slots: slot 4, in the second byte, has both bits set and is the
first slot from the cursor that qualifies; slot 1 awaits confirmation. -/
theorem C20_dequeue_clears_one_bit_witness :
    ∃ r s1, notification_queue_impl.dequeue_indication_or_confirmation 5
          ⟨3, [0x21, 0x03], 1⟩ = some (r, s1)
      ∧ (r.1 = .indication →
          ∃ e, notification_queue_impl.at_ ⟨3, [0x21, 0x03], 1⟩ r.2 = some e
            ∧ e &&& indication_bit ≠ 0
            ∧ s1.at_ r.2 = some (e &&& notification_bit)
            ∧ (∀ j, j ≠ r.2 → s1.at_ j = notification_queue_impl.at_ ⟨3, [0x21, 0x03], 1⟩ j)
            ∧ s1.outstanding_confirmation_ = r.2)
      ∧ (r.1 = .notification →
          ∃ e, notification_queue_impl.at_ ⟨3, [0x21, 0x03], 1⟩ r.2 = some e
            ∧ e &&& notification_bit ≠ 0
            ∧ s1.at_ r.2 = some (e &&& indication_bit)
            ∧ (∀ j, j ≠ r.2 → s1.at_ j = notification_queue_impl.at_ ⟨3, [0x21, 0x03], 1⟩ j)
            ∧ s1.outstanding_confirmation_ = 1) :=
  C20_dequeue_clears_one_bit 5 ⟨3, [0x21, 0x03], 1⟩ (by decide) (by decide)

end details
end link_layer
end bluetoe

namespace bluetoe
namespace link_layer

/-- C16, the code at the failing input: with tiers of sizes 2 and 1 (three slots), index 2
is queued for indication and then for notification; `queue_notification( 2 )` returns
false, and none of the six dequeues that follow returns `(notification, 2)`. -/
theorem C16_notification_lost :
    ((notification_queue.construct [2, 1]).run
        [.queue_indication 2, .queue_notification 2, .dequeue_indication_or_confirmation,
          .indication_confirmed, .dequeue_indication_or_confirmation,
          .dequeue_indication_or_confirmation, .dequeue_indication_or_confirmation,
          .dequeue_indication_or_confirmation, .dequeue_indication_or_confirmation]).map
          (fun p => p.1)
      = some [.queued true, .queued false, .entry .indication 2, .done, .entry .empty 0,
          .entry .empty 0, .entry .empty 0, .entry .empty 0, .entry .empty 0] := by
  decide

namespace details

/-! ## Cursors -/

theorem notification_queue_impl.add_frame {s s1 : notification_queue_impl} {i bits : Nat}
    {r : Bool} (h : s.add i bits = some (r, s1)) :
    s1.next_ = s.next_ ∧ s1.outstanding_confirmation_ = s.outstanding_confirmation_ := by
  unfold notification_queue_impl.add at h
  split at h
  · split at h
    · simp only [Option.some.injEq, Prod.mk.injEq] at h
      obtain ⟨_, rfl⟩ := h
      exact ⟨rfl, rfl⟩
    · cases h
  · cases h

theorem tier.queue_notification_cursor {t t1 : tier} {i : Nat} {r : Bool}
    (h : t.queue_notification i = some (r, t1)) : t1.cursor = t.cursor ∧ t1.Size = t.Size := by
  cases t with
  | general Size s =>
    simp only [tier.queue_notification, Option.map_eq_some'] at h
    obtain ⟨⟨r1, s1⟩, h1, h2⟩ := h
    simp only [Prod.mk.injEq] at h2
    obtain ⟨_, rfl⟩ := h2
    unfold notification_queue_impl.queue_notification at h1
    split at h1
    · exact ⟨(notification_queue_impl.add_frame h1).1, rfl⟩
    · cases h1
  | single s =>
    simp only [tier.queue_notification, Option.map_eq_some'] at h
    obtain ⟨⟨r1, s1⟩, _, h2⟩ := h
    simp only [Prod.mk.injEq] at h2
    obtain ⟨_, rfl⟩ := h2
    exact ⟨rfl, rfl⟩

theorem tier.queue_indication_cursor {t t1 : tier} {i : Nat} {r : Bool}
    (h : t.queue_indication i = some (r, t1)) : t1.cursor = t.cursor ∧ t1.Size = t.Size := by
  cases t with
  | general Size s =>
    simp only [tier.queue_indication, Option.map_eq_some'] at h
    obtain ⟨⟨r1, s1⟩, h1, h2⟩ := h
    simp only [Prod.mk.injEq] at h2
    obtain ⟨_, rfl⟩ := h2
    unfold notification_queue_impl.queue_indication at h1
    split at h1
    · split at h1
      · simp only [Option.some.injEq, Prod.mk.injEq] at h1
        obtain ⟨_, rfl⟩ := h1
        exact ⟨rfl, rfl⟩
      · exact ⟨(notification_queue_impl.add_frame h1).1, rfl⟩
    · cases h1
  | single s =>
    simp only [tier.queue_indication, Option.map_eq_some'] at h
    obtain ⟨⟨r1, s1⟩, _, h2⟩ := h
    simp only [Prod.mk.injEq] at h2
    obtain ⟨_, rfl⟩ := h2
    exact ⟨rfl, rfl⟩

theorem tier.indication_confirmed_cursor (t : tier) :
    t.indication_confirmed.cursor = t.cursor := by
  cases t with
  | general Size s =>
    simp only [tier.indication_confirmed, tier.cursor,
      notification_queue_impl.indication_confirmed]
    split <;> rfl
  | single s => rfl

theorem notification_queue_impl_base.queue_notification_cursors :
    ∀ (c c1 : notification_queue_impl_base) (i : Nat) (r : Bool),
      notification_queue_impl_base.queue_notification c i = some (r, c1) →
      notification_queue_impl_base.cursors c1 = notification_queue_impl_base.cursors c
  | [], c1, i, r, h => by
    simp only [notification_queue_impl_base.queue_notification, Option.some.injEq,
      Prod.mk.injEq] at h
    rw [← h.2]
  | impl :: base, c1, i, r, h => by
    simp only [notification_queue_impl_base.queue_notification] at h
    split at h
    · simp only [Option.map_eq_some'] at h
      obtain ⟨⟨r1, t1⟩, h1, h2⟩ := h
      simp only [Prod.mk.injEq] at h2
      obtain ⟨_, rfl⟩ := h2
      simp [notification_queue_impl_base.cursors, (tier.queue_notification_cursor h1).1]
    · simp only [Option.map_eq_some'] at h
      obtain ⟨⟨r1, b1⟩, h1, h2⟩ := h
      simp only [Prod.mk.injEq] at h2
      obtain ⟨_, rfl⟩ := h2
      have := notification_queue_impl_base.queue_notification_cursors base b1 _ r1 h1
      simp only [notification_queue_impl_base.cursors] at this ⊢
      simp [this]

theorem notification_queue_impl_base.queue_indication_cursors :
    ∀ (c c1 : notification_queue_impl_base) (i : Nat) (r : Bool),
      notification_queue_impl_base.queue_indication c i = some (r, c1) →
      notification_queue_impl_base.cursors c1 = notification_queue_impl_base.cursors c
  | [], c1, i, r, h => by
    simp only [notification_queue_impl_base.queue_indication, Option.some.injEq,
      Prod.mk.injEq] at h
    rw [← h.2]
  | impl :: base, c1, i, r, h => by
    simp only [notification_queue_impl_base.queue_indication] at h
    split at h
    · simp only [Option.map_eq_some'] at h
      obtain ⟨⟨r1, t1⟩, h1, h2⟩ := h
      simp only [Prod.mk.injEq] at h2
      obtain ⟨_, rfl⟩ := h2
      simp [notification_queue_impl_base.cursors, (tier.queue_indication_cursor h1).1]
    · simp only [Option.map_eq_some'] at h
      obtain ⟨⟨r1, b1⟩, h1, h2⟩ := h
      simp only [Prod.mk.injEq] at h2
      obtain ⟨_, rfl⟩ := h2
      have := notification_queue_impl_base.queue_indication_cursors base b1 _ r1 h1
      simp only [notification_queue_impl_base.cursors] at this ⊢
      simp [this]

theorem notification_queue_impl_base.indication_confirmed_cursors :
    ∀ (c : notification_queue_impl_base),
      notification_queue_impl_base.cursors (notification_queue_impl_base.indication_confirmed c)
        = notification_queue_impl_base.cursors c
  | [] => rfl
  | impl :: base => by
    have := notification_queue_impl_base.indication_confirmed_cursors base
    simp only [notification_queue_impl_base.cursors] at this
    simp [notification_queue_impl_base.cursors, notification_queue_impl_base.indication_confirmed,
      tier.indication_confirmed_cursor, this]

theorem notification_queue_impl_base.clear_cursors :
    ∀ (c : notification_queue_impl_base),
      ∀ x ∈ notification_queue_impl_base.cursors
        (notification_queue_impl_base.clear_indications_and_confirmations c), x = 0
  | [], x, h => by
    simp [notification_queue_impl_base.cursors,
      notification_queue_impl_base.clear_indications_and_confirmations] at h
  | impl :: base, x, h => by
    simp only [notification_queue_impl_base.cursors,
      notification_queue_impl_base.clear_indications_and_confirmations, List.map_cons,
      List.mem_cons] at h
    rcases h with h | h
    · rw [h]
      cases impl <;> rfl
    · exact notification_queue_impl_base.clear_cursors base x h

end details
end link_layer
end bluetoe

namespace bluetoe
namespace link_layer
namespace details

theorem tier.dequeue_cursor {t : tier} (hinv : t.inv) :
    ∃ r t1, t.dequeue_indication_or_confirmation = some (r, t1)
      ∧ (r.1 = .empty → r.2 = 0 ∧ t1 = t)
      ∧ (r.1 ≠ .empty → r.2 < t.Size
          ∧ t1.cursor = t.cursor_behind r.2) := by
  obtain ⟨r, t1, h1, _, _, h4, h5, _⟩ := tier.dequeue_total hinv
  refine ⟨r, t1, h1, h4, fun hr => ⟨h5 hr, ?_⟩⟩
  cases t with
  | general Size s =>
    obtain ⟨s1, hd, rfl⟩ := tier.dequeue_general h1
    obtain ⟨r', s1', heq, _, _, hcase⟩ := notification_queue_impl.dequeue_spec hinv.1 hinv.2
    rw [hd] at heq
    simp only [Option.some.injEq, Prod.mk.injEq] at heq
    obtain ⟨rfl, rfl⟩ := heq
    rcases hcase with ⟨rfl, _, _⟩ | ⟨slot, _, rfl, _, rfl⟩ | ⟨slot, _, rfl, _, _, rfl⟩
    · exact absurd rfl hr
    · rfl
    · rfl
  | single s =>
    obtain ⟨s1, _, rfl⟩ := tier.dequeue_single h1
    rfl

theorem notification_queue_impl_base.dequeue_cursors (c : notification_queue_impl_base) :
    notification_queue_impl_base.inv c →
    ∃ r c1, notification_queue_impl_base.dequeue_indication_or_confirmation c = some (r, c1)
      ∧ (r.1 = .empty → r.2 = 0 ∧ c1 = c)
      ∧ (r.1 ≠ .empty →
          notification_queue_impl_base.cursors c1
            = notification_queue_impl_base.cursors_after c r.2) := by
  induction c with
  | nil =>
    intro _
    exact ⟨_, _, rfl, fun _ => ⟨rfl, rfl⟩, fun h => absurd rfl h⟩
  | cons impl base ih =>
    intro hinv
    obtain ⟨r2', base1', g1, g2, g3⟩ := ih hinv.2
    obtain ⟨r1, impl1, r2, base1, h1, h2, h3, h4, h5⟩ :=
      notification_queue_impl_base.dequeue_cons hinv.1 hinv.2 ⟨r2', base1', g1, g2⟩
    rw [g1] at h2
    simp only [Option.some.injEq, Prod.mk.injEq] at h2
    obtain ⟨rfl, rfl⟩ := h2
    obtain ⟨r1', impl1', f1, f2, f3⟩ := tier.dequeue_cursor hinv.1
    rw [h1] at f1
    simp only [Option.some.injEq, Prod.mk.injEq] at f1
    obtain ⟨rfl, rfl⟩ := f1
    by_cases hr : r1.1 = .empty
    · by_cases hr2 : r2'.1 = .empty
      · exact ⟨_, _, h5 hr hr2, fun _ => ⟨rfl, rfl⟩, fun h => absurd rfl h⟩
      · refine ⟨_, _, h4 hr hr2, fun h => absurd h hr2, fun _ => ?_⟩
        have h6 := g3 hr2
        simp only [notification_queue_impl_base.cursors] at h6
        simp [notification_queue_impl_base.cursors, notification_queue_impl_base.cursors_after,
          h6]
    · refine ⟨_, _, h3 hr, fun h => absurd h hr, fun _ => ?_⟩
      obtain ⟨h6, h7⟩ := f3 hr
      simp only [notification_queue_impl_base.cursors, List.map_cons,
        notification_queue_impl_base.cursors_after, if_pos h6, h7]

end details

/-- C19: for every list of tiers and every well-formed state. The dequeue returns; when it
returns kind empty, the state of the queue is as before; when it returns an index, the
cursor of the tier that owns the index is that of the slot behind the returned one, modulo
the size of the tier, and every other cursor is as before. `queue_notification`,
`queue_indication` and `indication_confirmed` leave every cursor as it is, and
`clear_indications_and_confirmations` sets every cursor to 0. -/
theorem C19_cursor_frame (q : notification_queue)
    (hinv : details.notification_queue_impl_base.inv q.impl) :
    (∃ r q1, q.dequeue_indication_or_confirmation = some (r, q1)
      ∧ (r.1 = .empty → q1 = q)
      ∧ (r.1 ≠ .empty →
          details.notification_queue_impl_base.cursors q1.impl
            = details.notification_queue_impl_base.cursors_after q.impl r.2))
    ∧ (∀ i r q1, q.queue_notification i = some (r, q1) →
        details.notification_queue_impl_base.cursors q1.impl
          = details.notification_queue_impl_base.cursors q.impl)
    ∧ (∀ i r q1, q.queue_indication i = some (r, q1) →
        details.notification_queue_impl_base.cursors q1.impl
          = details.notification_queue_impl_base.cursors q.impl)
    ∧ details.notification_queue_impl_base.cursors q.indication_confirmed.impl
        = details.notification_queue_impl_base.cursors q.impl
    ∧ (∀ x ∈ details.notification_queue_impl_base.cursors
        q.clear_indications_and_confirmations.impl, x = 0) := by
  refine ⟨?_, ?_, ?_, ?_, ?_⟩
  · obtain ⟨r, c1, h1, h2, h3⟩ :=
      details.notification_queue_impl_base.dequeue_cursors q.impl hinv
    refine ⟨r, { q with impl := c1 }, ?_, ?_, h3⟩
    · simp [notification_queue.dequeue_indication_or_confirmation, h1]
    · intro hr
      rw [(h2 hr).2]
  · intro i r q1 h
    simp only [notification_queue.queue_notification, Option.map_eq_some'] at h
    obtain ⟨⟨r1, c1⟩, h1, h2⟩ := h
    simp only [Prod.mk.injEq] at h2
    obtain ⟨_, rfl⟩ := h2
    exact details.notification_queue_impl_base.queue_notification_cursors _ _ _ _ h1
  · intro i r q1 h
    simp only [notification_queue.queue_indication, Option.map_eq_some'] at h
    obtain ⟨⟨r1, c1⟩, h1, h2⟩ := h
    simp only [Prod.mk.injEq] at h2
    obtain ⟨_, rfl⟩ := h2
    exact details.notification_queue_impl_base.queue_indication_cursors _ _ _ _ h1
  · exact details.notification_queue_impl_base.indication_confirmed_cursors q.impl
  · exact details.notification_queue_impl_base.clear_cursors q.impl

/-- C19 on tiers of sizes 3, 1 and 2: nothing is pending in the first two tiers and slot 1
of the third tier, global index 5, has a notification queued. -/
theorem C19_cursor_frame_witness :
    ∃ r q1, (notification_queue.mk [.general 3 ⟨2, [0], 3⟩, .single ⟨0⟩,
          .general 2 ⟨1, [4], 2⟩] size_t_all_ones).dequeue_indication_or_confirmation
            = some (r, q1)
      ∧ (r.1 = .empty → q1 = notification_queue.mk [.general 3 ⟨2, [0], 3⟩, .single ⟨0⟩,
          .general 2 ⟨1, [4], 2⟩] size_t_all_ones)
      ∧ (r.1 ≠ .empty →
          details.notification_queue_impl_base.cursors q1.impl
            = details.notification_queue_impl_base.cursors_after
                [.general 3 ⟨2, [0], 3⟩, .single ⟨0⟩, .general 2 ⟨1, [4], 2⟩] r.2) :=
  (C19_cursor_frame (notification_queue.mk [.general 3 ⟨2, [0], 3⟩, .single ⟨0⟩,
      .general 2 ⟨1, [4], 2⟩] size_t_all_ones) (by decide)).1

end link_layer
end bluetoe

namespace bluetoe
namespace link_layer
namespace details
namespace notification_queue_impl

/-! ## Cyclic distance -/

theorem cyclic_distance_eq {Size c y : Nat} (hc : c < Size) (hy : y < Size) :
    cyclic_distance Size c y = if c ≤ y then y - c else y + Size - c := by
  unfold cyclic_distance
  split
  · have h : y + Size - c = (y - c) + Size := by omega
    rw [h, Nat.add_mod_right, Nat.mod_eq_of_lt (by omega)]
  · rw [Nat.mod_eq_of_lt (by omega)]

theorem succ_mod_eq {Size x : Nat} (hx : x < Size) :
    (x + 1) % Size = if x + 1 < Size then x + 1 else 0 := by
  split
  · rename_i h; exact Nat.mod_eq_of_lt h
  · have h : x + 1 = Size := by omega
    rw [h, Nat.mod_self]

theorem add_mod_eq {Size c k : Nat} (hc : c < Size) (hk : k < Size) :
    (c + k) % Size = if c + k < Size then c + k else c + k - Size := by
  split
  · rename_i h; exact Nat.mod_eq_of_lt h
  · rw [Nat.mod_eq_sub_mod (by omega), Nat.mod_eq_of_lt (by omega)]

theorem cyclic_distance_lt {Size c y : Nat} (hc : c < Size) (hy : y < Size) :
    cyclic_distance Size c y < Size := by
  rw [cyclic_distance_eq hc hy]; split <;> omega

theorem cyclic_distance_add {Size c k : Nat} (hc : c < Size) (hk : k < Size) :
    cyclic_distance Size c ((c + k) % Size) = k := by
  rw [cyclic_distance_eq hc (Nat.mod_lt _ (by omega)), add_mod_eq hc hk]
  split <;> split <;> omega

theorem add_cyclic_distance {Size c y : Nat} (hc : c < Size) (hy : y < Size) :
    (c + cyclic_distance Size c y) % Size = y := by
  rw [add_mod_eq hc (cyclic_distance_lt hc hy), cyclic_distance_eq hc hy]
  split <;> split <;> omega

theorem cyclic_distance_step {Size c x j : Nat} (hc : c < Size) (hx : x < Size) (hj : j < Size)
    (h : cyclic_distance Size c x < cyclic_distance Size c j) :
    cyclic_distance Size ((x + 1) % Size) j + cyclic_distance Size c x + 1
        = cyclic_distance Size c j
      ∧ cyclic_distance Size ((x + 1) % Size) j ≤ cyclic_distance Size ((x + 1) % Size) x
      ∧ ∀ p, p < Size →
          cyclic_distance Size ((x + 1) % Size) p < cyclic_distance Size ((x + 1) % Size) j →
          cyclic_distance Size c p < cyclic_distance Size c j
            ∧ cyclic_distance Size c x < cyclic_distance Size c p := by
  have hx1 : (x + 1) % Size < Size := Nat.mod_lt _ (by omega)
  rw [cyclic_distance_eq hc hx, cyclic_distance_eq hc hj] at h
  rw [cyclic_distance_eq hx1 hj, cyclic_distance_eq hx1 hx, cyclic_distance_eq hc hx,
    cyclic_distance_eq hc hj]
  refine ⟨?_, ?_, ?_⟩
  · rw [succ_mod_eq hx]
    split at h <;> split at h <;> split <;> split <;> omega
  · rw [succ_mod_eq hx]
    split at h <;> split at h <;> split <;> split <;> split <;> omega
  · intro p hp
    rw [cyclic_distance_eq hx1 hp, cyclic_distance_eq hc hp, succ_mod_eq hx]
    intro h2
    split at h <;> split at h <;> split at h2 <;> split at h2 <;> split at h2 <;>
      split <;> omega

end notification_queue_impl
end details
end link_layer
end bluetoe

namespace bluetoe
namespace link_layer
namespace details
namespace notification_queue_impl

theorem scan_order_getElem? {Size c d : Nat} (hd : d < Size) :
    (scan_order Size c)[d]? = some ((c + d) % Size) := by
  simp [scan_order, List.getElem?_map, List.getElem?_range hd]

theorem dequeue_first {Size : Nat} {s : notification_queue_impl}
    (hs : storage_ok Size s) (hc : s.next_ < Size) :
    ∃ r s1, dequeue_indication_or_confirmation Size s = some (r, s1)
      ∧ storage_ok Size s1 ∧ s1.next_ < Size
      ∧ ((r = (.empty, 0) ∧ s1 = s ∧ ∀ slot, slot < Size → ready Size s slot = false)
        ∨ (r.1 ≠ .empty ∧ r.2 < Size ∧ ready Size s r.2 = true
            ∧ s1.next_ = (r.2 + 1) % Size
            ∧ (∀ y, y ≠ r.2 → s1.entry y = s.entry y)
            ∧ ∀ y, y < Size →
                cyclic_distance Size s.next_ y < cyclic_distance Size s.next_ r.2 →
                ready Size s y = false)) := by
  obtain ⟨r, s1, heq, hs1, hc1, hcase⟩ := dequeue_spec hs hc
  refine ⟨r, s1, heq, hs1, hc1, ?_⟩
  have hfirst : ∀ x, (scan_order Size s.next_).find? (ready Size s) = some x →
      ∀ y, y < Size → cyclic_distance Size s.next_ y < cyclic_distance Size s.next_ x →
        ready Size s y = false := by
    intro x hx y hy hlt
    obtain ⟨_, as, bs, hsplit, has⟩ := List.find?_eq_some.mp hx
    have hlen : as.length < Size := by
      have h1 : (scan_order Size s.next_).length = Size := by simp [scan_order]
      rw [hsplit] at h1
      simp at h1
      omega
    have hxeq : x = (s.next_ + as.length) % Size := by
      have h1 := scan_order_getElem? (c := s.next_) hlen
      rw [hsplit, List.getElem?_append_right (Nat.le_refl _)] at h1
      simp at h1
      exact h1
    have hdx : cyclic_distance Size s.next_ x = as.length := by
      rw [hxeq]; exact cyclic_distance_add hc hlen
    rw [hdx] at hlt
    have h2 := scan_order_getElem? (c := s.next_) (cyclic_distance_lt hc hy)
    rw [add_cyclic_distance hc hy, hsplit, List.getElem?_append_left hlt] at h2
    have h3 := has y (List.getElem?_mem h2)
    simpa using h3
  have hscan := dequeue_eq_scan hs hc
  rw [heq] at hscan
  simp only [Option.some.injEq] at hscan
  rcases hcase with ⟨rfl, rfl, hall⟩ | ⟨slot, hlt, rfl, hready, rfl⟩
      | ⟨slot, hlt, rfl, hir, hready, rfl⟩
  · exact Or.inl ⟨rfl, rfl, hall⟩
  · refine Or.inr ⟨by simp, hlt, by simp [ready, hready], rfl, ?_, ?_⟩
    · intro y hy
      exact entry_remove_state_other
        { s with outstanding_confirmation_ := slot, next_ := (slot + 1) % Size } slot y
        indication_bit (by decide) (Ne.symm hy)
    · apply hfirst
      unfold dequeue_scan at hscan
      cases hf : (scan_order Size s.next_).find? (ready Size s) with
      | none => rw [hf] at hscan; simp at hscan
      | some x =>
        rw [hf] at hscan
        dsimp only at hscan
        have : (dequeue_at Size s x).1.2 = x := by
          unfold dequeue_at; split <;> rfl
        rw [← hscan] at this
        simp only at this
        rw [this]
  · refine Or.inr ⟨by simp, hlt, by simp [ready, hready], rfl, ?_, ?_⟩
    · intro y hy
      exact entry_remove_state_other
        { s with next_ := (slot + 1) % Size } slot y
        notification_bit (by decide) (Ne.symm hy)
    · apply hfirst
      unfold dequeue_scan at hscan
      cases hf : (scan_order Size s.next_).find? (ready Size s) with
      | none => rw [hf] at hscan; simp at hscan
      | some x =>
        rw [hf] at hscan
        dsimp only at hscan
        have : (dequeue_at Size s x).1.2 = x := by
          unfold dequeue_at; split <;> rfl
        rw [← hscan] at this
        simp only at this
        rw [this]

end notification_queue_impl
end details
end link_layer
end bluetoe

namespace bluetoe
namespace link_layer
namespace details

theorem or_keeps_bit (e b bit : Nat) (h : e &&& bit ≠ 0) : (e ||| b) &&& bit ≠ 0 := by
  intro h0
  apply h
  apply Nat.eq_of_testBit_eq
  intro k
  have h1 := congrArg (fun n => Nat.testBit n k) h0
  simp only [Nat.testBit_and, Nat.testBit_or, Nat.zero_testBit] at h1 ⊢
  revert h1
  cases e.testBit k <;> cases b.testBit k <;> cases bit.testBit k <;> simp

theorem tier.wait_for_slot (Size j : Nat) (hj : j < Size) :
    ∀ (ops : List operation) (s : notification_queue_impl),
      notification_queue_impl.storage_ok Size s → s.next_ < Size →
      s.entry j &&& notification_bit ≠ 0 →
      (∀ o ∈ ops, o.index_ok Size = true ∧ o ≠ .clear_indications_and_confirmations) →
      notification_queue_impl.cyclic_distance Size s.next_ j
          < ops.count .dequeue_indication_or_confirmation →
      ∃ rs t1, (tier.general Size s).run ops = some (rs, t1)
        ∧ ∃ pre k post, response.dequeued rs = pre ++ (k, j) :: post ∧ k ≠ .empty
          ∧ pre.length ≤ notification_queue_impl.cyclic_distance Size s.next_ j
          ∧ (∀ p ∈ pre, p.1 ≠ .empty ∧ p.2 < Size
              ∧ notification_queue_impl.cyclic_distance Size s.next_ p.2
                  < notification_queue_impl.cyclic_distance Size s.next_ j)
          ∧ (pre.map Prod.snd).Nodup := by
  intro ops
  induction ops with
  | nil =>
    intro s _ _ _ _ hcount
    simp at hcount
  | cons o os ih =>
    intro s hs hc hn hops hcount
    have hos : ∀ o ∈ os, o.index_ok Size = true ∧ o ≠ .clear_indications_and_confirmations :=
      fun o ho => hops o (List.mem_cons_of_mem _ ho)
    have ho := hops o (List.mem_cons_self _ _)
    cases o with
    | queue_notification i =>
      have hi : i < Size := by simpa [operation.index_ok] using ho.1
      have hb := notification_queue_impl.byte_offset_lt hs hi
      have hcount' : notification_queue_impl.cyclic_distance Size s.next_ j
          < os.count .dequeue_indication_or_confirmation := by
        simpa [List.count_cons] using hcount
      have hn' : (s.add_state i notification_bit).entry j &&& notification_bit ≠ 0 := by
        by_cases hij : i = j
        · subst hij
          rw [notification_queue_impl.entry_add_state_same s i notification_bit hb (by decide)]
          exact or_keeps_bit _ _ _ hn
        · rw [notification_queue_impl.entry_add_state_other s i j notification_bit (by decide)
            hij]
          exact hn
      obtain ⟨rs, t1, hrun, hrest⟩ := ih (s.add_state i notification_bit)
        (notification_queue_impl.storage_ok_add_state hs _ _) hc hn' hos hcount'
      have hstep : (tier.general Size s).step (.queue_notification i)
          = some (.queued (decide (s.entry i &&& notification_bit = 0)),
              tier.general Size (s.add_state i notification_bit)) := by
        simp [tier.step, tier.queue_notification,
          notification_queue_impl.queue_notification_eq hs hi]
      exact ⟨_, t1, tier.run_cons_of_step hstep hrun, hrest⟩
    | queue_indication i =>
      have hi : i < Size := by simpa [operation.index_ok] using ho.1
      have hb := notification_queue_impl.byte_offset_lt hs hi
      have hcount' : notification_queue_impl.cyclic_distance Size s.next_ j
          < os.count .dequeue_indication_or_confirmation := by
        simpa [List.count_cons] using hcount
      by_cases hoc : s.outstanding_confirmation_ = i
      · obtain ⟨rs, t1, hrun, hrest⟩ := ih s hs hc hn hos hcount'
        have hstep : (tier.general Size s).step (.queue_indication i)
            = some (.queued false, tier.general Size s) := by
          simp [tier.step, tier.queue_indication,
            notification_queue_impl.queue_indication_eq hs hi, hoc]
        exact ⟨_, t1, tier.run_cons_of_step hstep hrun, hrest⟩
      · have hn' : (s.add_state i indication_bit).entry j &&& notification_bit ≠ 0 := by
          by_cases hij : i = j
          · subst hij
            rw [notification_queue_impl.entry_add_state_same s i indication_bit hb (by decide)]
            exact or_keeps_bit _ _ _ hn
          · rw [notification_queue_impl.entry_add_state_other s i j indication_bit (by decide)
              hij]
            exact hn
        obtain ⟨rs, t1, hrun, hrest⟩ := ih (s.add_state i indication_bit)
          (notification_queue_impl.storage_ok_add_state hs _ _) hc hn' hos hcount'
        have hstep : (tier.general Size s).step (.queue_indication i)
            = some (.queued (decide (s.entry i &&& indication_bit = 0)),
                tier.general Size (s.add_state i indication_bit)) := by
          simp [tier.step, tier.queue_indication,
            notification_queue_impl.queue_indication_eq hs hi, hoc]
        exact ⟨_, t1, tier.run_cons_of_step hstep hrun, hrest⟩
    | indication_confirmed =>
      have hcount' : notification_queue_impl.cyclic_distance Size s.next_ j
          < os.count .dequeue_indication_or_confirmation := by
        simpa [List.count_cons] using hcount
      have hframe : (notification_queue_impl.indication_confirmed Size s).next_ = s.next_
          ∧ (notification_queue_impl.indication_confirmed Size s).queue_ = s.queue_ := by
        unfold notification_queue_impl.indication_confirmed
        split <;> exact ⟨rfl, rfl⟩
      have hs' : notification_queue_impl.storage_ok Size
          (notification_queue_impl.indication_confirmed Size s) := by
        unfold notification_queue_impl.storage_ok
        rw [hframe.2]
        exact hs
      have hn' : (notification_queue_impl.indication_confirmed Size s).entry j
          &&& notification_bit ≠ 0 := by
        unfold notification_queue_impl.entry
        rw [hframe.2]
        exact hn
      obtain ⟨rs, t1, hrun, hrest⟩ := ih (notification_queue_impl.indication_confirmed Size s)
        hs' (by rw [hframe.1]; exact hc) hn' hos (by rw [hframe.1]; exact hcount')
      rw [hframe.1] at hrest
      exact ⟨_, t1, tier.run_cons_of_step (r := .done) rfl hrun, hrest⟩
    | clear_indications_and_confirmations => exact absurd rfl ho.2
    | dequeue_indication_or_confirmation =>
      have hcount' : notification_queue_impl.cyclic_distance Size s.next_ j
          < os.count .dequeue_indication_or_confirmation + 1 := by
        simpa [List.count_cons] using hcount
      have hjr : notification_queue_impl.ready Size s j = true := by
        simp [notification_queue_impl.ready, notification_queue_impl.notification_ready, hn]
      obtain ⟨r, s1, heq, hs1, hc1, hcase⟩ := notification_queue_impl.dequeue_first hs hc
      have hstep : (tier.general Size s).step .dequeue_indication_or_confirmation
          = some (.entry r.1 r.2, tier.general Size s1) := by
        simp [tier.step, tier.dequeue_indication_or_confirmation, heq]
      rcases hcase with ⟨_, _, hall⟩ | ⟨hne, hx, _, hnext, hother, hfirst⟩
      · rw [hall j hj] at hjr
        cases hjr
      · by_cases hxj : r.2 = j
        · obtain ⟨rs, t1, hrun, _, _⟩ := tier.run_spec
            (t := tier.general Size s1) ⟨hs1, hc1⟩ os (fun o ho => (hos o ho).1)
          refine ⟨_, t1, tier.run_cons_of_step hstep hrun, [], r.1, response.dequeued rs, ?_,
            hne, Nat.zero_le _, by simp, by simp⟩
          simp [response.dequeued, hxj]
        · have hle : ¬ (notification_queue_impl.cyclic_distance Size s.next_ j
              < notification_queue_impl.cyclic_distance Size s.next_ r.2) := by
            intro hlt
            rw [hfirst j hj hlt] at hjr
            cases hjr
          have hlt : notification_queue_impl.cyclic_distance Size s.next_ r.2
              < notification_queue_impl.cyclic_distance Size s.next_ j := by
            rcases Nat.lt_or_ge (notification_queue_impl.cyclic_distance Size s.next_ r.2)
              (notification_queue_impl.cyclic_distance Size s.next_ j) with h | h
            · exact h
            · exfalso
              have heq2 : notification_queue_impl.cyclic_distance Size s.next_ r.2
                  = notification_queue_impl.cyclic_distance Size s.next_ j := by omega
              have h1 := notification_queue_impl.add_cyclic_distance hc hx
              have h2 := notification_queue_impl.add_cyclic_distance hc hj
              rw [heq2, h2] at h1
              exact hxj h1.symm
          obtain ⟨hd1, hd2, hd3⟩ := notification_queue_impl.cyclic_distance_step hc hx hj hlt
          have hn1 : s1.entry j &&& notification_bit ≠ 0 := by
            rw [hother j (Ne.symm hxj)]
            exact hn
          obtain ⟨rs, t1, hrun, pre, k, post, hdq, hk, hlen, hpre, hnodup⟩ :=
            ih s1 hs1 hc1 hn1 hos (by rw [hnext]; omega)
          rw [hnext] at hlen hpre
          refine ⟨_, t1, tier.run_cons_of_step hstep hrun, (r.1, r.2) :: pre, k, post, ?_, hk,
            ?_, ?_, ?_⟩
          · simp [response.dequeued, hdq]
          · simp only [List.length_cons]; omega
          · intro p hp
            rcases List.mem_cons.mp hp with rfl | hp
            · exact ⟨hne, hx, hlt⟩
            · obtain ⟨h1, h2, h3⟩ := hpre p hp
              exact ⟨h1, h2, (hd3 p.2 h2 h3).1⟩
          · simp only [List.map_cons, List.nodup_cons]
            refine ⟨?_, hnodup⟩
            intro hmem
            obtain ⟨p, hp, hp2⟩ := List.mem_map.mp hmem
            obtain ⟨_, h2, h3⟩ := hpre p hp
            have := (hd3 p.2 h2 h3).2
            rw [hp2] at this
            omega

end details
end link_layer
end bluetoe

namespace bluetoe
namespace link_layer
namespace details

/-- C18: bounded waiting inside a general tier. Slot `j` has a notification pending in a
well-formed state; the operations that follow are `queue_notification`,
`queue_indication`, `indication_confirmed` and dequeues in any order, with `Size` dequeues
among them and no `clear_indications_and_confirmations`. Then the run comes to an end and
one of its dequeues returns slot `j`; every dequeue before that one returns a slot other
than `j`, and no slot is returned twice before slot `j` is returned. -/
theorem C18_bounded_waiting (Size : Nat) (s : notification_queue_impl) (j : Nat)
    (ops : List operation) (hs : notification_queue_impl.storage_ok Size s)
    (hc : s.next_ < Size) (hj : j < Size) (hn : s.entry j &&& notification_bit ≠ 0)
    (hops : ∀ o ∈ ops, o.index_ok Size = true ∧ o ≠ .clear_indications_and_confirmations)
    (hcount : ops.count .dequeue_indication_or_confirmation = Size) :
    ∃ rs t1, (tier.general Size s).run ops = some (rs, t1)
      ∧ ∃ pre k post, response.dequeued rs = pre ++ (k, j) :: post ∧ k ≠ .empty
        ∧ pre.length < Size
        ∧ (∀ p ∈ pre, p.1 ≠ .empty ∧ p.2 ≠ j)
        ∧ (pre.map Prod.snd).Nodup := by
  have hd := notification_queue_impl.cyclic_distance_lt hc hj
  obtain ⟨rs, t1, hrun, pre, k, post, h1, h2, h3, h4, h5⟩ :=
    tier.wait_for_slot Size j hj ops s hs hc hn hops (by rw [hcount]; exact hd)
  refine ⟨rs, t1, hrun, pre, k, post, h1, h2, by omega, ?_, h5⟩
  intro p hp
  obtain ⟨h6, _, h7⟩ := h4 p hp
  refine ⟨h6, ?_⟩
  intro hpj
  rw [hpj] at h7
  omega

/-- C18 on a tier of three slots: slot 0 has a notification pending, the cursor is at
slot 1, and the slots 1 and 2 are queued between the dequeues. -/
theorem C18_bounded_waiting_witness :
    ∃ rs t1, (tier.general 3 ⟨1, [0x01], 3⟩).run
          [.queue_notification 1, .dequeue_indication_or_confirmation, .queue_indication 2,
            .queue_notification 1, .dequeue_indication_or_confirmation, .indication_confirmed,
            .queue_notification 2, .dequeue_indication_or_confirmation] = some (rs, t1)
      ∧ ∃ pre k post, response.dequeued rs = pre ++ (k, 0) :: post ∧ k ≠ .empty
        ∧ pre.length < 3
        ∧ (∀ p ∈ pre, p.1 ≠ .empty ∧ p.2 ≠ 0)
        ∧ (pre.map Prod.snd).Nodup :=
  C18_bounded_waiting 3 ⟨1, [0x01], 3⟩ 0
    [.queue_notification 1, .dequeue_indication_or_confirmation, .queue_indication 2,
      .queue_notification 1, .dequeue_indication_or_confirmation, .indication_confirmed,
      .queue_notification 2, .dequeue_indication_or_confirmation]
    (by decide) (by decide) (by decide) (by decide) (by decide) (by decide)

end details
end link_layer
end bluetoe

namespace bluetoe
namespace link_layer
namespace details

/-! ## `indication_confirmed` on a chain -/

theorem tier.indication_confirmed_frame (t : tier) (hg : t.is_general = true) :
    t.indication_confirmed.awaiting_confirmation = false
      ∧ t.indication_confirmed.queue_bytes = t.queue_bytes
      ∧ t.indication_confirmed.cursor = t.cursor
      ∧ t.indication_confirmed.Size = t.Size
      ∧ (t.awaiting_confirmation = false → t.indication_confirmed = t)
      ∧ t.indication_confirmed.indication_confirmed = t.indication_confirmed := by
  cases t with
  | single s => cases hg
  | general Size s =>
    by_cases h : s.outstanding_confirmation_ = Size
    · have hc : notification_queue_impl.indication_confirmed Size s = s := by
        unfold notification_queue_impl.indication_confirmed
        rw [if_neg (by simp [h])]
      simp [tier.indication_confirmed, hc, tier.awaiting_confirmation, h]
    · have hc : notification_queue_impl.indication_confirmed Size s
          = { s with outstanding_confirmation_ := Size } := by
        unfold notification_queue_impl.indication_confirmed
        rw [if_pos h]
      have hc2 : notification_queue_impl.indication_confirmed Size
          { s with outstanding_confirmation_ := Size }
          = { s with outstanding_confirmation_ := Size } := by
        unfold notification_queue_impl.indication_confirmed
        rw [if_neg (by simp)]
      simp [tier.indication_confirmed, hc, hc2, tier.awaiting_confirmation, tier.queue_bytes,
        tier.cursor, tier.Size, h]

/-- C21: `indication_confirmed` on a chain of tiers of the primary template, in any
state. Afterwards no tier awaits confirmation; the byte array with the pending bits, the
cursor and the size of every tier are as before; when no tier awaited confirmation the
whole chain is as before; and a second call changes nothing more. -/
theorem C21_indication_confirmed_frame (c : notification_queue_impl_base)
    (hg : ∀ t ∈ c, t.is_general = true) :
    (∀ t ∈ notification_queue_impl_base.indication_confirmed c,
        t.awaiting_confirmation = false)
    ∧ (notification_queue_impl_base.indication_confirmed c).map tier.queue_bytes
        = c.map tier.queue_bytes
    ∧ notification_queue_impl_base.cursors (notification_queue_impl_base.indication_confirmed c)
        = notification_queue_impl_base.cursors c
    ∧ (notification_queue_impl_base.indication_confirmed c).map tier.Size = c.map tier.Size
    ∧ ((∀ t ∈ c, t.awaiting_confirmation = false) →
        notification_queue_impl_base.indication_confirmed c = c)
    ∧ notification_queue_impl_base.indication_confirmed
        (notification_queue_impl_base.indication_confirmed c)
        = notification_queue_impl_base.indication_confirmed c := by
  induction c with
  | nil =>
    exact ⟨by simp [notification_queue_impl_base.indication_confirmed], rfl, rfl, rfl,
      fun _ => rfl, rfl⟩
  | cons impl base ih =>
    obtain ⟨h1, h2, h3, h4, h5, h6⟩ := ih (fun t ht => hg t (List.mem_cons_of_mem _ ht))
    obtain ⟨f1, f2, f3, f4, f5, f6⟩ :=
      tier.indication_confirmed_frame impl (hg impl (List.mem_cons_self _ _))
    simp only [notification_queue_impl_base.cursors] at h3
    refine ⟨?_, ?_, ?_, ?_, ?_, ?_⟩
    · intro t ht
      simp only [notification_queue_impl_base.indication_confirmed, List.mem_cons] at ht
      rcases ht with rfl | ht
      · exact f1
      · exact h1 t ht
    · simp [notification_queue_impl_base.indication_confirmed, f2, h2]
    · simp [notification_queue_impl_base.cursors,
        notification_queue_impl_base.indication_confirmed, f3, h3]
    · simp [notification_queue_impl_base.indication_confirmed, f4, h4]
    · intro ha
      simp only [notification_queue_impl_base.indication_confirmed]
      rw [f5 (ha impl (List.mem_cons_self _ _)),
        h5 (fun t ht => ha t (List.mem_cons_of_mem _ ht))]
    · simp only [notification_queue_impl_base.indication_confirmed]
      rw [f6, h6]

/-- C21 on a chain of two tiers that both await confirmation and have entries pending. -/
theorem C21_indication_confirmed_frame_witness :
    (∀ t ∈ notification_queue_impl_base.indication_confirmed
          [tier.general 2 ⟨1, [9], 0⟩, tier.general 3 ⟨2, [0x24], 1⟩],
        t.awaiting_confirmation = false)
    ∧ (notification_queue_impl_base.indication_confirmed
          [tier.general 2 ⟨1, [9], 0⟩, tier.general 3 ⟨2, [0x24], 1⟩]).map tier.queue_bytes
        = [[9], [0x24]]
    ∧ notification_queue_impl_base.cursors (notification_queue_impl_base.indication_confirmed
          [tier.general 2 ⟨1, [9], 0⟩, tier.general 3 ⟨2, [0x24], 1⟩]) = [1, 2] :=
  ⟨(C21_indication_confirmed_frame [tier.general 2 ⟨1, [9], 0⟩, tier.general 3 ⟨2, [0x24], 1⟩]
      (by decide)).1,
    (C21_indication_confirmed_frame [tier.general 2 ⟨1, [9], 0⟩, tier.general 3 ⟨2, [0x24], 1⟩]
      (by decide)).2.1,
    (C21_indication_confirmed_frame [tier.general 2 ⟨1, [9], 0⟩, tier.general 3 ⟨2, [0x24], 1⟩]
      (by decide)).2.2.1⟩

/-- C22: for every chain, in any state, and every index that is not below the total
number of slots, `queue_notification` and `queue_indication` reach the empty chain: they
return false, no assertion fails, and the state is as before. -/
theorem C22_index_out_of_range (c : notification_queue_impl_base) (idx : Nat)
    (hidx : notification_queue_impl_base.total c ≤ idx) :
    notification_queue_impl_base.queue_notification c idx = some (false, c)
    ∧ notification_queue_impl_base.queue_indication c idx = some (false, c)
    ∧ notification_queue.queue_notification ⟨c, size_t_all_ones⟩ idx
        = some (false, ⟨c, size_t_all_ones⟩)
    ∧ notification_queue.queue_indication ⟨c, size_t_all_ones⟩ idx
        = some (false, ⟨c, size_t_all_ones⟩) := by
  have h : notification_queue_impl_base.queue_notification c idx = some (false, c)
      ∧ notification_queue_impl_base.queue_indication c idx = some (false, c) := by
    induction c generalizing idx with
    | nil => exact ⟨rfl, rfl⟩
    | cons impl base ih =>
      simp only [notification_queue_impl_base.total] at hidx
      have hlt : ¬ idx < impl.Size := by omega
      obtain ⟨h1, h2⟩ := ih (idx - impl.Size) (by omega)
      simp [notification_queue_impl_base.queue_notification,
        notification_queue_impl_base.queue_indication, hlt, h1, h2]
  refine ⟨h.1, h.2, ?_, ?_⟩
  · simp [notification_queue.queue_notification, h.1]
  · simp [notification_queue.queue_indication, h.2]

/-- C22 on tiers of sizes 2 and 1 with entries pending, at the first index out of range. -/
theorem C22_index_out_of_range_witness :
    notification_queue_impl_base.queue_notification
        [tier.general 2 ⟨1, [9], 0⟩, tier.single ⟨2⟩] 3
      = some (false, [tier.general 2 ⟨1, [9], 0⟩, tier.single ⟨2⟩])
    ∧ notification_queue_impl_base.queue_indication
        [tier.general 2 ⟨1, [9], 0⟩, tier.single ⟨2⟩] 3
      = some (false, [tier.general 2 ⟨1, [9], 0⟩, tier.single ⟨2⟩]) :=
  ⟨(C22_index_out_of_range [tier.general 2 ⟨1, [9], 0⟩, tier.single ⟨2⟩] 3 (by decide)).1,
    (C22_index_out_of_range [tier.general 2 ⟨1, [9], 0⟩, tier.single ⟨2⟩] 3 (by decide)).2.1⟩

end details
end link_layer
end bluetoe

namespace bluetoe
namespace link_layer
namespace details

/-! ## The entry codec through `at`, `add` and `remove` -/

theorem and_int_complement (e bits : Nat) (he : e < 4) :
    e &&& int_complement bits = e &&& (3 ^^^ bits) := by
  apply Nat.eq_of_testBit_eq
  intro k
  simp only [Nat.testBit_and, testBit_int_complement, Nat.testBit_xor, testBit_three]
  by_cases hk : k < 2
  · have h32 : k < 32 := by omega
    simp [hk, h32]
  · rw [testBit_of_lt_four e k he (by omega)]
    simp

theorem notification_queue_impl.at_add_state_same (s : notification_queue_impl)
    (i bits : Nat) (h : notification_queue_impl.byte_offset i < s.queue_.length)
    (hb : bits < 4) :
    (s.add_state i bits).at_ i = some (s.entry i ||| bits) := by
  rw [notification_queue_impl.at_eq_some (by simpa [notification_queue_impl.add_state] using h),
    notification_queue_impl.entry_add_state_same s i bits h hb]

theorem notification_queue_impl.at_add_state_other (s : notification_queue_impl)
    (i j bits : Nat) (hb : bits < 4) (hij : j ≠ i) :
    (s.add_state i bits).at_ j = s.at_ j := by
  rw [notification_queue_impl.at_eq_ite, notification_queue_impl.at_eq_ite,
    notification_queue_impl.entry_add_state_other s i j bits hb (Ne.symm hij)]
  simp [notification_queue_impl.add_state]

/-- C23: the entry codec. For every `Size`, every state whose array is that of the type,
all slots `i` and `j` below `Size` and `bits` in 1, 2, 3: `at` returns a value from 0 to 3;
after `add( i, bits )`, `at( i )` is the old value OR `bits`; after `remove( i, bits )`,
`at( i )` is the old value AND NOT `bits`; in both cases `at( j )` is as before for
`j ≠ i`; and `add` returns whether none of the bits was set. -/
theorem C23_entry_codec (Size : Nat) (s : notification_queue_impl) (i j bits : Nat)
    (hs : notification_queue_impl.storage_ok Size s) (hi : i < Size) (hj : j < Size)
    (hb : bits = 1 ∨ bits = 2 ∨ bits = 3) :
    ∃ e r s1 s2, s.at_ i = some e ∧ e ≤ 3
      ∧ (∃ v, s.at_ j = some v ∧ v ≤ 3)
      ∧ s.add i bits = some (r, s1) ∧ r = decide (e &&& bits = 0)
      ∧ s1.at_ i = some (e ||| bits) ∧ (j ≠ i → s1.at_ j = s.at_ j)
      ∧ s.remove i bits = some s2
      ∧ s2.at_ i = some (e &&& int_complement bits) ∧ (j ≠ i → s2.at_ j = s.at_ j) := by
  have hbi := notification_queue_impl.byte_offset_lt hs hi
  have hbj := notification_queue_impl.byte_offset_lt hs hj
  have hb4 : bits < 4 := by omega
  have he := notification_queue_impl.entry_lt_four s i
  have hv := notification_queue_impl.entry_lt_four s j
  refine ⟨s.entry i, decide (s.entry i &&& bits = 0), s.add_state i bits,
    s.remove_state i bits, notification_queue_impl.at_eq_some hbi, by omega,
    ⟨s.entry j, notification_queue_impl.at_eq_some hbj, by omega⟩,
    notification_queue_impl.add_eq_some hbi hb, rfl,
    notification_queue_impl.at_add_state_same s i bits hbi hb4,
    fun h => notification_queue_impl.at_add_state_other s i j bits hb4 h,
    notification_queue_impl.remove_eq_some hbi hb, ?_,
    fun h => notification_queue_impl.at_remove_state_other s i j bits hb4 h⟩
  rw [notification_queue_impl.at_remove_state_same s i bits hbi, and_int_complement _ _ he]

/-- C23 on a tier of five slots: slot 3, the last one of the first byte, against slot 4,
the first one of the second byte, with both bits. -/
theorem C23_entry_codec_witness :
    ∃ e r s1 s2, notification_queue_impl.at_ ⟨0, [0x61, 0x02], 5⟩ 3 = some e ∧ e ≤ 3
      ∧ (∃ v, notification_queue_impl.at_ ⟨0, [0x61, 0x02], 5⟩ 4 = some v ∧ v ≤ 3)
      ∧ notification_queue_impl.add ⟨0, [0x61, 0x02], 5⟩ 3 3 = some (r, s1)
      ∧ r = decide (e &&& 3 = 0)
      ∧ s1.at_ 3 = some (e ||| 3)
      ∧ (4 ≠ 3 → s1.at_ 4 = notification_queue_impl.at_ ⟨0, [0x61, 0x02], 5⟩ 4)
      ∧ notification_queue_impl.remove ⟨0, [0x61, 0x02], 5⟩ 3 3 = some s2
      ∧ s2.at_ 3 = some (e &&& int_complement 3)
      ∧ (4 ≠ 3 → s2.at_ 4 = notification_queue_impl.at_ ⟨0, [0x61, 0x02], 5⟩ 4) :=
  C23_entry_codec 5 ⟨0, [0x61, 0x02], 5⟩ 3 4 3 (by decide) (by decide) (by decide) (by decide)

/-! ## Bounds of the packed storage -/

theorem notification_queue_impl.dequeue_loop_indices_lt {Size : Nat}
    (s : notification_queue_impl) (hS : 0 < Size) :
    ∀ (fuel i : Nat) (ignore_first : Bool), i < Size →
      ∀ x ∈ notification_queue_impl.dequeue_loop_indices Size s fuel i ignore_first,
        x < Size := by
  intro fuel
  induction fuel with
  | zero =>
    intro i f _ x hx
    simp [notification_queue_impl.dequeue_loop_indices] at hx
  | succ fuel ih =>
    intro i f hi x hx
    unfold notification_queue_impl.dequeue_loop_indices at hx
    split at hx
    · rcases List.mem_cons.mp hx with rfl | hx
      · exact hi
      · split at hx
        · cases hx
        · split at hx
          · cases hx
          · split at hx
            · cases hx
            · exact ih ((i + 1) % Size) false (Nat.mod_lt _ hS) x hx
    · cases hx

/-- C26: bounds of the packed storage. For every index below `Size`, the byte offset is
below the number of array elements, the bit offset is 0, 2, 4 or 6, so the two bits of the
entry lie inside one byte, and the assertions of `at`, `add` and `remove` hold: the three
functions return. With the cursor below `Size`, every index that the loop of the dequeue
passes to `at` and `remove` is below `Size`, whatever the number of executions of its
body, and the dequeue returns. -/
theorem C26_bounds_safety (Size : Nat) (s : notification_queue_impl) (index bits : Nat)
    (hs : notification_queue_impl.storage_ok Size s) (hindex : index < Size)
    (hb : bits = 1 ∨ bits = 2 ∨ bits = 3) :
    notification_queue_impl.byte_offset index < (Size * bits_per_characteristc + 7) / 8
    ∧ (notification_queue_impl.bit_offset index = 0 ∨ notification_queue_impl.bit_offset index = 2
        ∨ notification_queue_impl.bit_offset index = 4
        ∨ notification_queue_impl.bit_offset index = 6)
    ∧ notification_queue_impl.bit_offset index + bits_per_characteristc ≤ 8
    ∧ (s.at_ index).isSome = true
    ∧ (s.add index bits).isSome = true
    ∧ (s.remove index bits).isSome = true
    ∧ (s.next_ < Size →
        (∀ fuel, ∀ x ∈ notification_queue_impl.dequeue_loop_indices Size s fuel s.next_ true,
          x < Size)
        ∧ (notification_queue_impl.dequeue_indication_or_confirmation Size s).isSome = true) := by
  have hbi := notification_queue_impl.byte_offset_lt hs hindex
  refine ⟨by rw [← hs.1]; exact hbi, ?_, ?_, ?_, ?_, ?_, ?_⟩
  · unfold notification_queue_impl.bit_offset bits_per_characteristc; omega
  · unfold notification_queue_impl.bit_offset bits_per_characteristc; omega
  · rw [notification_queue_impl.at_eq_some hbi]; rfl
  · rw [notification_queue_impl.add_eq_some hbi hb]; rfl
  · rw [notification_queue_impl.remove_eq_some hbi hb]; rfl
  · intro hc
    refine ⟨fun fuel => notification_queue_impl.dequeue_loop_indices_lt s (by omega) fuel
      s.next_ true hc, ?_⟩
    rw [notification_queue_impl.dequeue_eq_scan hs hc]; rfl

/-- C26 on a tier of nine slots, whose array has three bytes, at the last slot. -/
theorem C26_bounds_safety_witness :
    notification_queue_impl.byte_offset 8 < (9 * bits_per_characteristc + 7) / 8
    ∧ (notification_queue_impl.bit_offset 8 = 0 ∨ notification_queue_impl.bit_offset 8 = 2
        ∨ notification_queue_impl.bit_offset 8 = 4 ∨ notification_queue_impl.bit_offset 8 = 6)
    ∧ notification_queue_impl.bit_offset 8 + bits_per_characteristc ≤ 8
    ∧ (notification_queue_impl.at_ ⟨7, [0, 0, 0], 9⟩ 8).isSome = true
    ∧ (notification_queue_impl.add ⟨7, [0, 0, 0], 9⟩ 8 2).isSome = true
    ∧ (notification_queue_impl.remove ⟨7, [0, 0, 0], 9⟩ 8 2).isSome = true
    ∧ ((7 : Nat) < 9 →
        (∀ fuel, ∀ x ∈ notification_queue_impl.dequeue_loop_indices 9 ⟨7, [0, 0, 0], 9⟩ fuel 7
            true, x < 9)
        ∧ (notification_queue_impl.dequeue_indication_or_confirmation 9
            ⟨7, [0, 0, 0], 9⟩).isSome = true) :=
  C26_bounds_safety 9 ⟨7, [0, 0, 0], 9⟩ 8 2 (by decide) (by decide) (by decide)

end details
end link_layer
end bluetoe

namespace bluetoe
namespace link_layer
namespace details

/-! ## Independence of the two flags -/

theorem or_disjoint_and (e b1 b2 : Nat) (h : b1 &&& b2 = 0) : (e ||| b1) &&& b2 = e &&& b2 := by
  apply Nat.eq_of_testBit_eq
  intro k
  have h1 := congrArg (fun n => Nat.testBit n k) h
  simp only [Nat.testBit_and, Nat.testBit_or, Nat.zero_testBit] at h1 ⊢
  revert h1
  cases e.testBit k <;> cases b1.testBit k <;> cases b2.testBit k <;> simp

theorem byte_or_or_comm (b m1 m2 : Nat) :
    ((b ||| m1) % 256 ||| m2) % 256 = ((b ||| m2) % 256 ||| m1) % 256 := by
  apply Nat.eq_of_testBit_eq
  intro k
  simp only [testBit_mod_256, Nat.testBit_or]
  cases decide (k < 8) <;> cases b.testBit k <;> cases m1.testBit k <;> cases m2.testBit k <;> rfl

theorem notification_queue_impl.add_state_comm (s : notification_queue_impl)
    (i j b1 b2 : Nat) :
    (s.add_state i b1).add_state j b2 = (s.add_state j b2).add_state i b1 := by
  simp only [notification_queue_impl.add_state, getD_set, notification_queue_impl.mk.injEq,
    true_and, and_true]
  by_cases hab : notification_queue_impl.byte_offset i = notification_queue_impl.byte_offset j
  · rw [hab]
    by_cases hlen : notification_queue_impl.byte_offset j < s.queue_.length
    · simp only [hlen, and_self, if_true, List.set_set]
      rw [byte_or_or_comm]
    · have hle := Nat.le_of_not_lt hlen
      simp [List.set_eq_of_length_le hle]
  · have hba : ¬ notification_queue_impl.byte_offset j = notification_queue_impl.byte_offset i :=
      fun h => hab h.symm
    simp only [hab, hba, false_and, if_false]
    exact List.set_comm _ _ _ hab

/-- C24: in a general tier the two flags are independent. For every state whose array is
that of the type and all slots `i` and `j` below `Size`, equal or not,
`queue_notification( i )` followed by `queue_indication( j )` returns the same two results
and reaches the same state as `queue_indication( j )` followed by
`queue_notification( i )`. -/
theorem C24_queue_calls_commute (Size : Nat) (s : notification_queue_impl) (i j : Nat)
    (hs : notification_queue_impl.storage_ok Size s) (hi : i < Size) (hj : j < Size) :
    ∃ r1 r2 s1 s2 s3,
      notification_queue_impl.queue_notification Size s i = some (r1, s1)
      ∧ notification_queue_impl.queue_indication Size s1 j = some (r2, s3)
      ∧ notification_queue_impl.queue_indication Size s j = some (r2, s2)
      ∧ notification_queue_impl.queue_notification Size s2 i = some (r1, s3) := by
  have hbi := notification_queue_impl.byte_offset_lt hs hi
  have hbj := notification_queue_impl.byte_offset_lt hs hj
  have hsA := notification_queue_impl.storage_ok_add_state hs i notification_bit
  have hsB := notification_queue_impl.storage_ok_add_state hs j indication_bit
  have hqn := notification_queue_impl.queue_notification_eq hs hi
  have hqi := notification_queue_impl.queue_indication_eq hs hj
  have hqiA := notification_queue_impl.queue_indication_eq hsA hj
  have hqnB := notification_queue_impl.queue_notification_eq hsB hi
  have hocA : (s.add_state i notification_bit).outstanding_confirmation_
      = s.outstanding_confirmation_ := rfl
  by_cases hoc : s.outstanding_confirmation_ = j
  · rw [if_pos hoc] at hqi
    rw [hocA, if_pos hoc] at hqiA
    exact ⟨_, false, _, s, _, hqn, hqiA, hqi, hqn⟩
  · rw [if_neg hoc] at hqi
    rw [hocA, if_neg hoc] at hqiA
    have heA : (s.add_state i notification_bit).entry j &&& indication_bit
        = s.entry j &&& indication_bit := by
      by_cases hij : i = j
      · subst hij
        rw [notification_queue_impl.entry_add_state_same s i notification_bit hbi (by decide)]
        exact or_disjoint_and _ _ _ (by decide)
      · rw [notification_queue_impl.entry_add_state_other s i j notification_bit (by decide)
          hij]
    have heB : (s.add_state j indication_bit).entry i &&& notification_bit
        = s.entry i &&& notification_bit := by
      by_cases hij : j = i
      · subst hij
        rw [notification_queue_impl.entry_add_state_same s j indication_bit hbj (by decide)]
        exact or_disjoint_and _ _ _ (by decide)
      · rw [notification_queue_impl.entry_add_state_other s j i indication_bit (by decide)
          hij]
    rw [heA] at hqiA
    rw [heB, ← notification_queue_impl.add_state_comm s i j notification_bit indication_bit]
      at hqnB
    exact ⟨_, _, _, _, _, hqn, hqiA, hqi, hqnB⟩

/-- C24 on a tier of five slots with `i = j = 4`, while slot 1 awaits confirmation. -/
theorem C24_queue_calls_commute_witness :
    ∃ r1 r2 s1 s2 s3,
      notification_queue_impl.queue_notification 5 ⟨2, [0x41, 0x00], 1⟩ 4 = some (r1, s1)
      ∧ notification_queue_impl.queue_indication 5 s1 4 = some (r2, s3)
      ∧ notification_queue_impl.queue_indication 5 ⟨2, [0x41, 0x00], 1⟩ 4 = some (r2, s2)
      ∧ notification_queue_impl.queue_notification 5 s2 4 = some (r1, s3) :=
  C24_queue_calls_commute 5 ⟨2, [0x41, 0x00], 1⟩ 4 4 (by decide) (by decide) (by decide)

end details
end link_layer
end bluetoe

namespace bluetoe
namespace link_layer
namespace details

/-! ## The state invariant of the general tier -/

theorem tier.general_step_invariant {Size : Nat} {s : notification_queue_impl}
    (hs : notification_queue_impl.storage_ok Size s)
    (hinv : notification_queue_impl.state_invariant Size s)
    {o : operation} (ho : o.index_ok Size = true) :
    ∃ r s1, (tier.general Size s).step o = some (r, tier.general Size s1)
      ∧ notification_queue_impl.storage_ok Size s1
      ∧ notification_queue_impl.state_invariant Size s1 := by
  obtain ⟨hc, hle, hbit⟩ := hinv
  cases o with
  | queue_notification i =>
    have hi : i < Size := by simpa [operation.index_ok] using ho
    have hb := notification_queue_impl.byte_offset_lt hs hi
    refine ⟨.queued (decide (s.entry i &&& notification_bit = 0)),
      s.add_state i notification_bit, ?_,
      notification_queue_impl.storage_ok_add_state hs _ _, hc, hle, ?_⟩
    · simp [tier.step, tier.queue_notification,
        notification_queue_impl.queue_notification_eq hs hi]
    · intro hlt
      show (s.add_state i notification_bit).entry s.outstanding_confirmation_
        &&& indication_bit = 0
      by_cases hio : i = s.outstanding_confirmation_
      · rw [← hio, notification_queue_impl.entry_add_state_same s i notification_bit hb
          (by decide), or_disjoint_and _ _ _ (by decide)]
        rw [hio]
        exact hbit hlt
      · rw [notification_queue_impl.entry_add_state_other s i _ notification_bit (by decide)
          hio]
        exact hbit hlt
  | queue_indication i =>
    have hi : i < Size := by simpa [operation.index_ok] using ho
    by_cases hoc : s.outstanding_confirmation_ = i
    · refine ⟨.queued false, s, ?_, hs, hc, hle, hbit⟩
      simp [tier.step, tier.queue_indication,
        notification_queue_impl.queue_indication_eq hs hi, hoc]
    · refine ⟨.queued (decide (s.entry i &&& indication_bit = 0)),
        s.add_state i indication_bit, ?_,
        notification_queue_impl.storage_ok_add_state hs _ _, hc, hle, ?_⟩
      · simp [tier.step, tier.queue_indication,
          notification_queue_impl.queue_indication_eq hs hi, hoc]
      · intro hlt
        show (s.add_state i indication_bit).entry s.outstanding_confirmation_
          &&& indication_bit = 0
        rw [notification_queue_impl.entry_add_state_other s i _ indication_bit (by decide)
          (Ne.symm hoc)]
        exact hbit hlt
  | indication_confirmed =>
    refine ⟨.done, notification_queue_impl.indication_confirmed Size s, rfl, ?_, ?_⟩
    · unfold notification_queue_impl.indication_confirmed
      split <;> exact hs
    · unfold notification_queue_impl.indication_confirmed
      split
      · exact ⟨hc, Nat.le_refl _, fun h => absurd h (Nat.lt_irrefl _)⟩
      · exact ⟨hc, hle, hbit⟩
  | clear_indications_and_confirmations =>
    refine ⟨.done, notification_queue_impl.clear_indications_and_confirmations Size s, rfl,
      notification_queue_impl.storage_ok_clear hs, ?_⟩
    exact ⟨(by show 0 < Size; omega), Nat.le_refl _, fun h => absurd h (Nat.lt_irrefl _)⟩
  | dequeue_indication_or_confirmation =>
    obtain ⟨r, s1, heq, hs1, hc1, hcase⟩ := notification_queue_impl.dequeue_spec hs hc
    refine ⟨.entry r.1 r.2, s1, ?_, hs1, hc1, ?_⟩
    · simp [tier.step, tier.dequeue_indication_or_confirmation, heq]
    · rcases hcase with ⟨_, rfl, _⟩ | ⟨slot, hlt, _, _, rfl⟩ | ⟨slot, hlt, _, _, _, rfl⟩
      · exact ⟨hle, hbit⟩
      · have hb := notification_queue_impl.byte_offset_lt hs hlt
        refine ⟨Nat.le_of_lt hlt, fun _ => ?_⟩
        show (notification_queue_impl.remove_state
          { s with outstanding_confirmation_ := slot, next_ := (slot + 1) % Size } slot
          indication_bit).entry slot &&& indication_bit = 0
        rw [notification_queue_impl.entry_remove_state_same
          { s with outstanding_confirmation_ := slot, next_ := (slot + 1) % Size } slot
          indication_bit hb]
        exact and_clear_bit _ _ (by decide)
      · have hb := notification_queue_impl.byte_offset_lt hs hlt
        refine ⟨hle, fun hlt2 => ?_⟩
        show (notification_queue_impl.remove_state
          { s with next_ := (slot + 1) % Size } slot
          notification_bit).entry s.outstanding_confirmation_ &&& indication_bit = 0
        by_cases hso : slot = s.outstanding_confirmation_
        · have h0 : s.entry slot &&& indication_bit = 0 := by
            rw [hso]
            exact hbit hlt2
          have key : ∀ k, slot = k → (notification_queue_impl.remove_state
              { s with next_ := (slot + 1) % Size } slot notification_bit).entry k
              &&& indication_bit = 0 := by
            intro k hk
            subst hk
            rw [notification_queue_impl.entry_remove_state_same
              { s with next_ := (slot + 1) % Size } slot notification_bit hb,
              notification_queue_impl.clear_notification_keeps_indication]
            exact h0
          exact key _ hso
        · rw [notification_queue_impl.entry_remove_state_other
            { s with next_ := (slot + 1) % Size } slot _ notification_bit (by decide) hso]
          exact hbit hlt2

theorem tier.general_run_invariant (Size : Nat) :
    ∀ (ops : List operation) (s : notification_queue_impl),
      notification_queue_impl.storage_ok Size s →
      notification_queue_impl.state_invariant Size s →
      (∀ o ∈ ops, o.index_ok Size = true) →
      ∃ rs s1, (tier.general Size s).run ops = some (rs, tier.general Size s1)
        ∧ notification_queue_impl.storage_ok Size s1
        ∧ notification_queue_impl.state_invariant Size s1
  | [], s, hs, hinv, _ => ⟨[], s, rfl, hs, hinv⟩
  | o :: os, s, hs, hinv, hops => by
    obtain ⟨r, s1, h1, hs1, hinv1⟩ :=
      tier.general_step_invariant hs hinv (hops o (List.mem_cons_self _ _))
    obtain ⟨rs, s2, h2, hs2, hinv2⟩ := tier.general_run_invariant Size os s1 hs1 hinv1
      (fun o ho => hops o (List.mem_cons_of_mem _ ho))
    exact ⟨r :: rs, s2, tier.run_cons_of_step h1 h2, hs2, hinv2⟩

/-- C25: state invariant of the general tier. From the constructed state, every sequence
of the five operations with indices below `Size` runs to its end, and in the state it
reaches the cursor is below `Size`, the marker is at most `Size`, and when the marker
names a slot, the indication bit of that slot is clear. -/
theorem C25_state_invariant (Size : Nat) (ops : List operation) (hSize : 0 < Size)
    (hops : ∀ o ∈ ops, o.index_ok Size = true) :
    ∃ rs s1, (tier.general Size (notification_queue_impl.construct Size)).run ops
        = some (rs, tier.general Size s1)
      ∧ s1.next_ < Size ∧ s1.outstanding_confirmation_ ≤ Size
      ∧ (s1.outstanding_confirmation_ < Size →
          ∃ e, s1.at_ s1.outstanding_confirmation_ = some e ∧ e &&& indication_bit = 0) := by
  obtain ⟨rs, s1, h1, hs1, h2, h3, h4⟩ := tier.general_run_invariant Size ops
    (notification_queue_impl.construct Size) (notification_queue_impl.storage_ok_construct Size)
    ⟨hSize, Nat.le_refl _, fun h => absurd h (Nat.lt_irrefl _)⟩ hops
  refine ⟨rs, s1, h1, h2, h3, fun hlt => ⟨_, ?_, h4 hlt⟩⟩
  exact notification_queue_impl.at_eq_some (notification_queue_impl.byte_offset_lt hs1 hlt)

/-- C25 on a tier of three slots: slot 1 is queued for both kinds, its indication is
dequeued, and both kinds are queued for it again while it awaits confirmation. -/
theorem C25_state_invariant_witness :
    ∃ rs s1, (tier.general 3 (notification_queue_impl.construct 3)).run
          [.queue_indication 1, .queue_notification 1, .dequeue_indication_or_confirmation,
            .queue_indication 1, .queue_notification 1, .queue_indication 2,
            .dequeue_indication_or_confirmation] = some (rs, tier.general 3 s1)
      ∧ s1.next_ < 3 ∧ s1.outstanding_confirmation_ ≤ 3
      ∧ (s1.outstanding_confirmation_ < 3 →
          ∃ e, s1.at_ s1.outstanding_confirmation_ = some e ∧ e &&& indication_bit = 0) :=
  C25_state_invariant 3
    [.queue_indication 1, .queue_notification 1, .dequeue_indication_or_confirmation,
      .queue_indication 1, .queue_notification 1, .queue_indication 2,
      .dequeue_indication_or_confirmation] (by decide) (by decide)

end details
end link_layer
end bluetoe
